import Mathlib

/-!
# feast/types/Value.pb.go

A shallow embedding of the generated Go package `types`
(`sdk/go/protos/feast/types/Value.pb.go`): the `Value` oneof message, its
seventeen wrapper structs with their protobuf struct tags, the list
containers, the enum tables and the generated accessors.

Conventions of the embedding.

* A Go pointer `*T` is `Option T`; `none` is the nil pointer.
* A Go interface value is `Option` of its dynamic values; `none` is the nil
  interface.  The dynamic values of `isValue_Val` are the seventeen wrapper
  *pointers*, each of which may itself be nil.
* A Go slice is a `List`; the nil slice is the empty list.
* A Go `string` is its byte sequence.
* Fixed-width integers are integers in their range; floats are their IEEE-754
  bit patterns.
* A function that can dereference a pointer returns `Except Panic _`.
-/

namespace Feast

/-! ## Machine types -/

/-- One octet. -/
abbrev Byte := Fin 256

/-- Go `[]byte`. -/
abbrev GoBytes := List Byte

/-- Go `string`, as its byte sequence. -/
abbrev GoString := List Byte

/-- Go `int32`. -/
abbrev int32 := { i : Int // -2147483648 ≤ i ∧ i < 2147483648 }

/-- Go `int64`. -/
abbrev int64 := { i : Int // -9223372036854775808 ≤ i ∧ i < 9223372036854775808 }

/-- Go `float64`, as its 64-bit IEEE-754 pattern. -/
abbrev float64 := { n : Nat // n < 18446744073709551616 }

/-- Go `float32`, as its 32-bit IEEE-754 pattern. -/
abbrev float32 := { n : Nat // n < 4294967296 }

/-- Go's zero value of `int32`. -/
def int32.zero : int32 := ⟨0, by decide⟩

/-- Go's zero value of `int64`. -/
def int64.zero : int64 := ⟨0, by decide⟩

/-- Go's zero value of `float64` (positive zero, all bits clear). -/
def float64.zero : float64 := ⟨0, by decide⟩

/-- Go's zero value of `float32` (positive zero, all bits clear). -/
def float32.zero : float32 := ⟨0, by decide⟩

/-- What a Go run-time panic is, for the code embedded here. -/
inductive Panic where
  | nilDereference
  deriving DecidableEq, Repr

/-! ## Enums -/

/-- Source: `type Null int32`. -/
abbrev Null := int32

/-- Source: `Null_NULL Null = 0`. -/
def Null_NULL : Null := ⟨0, by decide⟩

/-- Source: `Null_name`. -/
def Null_name : List (Int × String) := [(0, "NULL")]

/-- Source: `Null_value`. -/
def Null_value : List (String × Int) := [("NULL", 0)]

/-- Source: `type ValueType_Enum int32`. -/
abbrev ValueType_Enum := int32

def ValueType_INVALID : ValueType_Enum := ⟨0, by decide⟩
def ValueType_BYTES : ValueType_Enum := ⟨1, by decide⟩
def ValueType_STRING : ValueType_Enum := ⟨2, by decide⟩
def ValueType_INT32 : ValueType_Enum := ⟨3, by decide⟩
def ValueType_INT64 : ValueType_Enum := ⟨4, by decide⟩
def ValueType_DOUBLE : ValueType_Enum := ⟨5, by decide⟩
def ValueType_FLOAT : ValueType_Enum := ⟨6, by decide⟩
def ValueType_BOOL : ValueType_Enum := ⟨7, by decide⟩
def ValueType_UNIX_TIMESTAMP : ValueType_Enum := ⟨8, by decide⟩
def ValueType_BYTES_LIST : ValueType_Enum := ⟨11, by decide⟩
def ValueType_STRING_LIST : ValueType_Enum := ⟨12, by decide⟩
def ValueType_INT32_LIST : ValueType_Enum := ⟨13, by decide⟩
def ValueType_INT64_LIST : ValueType_Enum := ⟨14, by decide⟩
def ValueType_DOUBLE_LIST : ValueType_Enum := ⟨15, by decide⟩
def ValueType_FLOAT_LIST : ValueType_Enum := ⟨16, by decide⟩
def ValueType_BOOL_LIST : ValueType_Enum := ⟨17, by decide⟩
def ValueType_UNIX_TIMESTAMP_LIST : ValueType_Enum := ⟨18, by decide⟩
def ValueType_NULL : ValueType_Enum := ⟨19, by decide⟩

/-- The constants of the `const ( ValueType_INVALID ... )` block, in source order. -/
def ValueType_Enum_consts : List (String × ValueType_Enum) :=
  [ ("ValueType_INVALID", ValueType_INVALID),
    ("ValueType_BYTES", ValueType_BYTES),
    ("ValueType_STRING", ValueType_STRING),
    ("ValueType_INT32", ValueType_INT32),
    ("ValueType_INT64", ValueType_INT64),
    ("ValueType_DOUBLE", ValueType_DOUBLE),
    ("ValueType_FLOAT", ValueType_FLOAT),
    ("ValueType_BOOL", ValueType_BOOL),
    ("ValueType_UNIX_TIMESTAMP", ValueType_UNIX_TIMESTAMP),
    ("ValueType_BYTES_LIST", ValueType_BYTES_LIST),
    ("ValueType_STRING_LIST", ValueType_STRING_LIST),
    ("ValueType_INT32_LIST", ValueType_INT32_LIST),
    ("ValueType_INT64_LIST", ValueType_INT64_LIST),
    ("ValueType_DOUBLE_LIST", ValueType_DOUBLE_LIST),
    ("ValueType_FLOAT_LIST", ValueType_FLOAT_LIST),
    ("ValueType_BOOL_LIST", ValueType_BOOL_LIST),
    ("ValueType_UNIX_TIMESTAMP_LIST", ValueType_UNIX_TIMESTAMP_LIST),
    ("ValueType_NULL", ValueType_NULL) ]

/-- Source: `ValueType_Enum_name`. -/
def ValueType_Enum_name : List (Int × String) :=
  [ (0, "INVALID"), (1, "BYTES"), (2, "STRING"), (3, "INT32"), (4, "INT64"),
    (5, "DOUBLE"), (6, "FLOAT"), (7, "BOOL"), (8, "UNIX_TIMESTAMP"),
    (11, "BYTES_LIST"), (12, "STRING_LIST"), (13, "INT32_LIST"), (14, "INT64_LIST"),
    (15, "DOUBLE_LIST"), (16, "FLOAT_LIST"), (17, "BOOL_LIST"),
    (18, "UNIX_TIMESTAMP_LIST"), (19, "NULL") ]

/-- Source: `ValueType_Enum_value`. -/
def ValueType_Enum_value : List (String × Int) :=
  [ ("INVALID", 0), ("BYTES", 1), ("STRING", 2), ("INT32", 3), ("INT64", 4),
    ("DOUBLE", 5), ("FLOAT", 6), ("BOOL", 7), ("UNIX_TIMESTAMP", 8),
    ("BYTES_LIST", 11), ("STRING_LIST", 12), ("INT32_LIST", 13), ("INT64_LIST", 14),
    ("DOUBLE_LIST", 15), ("FLOAT_LIST", 16), ("BOOL_LIST", 17),
    ("UNIX_TIMESTAMP_LIST", 18), ("NULL", 19) ]

/-! ## List containers -/

/-- Source: `type BytesList struct`. -/
structure BytesList where
  unknownFields : List Byte
  Val : List GoBytes
  deriving DecidableEq, Repr

/-- Source: `type StringList struct`. -/
structure StringList where
  unknownFields : List Byte
  Val : List GoString
  deriving DecidableEq, Repr

/-- Source: `type Int32List struct`. -/
structure Int32List where
  unknownFields : List Byte
  Val : List int32
  deriving DecidableEq, Repr

/-- Source: `type Int64List struct`. -/
structure Int64List where
  unknownFields : List Byte
  Val : List int64
  deriving DecidableEq, Repr

/-- Source: `type DoubleList struct`. -/
structure DoubleList where
  unknownFields : List Byte
  Val : List float64
  deriving DecidableEq, Repr

/-- Source: `type FloatList struct`. -/
structure FloatList where
  unknownFields : List Byte
  Val : List float32
  deriving DecidableEq, Repr

/-- Source: `type BoolList struct`. -/
structure BoolList where
  unknownFields : List Byte
  Val : List Bool
  deriving DecidableEq, Repr

/-! ## The oneof wrappers -/

/-- Source: `type Value_BytesVal struct`. -/
structure Value_BytesVal where
  BytesVal : GoBytes
  deriving DecidableEq, Repr

/-- Source: `type Value_StringVal struct`. -/
structure Value_StringVal where
  StringVal : GoString
  deriving DecidableEq, Repr

/-- Source: `type Value_Int32Val struct`. -/
structure Value_Int32Val where
  Int32Val : int32
  deriving DecidableEq, Repr

/-- Source: `type Value_Int64Val struct`. -/
structure Value_Int64Val where
  Int64Val : int64
  deriving DecidableEq, Repr

/-- Source: `type Value_DoubleVal struct`. -/
structure Value_DoubleVal where
  DoubleVal : float64
  deriving DecidableEq, Repr

/-- Source: `type Value_FloatVal struct`. -/
structure Value_FloatVal where
  FloatVal : float32
  deriving DecidableEq, Repr

/-- Source: `type Value_BoolVal struct`. -/
structure Value_BoolVal where
  BoolVal : Bool
  deriving DecidableEq, Repr

/-- Source: `type Value_UnixTimestampVal struct`. -/
structure Value_UnixTimestampVal where
  UnixTimestampVal : int64
  deriving DecidableEq, Repr

/-- Source: `type Value_BytesListVal struct`. -/
structure Value_BytesListVal where
  BytesListVal : Option BytesList
  deriving DecidableEq, Repr

/-- Source: `type Value_StringListVal struct`. -/
structure Value_StringListVal where
  StringListVal : Option StringList
  deriving DecidableEq, Repr

/-- Source: `type Value_Int32ListVal struct`. -/
structure Value_Int32ListVal where
  Int32ListVal : Option Int32List
  deriving DecidableEq, Repr

/-- Source: `type Value_Int64ListVal struct`. -/
structure Value_Int64ListVal where
  Int64ListVal : Option Int64List
  deriving DecidableEq, Repr

/-- Source: `type Value_DoubleListVal struct`. -/
structure Value_DoubleListVal where
  DoubleListVal : Option DoubleList
  deriving DecidableEq, Repr

/-- Source: `type Value_FloatListVal struct`. -/
structure Value_FloatListVal where
  FloatListVal : Option FloatList
  deriving DecidableEq, Repr

/-- Source: `type Value_BoolListVal struct`. -/
structure Value_BoolListVal where
  BoolListVal : Option BoolList
  deriving DecidableEq, Repr

/-- Source: `type Value_UnixTimestampListVal struct`. -/
structure Value_UnixTimestampListVal where
  UnixTimestampListVal : Option Int64List
  deriving DecidableEq, Repr

/-- Source: `type Value_NullVal struct`. -/
structure Value_NullVal where
  NullVal : Null
  deriving DecidableEq, Repr

/-- Source: `type isValue_Val interface`.  The seventeen `isValue_Val()` methods
have pointer receivers, so the dynamic value of a non-nil `isValue_Val` is a
pointer to one of the wrapper structs; that pointer may be nil. -/
inductive isValue_Val where
  | Value_BytesVal (p : Option Feast.Value_BytesVal)
  | Value_StringVal (p : Option Feast.Value_StringVal)
  | Value_Int32Val (p : Option Feast.Value_Int32Val)
  | Value_Int64Val (p : Option Feast.Value_Int64Val)
  | Value_DoubleVal (p : Option Feast.Value_DoubleVal)
  | Value_FloatVal (p : Option Feast.Value_FloatVal)
  | Value_BoolVal (p : Option Feast.Value_BoolVal)
  | Value_UnixTimestampVal (p : Option Feast.Value_UnixTimestampVal)
  | Value_BytesListVal (p : Option Feast.Value_BytesListVal)
  | Value_StringListVal (p : Option Feast.Value_StringListVal)
  | Value_Int32ListVal (p : Option Feast.Value_Int32ListVal)
  | Value_Int64ListVal (p : Option Feast.Value_Int64ListVal)
  | Value_DoubleListVal (p : Option Feast.Value_DoubleListVal)
  | Value_FloatListVal (p : Option Feast.Value_FloatListVal)
  | Value_BoolListVal (p : Option Feast.Value_BoolListVal)
  | Value_UnixTimestampListVal (p : Option Feast.Value_UnixTimestampListVal)
  | Value_NullVal (p : Option Feast.Value_NullVal)
  deriving DecidableEq, Repr

/-- Source: `type Value struct`.  `state` and `sizeCache` are caches of the
runtime and carry no data. -/
structure Value where
  unknownFields : List Byte
  Val : Option isValue_Val
  deriving DecidableEq, Repr

/-- Source: `type RepeatedValue struct`. -/
structure RepeatedValue where
  unknownFields : List Byte
  Val : List (Option Value)
  deriving DecidableEq, Repr

/-! ## Struct tags -/

/-- The wire-type item of a struct tag: `varint`, `fixed64`, `fixed32`, or `bytes`
(length-delimited). -/
inductive WireKind where
  | varint
  | fixed64
  | bytes
  | fixed32
  deriving DecidableEq, Repr

/-- The items of a `protobuf:"..."` struct tag, in the order the generator
writes them: wire type, field number, label (`opt` or `rep`), `packed`,
`name=`, `json=`, the edition (`proto3`), `enum=` and `oneof`. -/
structure StructTag where
  wire : WireKind
  number : Nat
  label : String
  packed : Bool
  name : String
  json : Option String
  edition : String
  enumName : Option String
  oneof : Bool
  deriving DecidableEq, Repr

/-- The Go scalar types that occur as field or element types. -/
inductive Scalar where
  | sliceOfByte
  | string
  | int32
  | int64
  | float64
  | float32
  | bool
  | Null
  deriving DecidableEq, Repr

/-- The list container messages. -/
inductive Message where
  | BytesList
  | StringList
  | Int32List
  | Int64List
  | DoubleList
  | FloatList
  | BoolList
  deriving DecidableEq, Repr

/-- The Go types that occur as the type of a wrapper's single field: a scalar,
or a pointer to a container message. -/
inductive GoType where
  | scalar (s : Scalar)
  | ptr (m : Message)
  deriving DecidableEq, Repr

/-- The embedding of each Go scalar type. -/
@[reducible] def Scalar.denote : Scalar → Type
  | .sliceOfByte => GoBytes
  | .string => GoString
  | .int32 => Feast.int32
  | .int64 => Feast.int64
  | .float64 => Feast.float64
  | .float32 => Feast.float32
  | .bool => Bool
  | .Null => Feast.Null

/-- The embedding of each container message. -/
@[reducible] def Message.denote : Message → Type
  | .BytesList => Feast.BytesList
  | .StringList => Feast.StringList
  | .Int32List => Feast.Int32List
  | .Int64List => Feast.Int64List
  | .DoubleList => Feast.DoubleList
  | .FloatList => Feast.FloatList
  | .BoolList => Feast.BoolList

/-- The embedding of each Go field type. -/
@[reducible] def GoType.denote : GoType → Type
  | .scalar s => s.denote
  | .ptr m => Option m.denote

/-- Go's zero value of each scalar type. -/
def Scalar.zero : (s : Scalar) → s.denote
  | .sliceOfByte => []
  | .string => []
  | .int32 => int32.zero
  | .int64 => int64.zero
  | .float64 => float64.zero
  | .float32 => float32.zero
  | .bool => false
  | .Null => int32.zero

/-- Go's zero value of each field type; the zero value of a pointer is nil. -/
def GoType.zero : (t : GoType) → t.denote
  | .scalar s => s.zero
  | .ptr _ => none

/-- A oneof wrapper struct as declared: its name, its field, the field's Go
type and the field's struct tag. -/
structure OneofWrapper where
  struct : String
  field : String
  goType : GoType
  tag : StructTag
  deriving DecidableEq, Repr

/-- The seventeen alternatives of the oneof `val`, named by their proto field. -/
inductive Variant where
  | bytes_val
  | string_val
  | int32_val
  | int64_val
  | double_val
  | float_val
  | bool_val
  | unix_timestamp_val
  | bytes_list_val
  | string_list_val
  | int32_list_val
  | int64_list_val
  | double_list_val
  | float_list_val
  | bool_list_val
  | unix_timestamp_list_val
  | null_val
  deriving DecidableEq, Repr

/-- The wrapper declaration of each alternative (source lines 405-471). -/
def Variant.wrapper : Variant → OneofWrapper
  | .bytes_val =>
    { struct := "Value_BytesVal", field := "BytesVal", goType := .scalar .sliceOfByte,
      tag := { wire := .bytes, number := 1, label := "opt", packed := false,
               name := "bytes_val", json := some "bytesVal", edition := "proto3",
               enumName := none, oneof := true } }
  | .string_val =>
    { struct := "Value_StringVal", field := "StringVal", goType := .scalar .string,
      tag := { wire := .bytes, number := 2, label := "opt", packed := false,
               name := "string_val", json := some "stringVal", edition := "proto3",
               enumName := none, oneof := true } }
  | .int32_val =>
    { struct := "Value_Int32Val", field := "Int32Val", goType := .scalar .int32,
      tag := { wire := .varint, number := 3, label := "opt", packed := false,
               name := "int32_val", json := some "int32Val", edition := "proto3",
               enumName := none, oneof := true } }
  | .int64_val =>
    { struct := "Value_Int64Val", field := "Int64Val", goType := .scalar .int64,
      tag := { wire := .varint, number := 4, label := "opt", packed := false,
               name := "int64_val", json := some "int64Val", edition := "proto3",
               enumName := none, oneof := true } }
  | .double_val =>
    { struct := "Value_DoubleVal", field := "DoubleVal", goType := .scalar .float64,
      tag := { wire := .fixed64, number := 5, label := "opt", packed := false,
               name := "double_val", json := some "doubleVal", edition := "proto3",
               enumName := none, oneof := true } }
  | .float_val =>
    { struct := "Value_FloatVal", field := "FloatVal", goType := .scalar .float32,
      tag := { wire := .fixed32, number := 6, label := "opt", packed := false,
               name := "float_val", json := some "floatVal", edition := "proto3",
               enumName := none, oneof := true } }
  | .bool_val =>
    { struct := "Value_BoolVal", field := "BoolVal", goType := .scalar .bool,
      tag := { wire := .varint, number := 7, label := "opt", packed := false,
               name := "bool_val", json := some "boolVal", edition := "proto3",
               enumName := none, oneof := true } }
  | .unix_timestamp_val =>
    { struct := "Value_UnixTimestampVal", field := "UnixTimestampVal", goType := .scalar .int64,
      tag := { wire := .varint, number := 8, label := "opt", packed := false,
               name := "unix_timestamp_val", json := some "unixTimestampVal", edition := "proto3",
               enumName := none, oneof := true } }
  | .bytes_list_val =>
    { struct := "Value_BytesListVal", field := "BytesListVal", goType := .ptr .BytesList,
      tag := { wire := .bytes, number := 11, label := "opt", packed := false,
               name := "bytes_list_val", json := some "bytesListVal", edition := "proto3",
               enumName := none, oneof := true } }
  | .string_list_val =>
    { struct := "Value_StringListVal", field := "StringListVal", goType := .ptr .StringList,
      tag := { wire := .bytes, number := 12, label := "opt", packed := false,
               name := "string_list_val", json := some "stringListVal", edition := "proto3",
               enumName := none, oneof := true } }
  | .int32_list_val =>
    { struct := "Value_Int32ListVal", field := "Int32ListVal", goType := .ptr .Int32List,
      tag := { wire := .bytes, number := 13, label := "opt", packed := false,
               name := "int32_list_val", json := some "int32ListVal", edition := "proto3",
               enumName := none, oneof := true } }
  | .int64_list_val =>
    { struct := "Value_Int64ListVal", field := "Int64ListVal", goType := .ptr .Int64List,
      tag := { wire := .bytes, number := 14, label := "opt", packed := false,
               name := "int64_list_val", json := some "int64ListVal", edition := "proto3",
               enumName := none, oneof := true } }
  | .double_list_val =>
    { struct := "Value_DoubleListVal", field := "DoubleListVal", goType := .ptr .DoubleList,
      tag := { wire := .bytes, number := 15, label := "opt", packed := false,
               name := "double_list_val", json := some "doubleListVal", edition := "proto3",
               enumName := none, oneof := true } }
  | .float_list_val =>
    { struct := "Value_FloatListVal", field := "FloatListVal", goType := .ptr .FloatList,
      tag := { wire := .bytes, number := 16, label := "opt", packed := false,
               name := "float_list_val", json := some "floatListVal", edition := "proto3",
               enumName := none, oneof := true } }
  | .bool_list_val =>
    { struct := "Value_BoolListVal", field := "BoolListVal", goType := .ptr .BoolList,
      tag := { wire := .bytes, number := 17, label := "opt", packed := false,
               name := "bool_list_val", json := some "boolListVal", edition := "proto3",
               enumName := none, oneof := true } }
  | .unix_timestamp_list_val =>
    { struct := "Value_UnixTimestampListVal", field := "UnixTimestampListVal", goType := .ptr .Int64List,
      tag := { wire := .bytes, number := 18, label := "opt", packed := false,
               name := "unix_timestamp_list_val", json := some "unixTimestampListVal", edition := "proto3",
               enumName := none, oneof := true } }
  | .null_val =>
    { struct := "Value_NullVal", field := "NullVal", goType := .scalar .Null,
      tag := { wire := .varint, number := 19, label := "opt", packed := false,
               name := "null_val", json := some "nullVal", edition := "proto3",
               enumName := some "feast.types.Null", oneof := true } }

/-- Source: `file_feast_types_Value_proto_msgTypes[1].OneofWrappers`, in order. -/
def OneofWrappers : List Variant :=
  [ .bytes_val, .string_val, .int32_val, .int64_val, .double_val,
    .float_val, .bool_val, .unix_timestamp_val, .bytes_list_val, .string_list_val, .int32_list_val,
    .int64_list_val, .double_list_val, .float_list_val, .bool_list_val, .unix_timestamp_list_val, .null_val ]

/-- The payload type of an alternative: the embedding of its wrapper's field type. -/
@[reducible] def Variant.Payload (X : Variant) : Type := X.wrapper.goType.denote

/-- Go's zero value of an alternative's payload type. -/
def Variant.zero (X : Variant) : X.Payload := X.wrapper.goType.zero

/-- The field number in the struct tag of an alternative's wrapper. -/
def Variant.number (X : Variant) : Nat := X.wrapper.tag.number

/-- The interface value holding a non-nil wrapper of alternative `X` with payload `p`. -/
def Variant.wrap : (X : Variant) → X.Payload → isValue_Val
  | .bytes_val, p => .Value_BytesVal (some { BytesVal := p })
  | .string_val, p => .Value_StringVal (some { StringVal := p })
  | .int32_val, p => .Value_Int32Val (some { Int32Val := p })
  | .int64_val, p => .Value_Int64Val (some { Int64Val := p })
  | .double_val, p => .Value_DoubleVal (some { DoubleVal := p })
  | .float_val, p => .Value_FloatVal (some { FloatVal := p })
  | .bool_val, p => .Value_BoolVal (some { BoolVal := p })
  | .unix_timestamp_val, p => .Value_UnixTimestampVal (some { UnixTimestampVal := p })
  | .bytes_list_val, p => .Value_BytesListVal (some { BytesListVal := p })
  | .string_list_val, p => .Value_StringListVal (some { StringListVal := p })
  | .int32_list_val, p => .Value_Int32ListVal (some { Int32ListVal := p })
  | .int64_list_val, p => .Value_Int64ListVal (some { Int64ListVal := p })
  | .double_list_val, p => .Value_DoubleListVal (some { DoubleListVal := p })
  | .float_list_val, p => .Value_FloatListVal (some { FloatListVal := p })
  | .bool_list_val, p => .Value_BoolListVal (some { BoolListVal := p })
  | .unix_timestamp_list_val, p => .Value_UnixTimestampListVal (some { UnixTimestampListVal := p })
  | .null_val, p => .Value_NullVal (some { NullVal := p })

/-- The interface value holding the nil pointer of alternative `X`'s wrapper type. -/
def Variant.nilWrapper : Variant → isValue_Val
  | .bytes_val => .Value_BytesVal none
  | .string_val => .Value_StringVal none
  | .int32_val => .Value_Int32Val none
  | .int64_val => .Value_Int64Val none
  | .double_val => .Value_DoubleVal none
  | .float_val => .Value_FloatVal none
  | .bool_val => .Value_BoolVal none
  | .unix_timestamp_val => .Value_UnixTimestampVal none
  | .bytes_list_val => .Value_BytesListVal none
  | .string_list_val => .Value_StringListVal none
  | .int32_list_val => .Value_Int32ListVal none
  | .int64_list_val => .Value_Int64ListVal none
  | .double_list_val => .Value_DoubleListVal none
  | .float_list_val => .Value_FloatListVal none
  | .bool_list_val => .Value_BoolListVal none
  | .unix_timestamp_list_val => .Value_UnixTimestampListVal none
  | .null_val => .Value_NullVal none

/-- The dynamic type of an interface value, as the alternative it belongs to. -/
def isValue_Val.variant : isValue_Val → Variant
  | .Value_BytesVal _ => .bytes_val
  | .Value_StringVal _ => .string_val
  | .Value_Int32Val _ => .int32_val
  | .Value_Int64Val _ => .int64_val
  | .Value_DoubleVal _ => .double_val
  | .Value_FloatVal _ => .float_val
  | .Value_BoolVal _ => .bool_val
  | .Value_UnixTimestampVal _ => .unix_timestamp_val
  | .Value_BytesListVal _ => .bytes_list_val
  | .Value_StringListVal _ => .string_list_val
  | .Value_Int32ListVal _ => .int32_list_val
  | .Value_Int64ListVal _ => .int64_list_val
  | .Value_DoubleListVal _ => .double_list_val
  | .Value_FloatListVal _ => .float_list_val
  | .Value_BoolListVal _ => .bool_list_val
  | .Value_UnixTimestampListVal _ => .unix_timestamp_list_val
  | .Value_NullVal _ => .null_val

/-- A `Value` built by the struct literal `&Value{Val: &Value_X{X: p}}`. -/
def Construct (X : Variant) (p : X.Payload) : Value :=
  { unknownFields := [], Val := some (X.wrap p) }

/-- The `Value` built by the struct literal `&Value{}`: no alternative set. -/
def Value.unset : Value := { unknownFields := [], Val := none }

/-! ## Generated accessors -/

/-- Source: `func (m *Value) GetVal() isValue_Val`. -/
def Value.GetVal (m : Option Value) : Option isValue_Val :=
  match m with
  | some m => m.Val
  | none => none

/-- Source: `func (x *Value) GetBytesVal()`.  The type assertion succeeds on every
interface value whose dynamic type is `*Value_BytesVal`, the nil pointer included;
`x.BytesVal` then dereferences it. -/
def Value.GetBytesVal (x : Option Value) : Except Panic GoBytes :=
  match Value.GetVal x with
  | some (.Value_BytesVal x) =>
    match x with
    | some x => .ok x.BytesVal
    | none => .error .nilDereference
  | _ => .ok []

/-- Source: `func (x *Value) GetStringVal()`.  The type assertion succeeds on every
interface value whose dynamic type is `*Value_StringVal`, the nil pointer included;
`x.StringVal` then dereferences it. -/
def Value.GetStringVal (x : Option Value) : Except Panic GoString :=
  match Value.GetVal x with
  | some (.Value_StringVal x) =>
    match x with
    | some x => .ok x.StringVal
    | none => .error .nilDereference
  | _ => .ok []

/-- Source: `func (x *Value) GetInt32Val()`.  The type assertion succeeds on every
interface value whose dynamic type is `*Value_Int32Val`, the nil pointer included;
`x.Int32Val` then dereferences it. -/
def Value.GetInt32Val (x : Option Value) : Except Panic int32 :=
  match Value.GetVal x with
  | some (.Value_Int32Val x) =>
    match x with
    | some x => .ok x.Int32Val
    | none => .error .nilDereference
  | _ => .ok int32.zero

/-- Source: `func (x *Value) GetInt64Val()`.  The type assertion succeeds on every
interface value whose dynamic type is `*Value_Int64Val`, the nil pointer included;
`x.Int64Val` then dereferences it. -/
def Value.GetInt64Val (x : Option Value) : Except Panic int64 :=
  match Value.GetVal x with
  | some (.Value_Int64Val x) =>
    match x with
    | some x => .ok x.Int64Val
    | none => .error .nilDereference
  | _ => .ok int64.zero

/-- Source: `func (x *Value) GetDoubleVal()`.  The type assertion succeeds on every
interface value whose dynamic type is `*Value_DoubleVal`, the nil pointer included;
`x.DoubleVal` then dereferences it. -/
def Value.GetDoubleVal (x : Option Value) : Except Panic float64 :=
  match Value.GetVal x with
  | some (.Value_DoubleVal x) =>
    match x with
    | some x => .ok x.DoubleVal
    | none => .error .nilDereference
  | _ => .ok float64.zero

/-- Source: `func (x *Value) GetFloatVal()`.  The type assertion succeeds on every
interface value whose dynamic type is `*Value_FloatVal`, the nil pointer included;
`x.FloatVal` then dereferences it. -/
def Value.GetFloatVal (x : Option Value) : Except Panic float32 :=
  match Value.GetVal x with
  | some (.Value_FloatVal x) =>
    match x with
    | some x => .ok x.FloatVal
    | none => .error .nilDereference
  | _ => .ok float32.zero

/-- Source: `func (x *Value) GetBoolVal()`.  The type assertion succeeds on every
interface value whose dynamic type is `*Value_BoolVal`, the nil pointer included;
`x.BoolVal` then dereferences it. -/
def Value.GetBoolVal (x : Option Value) : Except Panic Bool :=
  match Value.GetVal x with
  | some (.Value_BoolVal x) =>
    match x with
    | some x => .ok x.BoolVal
    | none => .error .nilDereference
  | _ => .ok false

/-- Source: `func (x *Value) GetUnixTimestampVal()`.  The type assertion succeeds on every
interface value whose dynamic type is `*Value_UnixTimestampVal`, the nil pointer included;
`x.UnixTimestampVal` then dereferences it. -/
def Value.GetUnixTimestampVal (x : Option Value) : Except Panic int64 :=
  match Value.GetVal x with
  | some (.Value_UnixTimestampVal x) =>
    match x with
    | some x => .ok x.UnixTimestampVal
    | none => .error .nilDereference
  | _ => .ok int64.zero

/-- Source: `func (x *Value) GetBytesListVal()`.  The type assertion succeeds on every
interface value whose dynamic type is `*Value_BytesListVal`, the nil pointer included;
`x.BytesListVal` then dereferences it. -/
def Value.GetBytesListVal (x : Option Value) : Except Panic (Option BytesList) :=
  match Value.GetVal x with
  | some (.Value_BytesListVal x) =>
    match x with
    | some x => .ok x.BytesListVal
    | none => .error .nilDereference
  | _ => .ok none

/-- Source: `func (x *Value) GetStringListVal()`.  The type assertion succeeds on every
interface value whose dynamic type is `*Value_StringListVal`, the nil pointer included;
`x.StringListVal` then dereferences it. -/
def Value.GetStringListVal (x : Option Value) : Except Panic (Option StringList) :=
  match Value.GetVal x with
  | some (.Value_StringListVal x) =>
    match x with
    | some x => .ok x.StringListVal
    | none => .error .nilDereference
  | _ => .ok none

/-- Source: `func (x *Value) GetInt32ListVal()`.  The type assertion succeeds on every
interface value whose dynamic type is `*Value_Int32ListVal`, the nil pointer included;
`x.Int32ListVal` then dereferences it. -/
def Value.GetInt32ListVal (x : Option Value) : Except Panic (Option Int32List) :=
  match Value.GetVal x with
  | some (.Value_Int32ListVal x) =>
    match x with
    | some x => .ok x.Int32ListVal
    | none => .error .nilDereference
  | _ => .ok none

/-- Source: `func (x *Value) GetInt64ListVal()`.  The type assertion succeeds on every
interface value whose dynamic type is `*Value_Int64ListVal`, the nil pointer included;
`x.Int64ListVal` then dereferences it. -/
def Value.GetInt64ListVal (x : Option Value) : Except Panic (Option Int64List) :=
  match Value.GetVal x with
  | some (.Value_Int64ListVal x) =>
    match x with
    | some x => .ok x.Int64ListVal
    | none => .error .nilDereference
  | _ => .ok none

/-- Source: `func (x *Value) GetDoubleListVal()`.  The type assertion succeeds on every
interface value whose dynamic type is `*Value_DoubleListVal`, the nil pointer included;
`x.DoubleListVal` then dereferences it. -/
def Value.GetDoubleListVal (x : Option Value) : Except Panic (Option DoubleList) :=
  match Value.GetVal x with
  | some (.Value_DoubleListVal x) =>
    match x with
    | some x => .ok x.DoubleListVal
    | none => .error .nilDereference
  | _ => .ok none

/-- Source: `func (x *Value) GetFloatListVal()`.  The type assertion succeeds on every
interface value whose dynamic type is `*Value_FloatListVal`, the nil pointer included;
`x.FloatListVal` then dereferences it. -/
def Value.GetFloatListVal (x : Option Value) : Except Panic (Option FloatList) :=
  match Value.GetVal x with
  | some (.Value_FloatListVal x) =>
    match x with
    | some x => .ok x.FloatListVal
    | none => .error .nilDereference
  | _ => .ok none

/-- Source: `func (x *Value) GetBoolListVal()`.  The type assertion succeeds on every
interface value whose dynamic type is `*Value_BoolListVal`, the nil pointer included;
`x.BoolListVal` then dereferences it. -/
def Value.GetBoolListVal (x : Option Value) : Except Panic (Option BoolList) :=
  match Value.GetVal x with
  | some (.Value_BoolListVal x) =>
    match x with
    | some x => .ok x.BoolListVal
    | none => .error .nilDereference
  | _ => .ok none

/-- Source: `func (x *Value) GetUnixTimestampListVal()`.  The type assertion succeeds on every
interface value whose dynamic type is `*Value_UnixTimestampListVal`, the nil pointer included;
`x.UnixTimestampListVal` then dereferences it. -/
def Value.GetUnixTimestampListVal (x : Option Value) : Except Panic (Option Int64List) :=
  match Value.GetVal x with
  | some (.Value_UnixTimestampListVal x) =>
    match x with
    | some x => .ok x.UnixTimestampListVal
    | none => .error .nilDereference
  | _ => .ok none

/-- Source: `func (x *Value) GetNullVal()`.  The type assertion succeeds on every
interface value whose dynamic type is `*Value_NullVal`, the nil pointer included;
`x.NullVal` then dereferences it. -/
def Value.GetNullVal (x : Option Value) : Except Panic Null :=
  match Value.GetVal x with
  | some (.Value_NullVal x) =>
    match x with
    | some x => .ok x.NullVal
    | none => .error .nilDereference
  | _ => .ok Null_NULL

/-- The accessor generated for alternative `X`. -/
def Value.Get (X : Variant) : Option Value → Except Panic X.Payload :=
  match X with
  | .bytes_val => Value.GetBytesVal
  | .string_val => Value.GetStringVal
  | .int32_val => Value.GetInt32Val
  | .int64_val => Value.GetInt64Val
  | .double_val => Value.GetDoubleVal
  | .float_val => Value.GetFloatVal
  | .bool_val => Value.GetBoolVal
  | .unix_timestamp_val => Value.GetUnixTimestampVal
  | .bytes_list_val => Value.GetBytesListVal
  | .string_list_val => Value.GetStringListVal
  | .int32_list_val => Value.GetInt32ListVal
  | .int64_list_val => Value.GetInt64ListVal
  | .double_list_val => Value.GetDoubleListVal
  | .float_list_val => Value.GetFloatListVal
  | .bool_list_val => Value.GetBoolListVal
  | .unix_timestamp_list_val => Value.GetUnixTimestampListVal
  | .null_val => Value.GetNullVal

/-- Source: `func (x *BytesList) GetVal() [][]byte`. -/
def BytesList.GetVal (x : Option BytesList) : List GoBytes :=
  match x with
  | some x => x.Val
  | none => []

/-- Source: `func (x *StringList) GetVal() []string`. -/
def StringList.GetVal (x : Option StringList) : List GoString :=
  match x with
  | some x => x.Val
  | none => []

/-- Source: `func (x *Int32List) GetVal() []int32`. -/
def Int32List.GetVal (x : Option Int32List) : List int32 :=
  match x with
  | some x => x.Val
  | none => []

/-- Source: `func (x *Int64List) GetVal() []int64`. -/
def Int64List.GetVal (x : Option Int64List) : List int64 :=
  match x with
  | some x => x.Val
  | none => []

/-- Source: `func (x *DoubleList) GetVal() []float64`. -/
def DoubleList.GetVal (x : Option DoubleList) : List float64 :=
  match x with
  | some x => x.Val
  | none => []

/-- Source: `func (x *FloatList) GetVal() []float32`. -/
def FloatList.GetVal (x : Option FloatList) : List float32 :=
  match x with
  | some x => x.Val
  | none => []

/-- Source: `func (x *BoolList) GetVal() []bool`. -/
def BoolList.GetVal (x : Option BoolList) : List Bool :=
  match x with
  | some x => x.Val
  | none => []

/-- Source: `func (x *RepeatedValue) GetVal() []*Value`. -/
def RepeatedValue.GetVal (x : Option RepeatedValue) : List (Option Value) :=
  match x with
  | some x => x.Val
  | none => []

/-! ## Container fields

The struct tag of the single data field `Val` of each container message, and
generic access to that field. -/

/-- The element type of each container's field `Val`. -/
def Message.elem : Message → Scalar
  | .BytesList => .sliceOfByte
  | .StringList => .string
  | .Int32List => .int32
  | .Int64List => .int64
  | .DoubleList => .float64
  | .FloatList => .float32
  | .BoolList => .bool

/-- The `protobuf:"..."` struct tag of each container's field `Val`
(source lines 512, 559, 606, 653, 700, 747, 794). -/
def Message.tag : Message → StructTag
  | .BytesList =>
    { wire := .bytes, number := 1, label := "rep", packed := false, name := "val",
      json := none, edition := "proto3", enumName := none, oneof := false }
  | .StringList =>
    { wire := .bytes, number := 1, label := "rep", packed := false, name := "val",
      json := none, edition := "proto3", enumName := none, oneof := false }
  | .Int32List =>
    { wire := .varint, number := 1, label := "rep", packed := true, name := "val",
      json := none, edition := "proto3", enumName := none, oneof := false }
  | .Int64List =>
    { wire := .varint, number := 1, label := "rep", packed := true, name := "val",
      json := none, edition := "proto3", enumName := none, oneof := false }
  | .DoubleList =>
    { wire := .fixed64, number := 1, label := "rep", packed := true, name := "val",
      json := none, edition := "proto3", enumName := none, oneof := false }
  | .FloatList =>
    { wire := .fixed32, number := 1, label := "rep", packed := true, name := "val",
      json := none, edition := "proto3", enumName := none, oneof := false }
  | .BoolList =>
    { wire := .varint, number := 1, label := "rep", packed := true, name := "val",
      json := none, edition := "proto3", enumName := none, oneof := false }

/-- Source: `RepeatedValue.Val`, `protobuf:"bytes,1,rep,name=val,proto3"`. -/
def RepeatedValue.tag : StructTag :=
  { wire := .bytes, number := 1, label := "rep", packed := false, name := "val",
    json := none, edition := "proto3", enumName := none, oneof := false }

/-- The container `m` with the given unknown-field data and field `Val`. -/
def Message.build : (m : Message) → List Byte → List m.elem.denote → m.denote
  | .BytesList, u, xs => { unknownFields := u, Val := xs }
  | .StringList, u, xs => { unknownFields := u, Val := xs }
  | .Int32List, u, xs => { unknownFields := u, Val := xs }
  | .Int64List, u, xs => { unknownFields := u, Val := xs }
  | .DoubleList, u, xs => { unknownFields := u, Val := xs }
  | .FloatList, u, xs => { unknownFields := u, Val := xs }
  | .BoolList, u, xs => { unknownFields := u, Val := xs }

/-- The field `Val` of a container. -/
def Message.Val : (m : Message) → m.denote → List m.elem.denote
  | .BytesList, x => x.Val
  | .StringList, x => x.Val
  | .Int32List, x => x.Val
  | .Int64List, x => x.Val
  | .DoubleList, x => x.Val
  | .FloatList, x => x.Val
  | .BoolList, x => x.Val

/-- The unknown-field data of a container. -/
def Message.unknown : (m : Message) → m.denote → List Byte
  | .BytesList, x => x.unknownFields
  | .StringList, x => x.unknownFields
  | .Int32List, x => x.unknownFields
  | .Int64List, x => x.unknownFields
  | .DoubleList, x => x.unknownFields
  | .FloatList, x => x.unknownFields
  | .BoolList, x => x.unknownFields

/-- The accessor `GetVal` generated for container `m`. -/
def Message.GetVal : (m : Message) → Option m.denote → List m.elem.denote
  | .BytesList => BytesList.GetVal
  | .StringList => StringList.GetVal
  | .Int32List => Int32List.GetVal
  | .Int64List => Int64List.GetVal
  | .DoubleList => DoubleList.GetVal
  | .FloatList => FloatList.GetVal
  | .BoolList => BoolList.GetVal

/-! ## Wire codec

`Value.pb.go` declares the messages and leaves encoding and decoding to the
protobuf runtime it imports (`google.golang.org/protobuf`), whose code is not
in this package.  What is missing is therefore the whole wire codec, `Encode`
and `Decode`; the definitions below model it from section 4.2 of the
specification, driven by the struct tags above: field numbers, wire types and
packing are read from the tags. -/

/-- Modelled from the spec: the failure of `Decode` (section 7, `MalformedWire`).
`outOfFuel` is the bounded recursion of this model running out; `Decode` never
returns it (`Decode_ne_outOfFuel`). -/
inductive DecodeError where
  | MalformedWire
  | outOfFuel
  deriving DecidableEq, Repr

deriving instance DecidableEq for Except

/-- The three-bit wire-type number of a wire type (section 6: the field tag packs
it with the field number). -/
def WireKind.number : WireKind → Nat
  | .varint => 0
  | .fixed64 => 1
  | .bytes => 2
  | .fixed32 => 5

/-- The wire type with a given wire-type number, if it is one of the four. -/
def WireKind.ofNumber : Nat → Option WireKind
  | 0 => some .varint
  | 1 => some .fixed64
  | 2 => some .bytes
  | 5 => some .fixed32
  | _ => none

/-- Modelled from the spec: base-128 varint of `n`, least significant group first,
at most `fuel` bytes. -/
def putVarint : Nat → Nat → List Byte
  | 0, _ => []
  | fuel + 1, n =>
    if h : n < 128 then [⟨n, by omega⟩]
    else ⟨n % 128 + 128, by omega⟩ :: putVarint fuel (n / 128)

/-- Modelled from the spec: the varint encoding of a 64-bit unsigned value
(at most ten bytes). -/
def appendVarint (v : Nat) : List Byte := putVarint 10 (v % 18446744073709551616)

/-- Modelled from the spec: read a varint of at most `fuel` bytes; `none` when the
buffer ends first or the continuation does not stop within `fuel` bytes. -/
def getVarint : Nat → List Byte → Option (Nat × List Byte)
  | 0, _ => none
  | _ + 1, [] => none
  | fuel + 1, b :: bs =>
    if b.val < 128 then some (b.val, bs)
    else
      match getVarint fuel bs with
      | some (v, rest) => some (b.val - 128 + 128 * v, rest)
      | none => none

/-- Modelled from the spec: read a varint of at most ten bytes as a 64-bit
unsigned value. -/
def consumeVarint (bs : List Byte) : Option (Nat × List Byte) :=
  match getVarint 10 bs with
  | some (v, rest) => some (v % 18446744073709551616, rest)
  | none => none

/-- Modelled from the spec: `w` bytes, little-endian. -/
def putFixed : Nat → Nat → List Byte
  | 0, _ => []
  | w + 1, n => ⟨n % 256, Nat.mod_lt _ (by decide)⟩ :: putFixed w (n / 256)

/-- Modelled from the spec: read `w` bytes, little-endian; `none` when fewer remain. -/
def getFixed : Nat → List Byte → Option (Nat × List Byte)
  | 0, bs => some (0, bs)
  | _ + 1, [] => none
  | w + 1, b :: bs =>
    match getFixed w bs with
    | some (v, rest) => some (b.val + 256 * v, rest)
    | none => none

/-- The value part of one field on the wire, by wire type. -/
inductive WireData where
  | varint (v : Nat)
  | fixed64 (v : Nat)
  | bytes (b : List Byte)
  | fixed32 (v : Nat)
  deriving DecidableEq, Repr

/-- The wire type of a field value. -/
def WireData.kind : WireData → WireKind
  | .varint _ => .varint
  | .fixed64 _ => .fixed64
  | .bytes _ => .bytes
  | .fixed32 _ => .fixed32

/-- Modelled from the spec: the bytes of a field value: a varint, eight or four
little-endian bytes, or a varint length followed by that many bytes. -/
def WireData.encode : WireData → List Byte
  | .varint v => appendVarint v
  | .fixed64 v => putFixed 8 (v % 18446744073709551616)
  | .bytes b => appendVarint b.length ++ b
  | .fixed32 v => putFixed 4 (v % 4294967296)

/-- Modelled from the spec: read one field value of wire type `k`; `none` when a
varint does not terminate, a fixed-width value is truncated, or a length prefix
exceeds what remains. -/
def consumeData (k : WireKind) (bs : List Byte) : Option (WireData × List Byte) :=
  match k with
  | .varint =>
    match consumeVarint bs with
    | some (v, rest) => some (.varint v, rest)
    | none => none
  | .fixed64 =>
    match getFixed 8 bs with
    | some (v, rest) => some (.fixed64 v, rest)
    | none => none
  | .bytes =>
    match consumeVarint bs with
    | some (n, rest) => if n ≤ rest.length then some (.bytes (rest.take n), rest.drop n) else none
    | none => none
  | .fixed32 =>
    match getFixed 4 bs with
    | some (v, rest) => some (.fixed32 v, rest)
    | none => none

/-- One field as it stands in a buffer: its number, its value, and its bytes. -/
structure RawField where
  number : Nat
  data : WireData
  raw : List Byte
  deriving DecidableEq, Repr

/-- Modelled from the spec: the field tag packing field number and wire type. -/
def appendTag (number : Nat) (k : WireKind) : List Byte :=
  appendVarint (number * 8 + k.number)

/-- The field with number `n` and value `d` as the encoder writes it. -/
def RawField.ofData (n : Nat) (d : WireData) : RawField :=
  { number := n, data := d, raw := appendTag n d.kind ++ d.encode }

/-- Modelled from the spec: read one tag-delimited field off the front of a buffer. -/
def consumeField (bs : List Byte) : Except DecodeError (RawField × List Byte) :=
  match consumeVarint bs with
  | none => .error .MalformedWire
  | some (key, afterKey) =>
    match WireKind.ofNumber (key % 8) with
    | none => .error .MalformedWire
    | some k =>
      match consumeData k afterKey with
      | none => .error .MalformedWire
      | some (d, rest) =>
        .ok ({ number := key / 8, data := d, raw := bs.take (bs.length - rest.length) }, rest)

/-- Modelled from the spec: scan a buffer into its fields, front to back, until the
cursor reaches the end. -/
def parseFields : Nat → List Byte → Except DecodeError (List RawField)
  | _, [] => .ok []
  | 0, _ :: _ => .error .outOfFuel
  | fuel + 1, b :: bs =>
    match consumeField (b :: bs) with
    | .error e => .error e
    | .ok (f, rest) =>
      match parseFields fuel rest with
      | .error e => .error e
      | .ok fs => .ok (f :: fs)

/-- Modelled from the spec: scan a whole buffer into its fields. -/
def scanFields (bs : List Byte) : Except DecodeError (List RawField) :=
  parseFields bs.length bs

/-- A wire value within the width of its wire type: 64 bits for a varint, a
fixed64 and a length prefix, 32 bits for a fixed32. -/
def WireData.fits : WireData → Prop
  | .varint v => v < 18446744073709551616
  | .fixed64 v => v < 18446744073709551616
  | .bytes b => b.length < 18446744073709551616
  | .fixed32 v => v < 4294967296

/-- Modelled from the spec: split a packed run into its values of wire type `k`. -/
def unpack (k : WireKind) : Nat → List Byte → Except DecodeError (List WireData)
  | _, [] => .ok []
  | 0, _ :: _ => .error .outOfFuel
  | fuel + 1, b :: bs =>
    match consumeData k (b :: bs) with
    | none => .error .MalformedWire
    | some (d, rest) =>
      match unpack k fuel rest with
      | .error e => .error e
      | .ok ds => .ok (d :: ds)

/-- Whether a field is the repeated field declared with struct tag `tag`, in the
form the tag declares: one length-delimited run when packed, one element of the
tag's wire type otherwise. -/
def StructTag.matchesRepeated (tag : StructTag) (f : RawField) : Prop :=
  (f.number = tag.number ∧ tag.packed = true ∧ f.data.kind = .bytes) ∨
  (f.number = tag.number ∧ tag.packed = false ∧ f.data.kind = tag.wire)

instance (tag : StructTag) (f : RawField) : Decidable (tag.matchesRepeated f) := by
  unfold StructTag.matchesRepeated
  infer_instance

/-- Unknown-field data as a decoder stores it: well-formed wire data none of
whose fields is one the message declares. -/
def UnknownData (known : RawField → Prop) (u : List Byte) : Prop :=
  ∃ fs, scanFields u = .ok fs ∧ ∀ f ∈ fs, ¬ known f

/-! ### Scalars -/

/-- Go's conversion `uint64(x)` of an `int32` (sign-extending). -/
def int32.toUint64 (x : int32) : Nat := (x.val % 18446744073709551616).toNat

/-- Go's conversion `int32(v)` of a `uint64` (keeping the low 32 bits). -/
def int32.ofUint64 (v : Nat) : int32 :=
  if h : v % 4294967296 < 2147483648 then ⟨((v % 4294967296 : Nat) : Int), by omega⟩
  else ⟨((v % 4294967296 : Nat) : Int) - 4294967296, by omega⟩

/-- Go's conversion `uint64(x)` of an `int64`. -/
def int64.toUint64 (x : int64) : Nat := (x.val % 18446744073709551616).toNat

/-- Go's conversion `int64(v)` of a `uint64`. -/
def int64.ofUint64 (v : Nat) : int64 :=
  if h : v % 18446744073709551616 < 9223372036854775808 then
    ⟨((v % 18446744073709551616 : Nat) : Int), by omega⟩
  else ⟨((v % 18446744073709551616 : Nat) : Int) - 18446744073709551616, by omega⟩

/-- Modelled from the spec: the wire value of a scalar payload: varint for
int32, int64, bool and the enum; fixed64 for double; fixed32 for float;
length-prefixed raw bytes for string and bytes. -/
def Scalar.toWire : (s : Scalar) → s.denote → WireData
  | .sliceOfByte, b => .bytes b
  | .string, b => .bytes b
  | .int32, x => .varint (int32.toUint64 x)
  | .int64, x => .varint (int64.toUint64 x)
  | .float64, x => .fixed64 x.val
  | .float32, x => .fixed32 x.val
  | .bool, b => .varint (if b then 1 else 0)
  | .Null, x => .varint (int32.toUint64 x)

/-- Modelled from the spec: the scalar payload carried by a wire value; `none`
when the wire type is not the scalar's. -/
def Scalar.ofWire : (s : Scalar) → WireData → Option s.denote
  | .sliceOfByte, .bytes b => some b
  | .string, .bytes b => some b
  | .int32, .varint v => some (int32.ofUint64 v)
  | .int64, .varint v => some (int64.ofUint64 v)
  | .float64, .fixed64 v => some ⟨v % 18446744073709551616, Nat.mod_lt _ (by decide)⟩
  | .float32, .fixed32 v => some ⟨v % 4294967296, Nat.mod_lt _ (by decide)⟩
  | .bool, .varint v => some (v != 0)
  | .Null, .varint v => some (int32.ofUint64 v)
  | _, _ => none


/-- Modelled from the spec: the scalar payloads carried by a list of wire values. -/
def Scalar.ofWireList (s : Scalar) : List WireData → Option (List s.denote)
  | [] => some []
  | d :: ds =>
    match s.ofWire d, Scalar.ofWireList s ds with
    | some x, some xs => some (x :: xs)
    | _, _ => none

/-! ### Containers -/

/-- Modelled from the spec: a repeated scalar field.  A packed field (numeric
lists) is one length-prefixed run of the element encodings without per-element
tags, and is not written at all when the list is empty; a non-packed field
(string and bytes lists) repeats tag and element encoding per entry. -/
def encodeRepeated (tag : StructTag) (s : Scalar) (xs : List s.denote) : List Byte :=
  if tag.packed then
    match xs with
    | [] => []
    | _ :: _ =>
      appendTag tag.number .bytes ++
        (WireData.bytes (xs.map fun x => (s.toWire x).encode).flatten).encode
  else (xs.map fun x => appendTag tag.number tag.wire ++ (s.toWire x).encode).flatten

/-- Modelled from the spec: the encoding of a container message: its field `Val`,
then its unknown-field data verbatim; a nil container encodes as the empty
message. -/
def encodeMessage (m : Message) (x : Option m.denote) : List Byte :=
  match x with
  | none => []
  | some x => encodeRepeated m.tag m.elem (m.Val x) ++ m.unknown x

/-- Run a decoding step over the fields of a buffer, in encounter order. -/
def foldFields {σ : Type} (step : σ → RawField → Except DecodeError σ) :
    σ → List RawField → Except DecodeError σ
  | acc, [] => .ok acc
  | acc, f :: fs =>
    match step acc f with
    | .error e => .error e
    | .ok acc' => foldFields step acc' fs

/-- Modelled from the spec: account for one field while decoding a repeated scalar
field with the given tag.  A field with the tag's number and wire type adds
its element(s) at the end; any other field is kept as unknown-field data. -/
def applyRepeated (tag : StructTag) (s : Scalar) (acc : List s.denote × List Byte)
    (f : RawField) : Except DecodeError (List s.denote × List Byte) :=
  if f.number = tag.number ∧ tag.packed = true ∧ f.data.kind = .bytes then
    match f.data with
    | .bytes run =>
      match unpack tag.wire run.length run with
      | .error e => .error e
      | .ok ds =>
        match s.ofWireList ds with
        | some xs => .ok (acc.1 ++ xs, acc.2)
        | none => .error .MalformedWire
    | _ => .error .MalformedWire
  else if f.number = tag.number ∧ tag.packed = false ∧ f.data.kind = tag.wire then
    match s.ofWire f.data with
    | some x => .ok (acc.1 ++ [x], acc.2)
    | none => .error .MalformedWire
  else .ok (acc.1, acc.2 ++ f.raw)

/-- Modelled from the spec: decode a message whose one declared field is a
repeated scalar: its elements in encounter order, and its unknown-field data. -/
def decodeRepeated (tag : StructTag) (s : Scalar) (bs : List Byte) :
    Except DecodeError (List s.denote × List Byte) :=
  match scanFields bs with
  | .error e => .error e
  | .ok fs => foldFields (applyRepeated tag s) ([], []) fs

/-- Modelled from the spec: decode a container message. -/
def decodeMessage (m : Message) (bs : List Byte) : Except DecodeError m.denote :=
  match decodeRepeated m.tag m.elem bs with
  | .error e => .error e
  | .ok (xs, u) => .ok (m.build u xs)

/-! ### Value -/

/-- Modelled from the spec: the wire value of a payload; a container is the
length-prefixed encoding of the container message. -/
def GoType.toWire : (t : GoType) → t.denote → WireData
  | .scalar s, p => s.toWire p
  | .ptr m, p => .bytes (encodeMessage m p)

/-- Modelled from the spec: the payload carried by a wire value. -/
def GoType.ofWire : (t : GoType) → WireData → Except DecodeError t.denote
  | .scalar s, d =>
    match s.ofWire d with
    | some p => .ok p
    | none => .error .MalformedWire
  | .ptr m, .bytes b =>
    match decodeMessage m b with
    | .ok x => .ok (some x)
    | .error e => .error e
  | .ptr _, _ => .error .MalformedWire

/-- Modelled from the spec: one populated alternative on the wire: the field tag
(field number and wire type of the wrapper's struct tag), then the payload. -/
def encodeField (X : Variant) (p : X.Payload) : List Byte :=
  appendTag X.number X.wrapper.tag.wire ++ (X.wrapper.goType.toWire p).encode

/-- The payload inside an interface value; `none` for a nil wrapper pointer. -/
def isValue_Val.payload : (i : isValue_Val) → Option i.variant.Payload
  | .Value_BytesVal p => p.map (·.BytesVal)
  | .Value_StringVal p => p.map (·.StringVal)
  | .Value_Int32Val p => p.map (·.Int32Val)
  | .Value_Int64Val p => p.map (·.Int64Val)
  | .Value_DoubleVal p => p.map (·.DoubleVal)
  | .Value_FloatVal p => p.map (·.FloatVal)
  | .Value_BoolVal p => p.map (·.BoolVal)
  | .Value_UnixTimestampVal p => p.map (·.UnixTimestampVal)
  | .Value_BytesListVal p => p.map (·.BytesListVal)
  | .Value_StringListVal p => p.map (·.StringListVal)
  | .Value_Int32ListVal p => p.map (·.Int32ListVal)
  | .Value_Int64ListVal p => p.map (·.Int64ListVal)
  | .Value_DoubleListVal p => p.map (·.DoubleListVal)
  | .Value_FloatListVal p => p.map (·.FloatListVal)
  | .Value_BoolListVal p => p.map (·.BoolListVal)
  | .Value_UnixTimestampListVal p => p.map (·.UnixTimestampListVal)
  | .Value_NullVal p => p.map (·.NullVal)

/-- Modelled from the spec: `Encode` of the wire codec (section 4.2), which the
package leaves to the imported runtime.  The populated alternative, if any,
then the unknown-field data verbatim; an unset `Value` writes no tag.  A nil
wrapper pointer populates nothing. -/
def Encode (v : Value) : List Byte :=
  (match v.Val with
   | none => []
   | some i =>
     match i.payload with
     | none => []
     | some p => encodeField i.variant p) ++ v.unknownFields

/-- The alternative whose struct tag has the field number and wire type of a field. -/
def recognize (f : RawField) : Option Variant :=
  OneofWrappers.find? fun X => decide (X.number = f.number ∧ X.wrapper.tag.wire = f.data.kind)

/-- Modelled from the spec: account for one field while decoding a `Value`.  A
recognized tag populates its alternative, replacing whatever was populated
before (the last occurrence wins); an unrecognized one is kept as unknown-field
data. -/
def Value.applyField (v : Value) (f : RawField) : Except DecodeError Value :=
  match recognize f with
  | none => .ok { v with unknownFields := v.unknownFields ++ f.raw }
  | some X =>
    match X.wrapper.goType.ofWire f.data with
    | .error e => .error e
    | .ok p => .ok { v with Val := some (X.wrap p) }

/-- Modelled from the spec: scan the fields of a buffer into a `Value`, starting
from `v`. -/
def decodeInto (v : Value) (bs : List Byte) : Except DecodeError Value :=
  match scanFields bs with
  | .error e => .error e
  | .ok fs => foldFields Value.applyField v fs

/-- Modelled from the spec: `Decode` of the wire codec (section 4.2), which the
package leaves to the imported runtime: scan the tag-delimited fields from the
unset `Value`. -/
def Decode (bs : List Byte) : Except DecodeError Value :=
  decodeInto Value.unset bs

/-- A buffer that is exactly one well-formed field of the oneof: it parses as a
single field with nothing left over, the field's tag is that of alternative `X`,
and the field's value carries payload `p`. -/
def IsOneofField (b : List Byte) (X : Variant) (p : X.Payload) : Prop :=
  ∃ f, consumeField b = .ok (f, []) ∧ recognize f = some X ∧
    X.wrapper.goType.ofWire f.data = .ok p

/-! ### Equality (section 4.1) -/

/-- Whether a 64-bit pattern is a NaN: exponent all ones, fraction not zero. -/
def float64.isNaN (x : float64) : Bool :=
  (x.val / 4503599627370496) % 2048 == 2047 && x.val % 4503599627370496 != 0

/-- Whether a 32-bit pattern is a NaN. -/
def float32.isNaN (x : float32) : Bool :=
  (x.val / 8388608) % 256 == 255 && x.val % 8388608 != 0

/-- Modelled from the spec: the equality of doubles of section 4.1, which the
source does not define: IEEE-754 comparison on patterns, where a NaN equals
nothing, the two zeros are equal, and otherwise the patterns must be the same. -/
def float64.ieeeEq (x y : float64) : Bool :=
  !x.isNaN && !y.isNaN &&
    (x.val == y.val || (x.val % 9223372036854775808 == 0 && y.val % 9223372036854775808 == 0))

/-- Modelled from the spec: the equality of floats of section 4.1, on 32-bit
patterns. -/
def float32.ieeeEq (x y : float32) : Bool :=
  !x.isNaN && !y.isNaN &&
    (x.val == y.val || (x.val % 2147483648 == 0 && y.val % 2147483648 == 0))

/-- Element-wise equality of two sequences under `eq`. -/
def listEq {α : Type} (eq : α → α → Bool) : List α → List α → Bool
  | [], [] => true
  | a :: as, b :: bs => eq a b && listEq eq as bs
  | _, _ => false

/-- Modelled from the spec: the equality rule of section 4.1 on scalar payloads:
IEEE-754 comparison for float and double, equality of values (byte for byte)
otherwise. -/
def Scalar.payloadEq : (s : Scalar) → s.denote → s.denote → Bool
  | .sliceOfByte, x, y => decide (x = y)
  | .string, x, y => decide (x = y)
  | .int32, x, y => decide (x = y)
  | .int64, x, y => decide (x = y)
  | .float64, x, y => float64.ieeeEq x y
  | .float32, x, y => float32.ieeeEq x y
  | .bool, x, y => decide (x = y)
  | .Null, x, y => decide (x = y)

/-- Whether two scalar payloads are the same, bit pattern for bit pattern (byte
for byte for bytes and strings). -/
def Scalar.same : (s : Scalar) → s.denote → s.denote → Bool
  | .sliceOfByte, x, y => decide (x = y)
  | .string, x, y => decide (x = y)
  | .int32, x, y => decide (x = y)
  | .int64, x, y => decide (x = y)
  | .float64, x, y => decide (x = y)
  | .float32, x, y => decide (x = y)
  | .bool, x, y => decide (x = y)
  | .Null, x, y => decide (x = y)

/-- Whether two payloads hold the same data: scalars bit pattern for bit
pattern, containers by the sequences `GetVal` returns, which must have the same
length and the same element, bit pattern for bit pattern, at every index. -/
def GoType.same : (t : GoType) → t.denote → t.denote → Bool
  | .scalar s, x, y => s.same x y
  | .ptr m, x, y => listEq m.elem.same (m.GetVal x) (m.GetVal y)

/-- Modelled from the spec: the equality rule of section 4.1 on payloads: scalars
by `Scalar.payloadEq` (IEEE-754 comparison for a float or double scalar), lists
byte for byte: the sequences `GetVal` returns have the same length and the same
element, bit pattern for bit pattern, at every index, also in a list of floats
or doubles. -/
def GoType.payloadEq : (t : GoType) → t.denote → t.denote → Bool
  | .scalar s, x, y => s.payloadEq x y
  | .ptr m, x, y => listEq m.elem.same (m.GetVal x) (m.GetVal y)

/-- Modelled from the spec: whether `v` equals `Construct X p` under the equality
rule of section 4.1: same discriminant and equal payload. -/
def Value.specEqConstruct (v : Value) (X : Variant) (p : X.Payload) : Bool :=
  match v.Val with
  | none => false
  | some i =>
    if h : i.variant = X then
      match i.payload with
      | none => false
      | some q => X.wrapper.goType.payloadEq (h ▸ q) p
    else false

/-- Whether a payload is a float or double scalar that is a NaN. -/
def GoType.hasNaN : (t : GoType) → t.denote → Bool
  | .scalar .float64, x => float64.isNaN x
  | .scalar .float32, x => float32.isNaN x
  | _, _ => false

/-- What decoding returns for an encoded payload: the payload itself, a nil
container being read back as the empty container. -/
def GoType.canon : (t : GoType) → t.denote → t.denote
  | .scalar _, p => p
  | .ptr m, none => some (m.build [] [])
  | .ptr _, some x => some x

/-- A payload whose unknown-field data, if it is a container carrying any, is
well-formed wire data of fields the container does not declare. -/
def GoType.wellFormed : (t : GoType) → t.denote → Prop
  | .scalar _, _ => True
  | .ptr _, none => True
  | .ptr m, some x => UnknownData m.tag.matchesRepeated (m.unknown x)

/-! ### RepeatedValue -/

/-- Modelled from the spec: the encoding of an embedded `*Value`; a nil pointer
encodes as the empty message. -/
def encodeValuePtr (v : Option Value) : List Byte :=
  match v with
  | none => []
  | some v => Encode v

/-- Modelled from the spec: the `RepeatedValue` codec of section 4.2, which the
package leaves to the imported runtime: the encoding is one length-prefixed
embedded `Value` encoding per element, each under the tag of the field `Val`
(number 1, length-delimited), in sequence order, then the unknown-field data. -/
def EncodeRepeatedValue (r : RepeatedValue) : List Byte :=
  (r.Val.map fun v =>
    appendTag RepeatedValue.tag.number RepeatedValue.tag.wire ++
      (WireData.bytes (encodeValuePtr v)).encode).flatten ++ r.unknownFields

/-- Whether a field is an element of `RepeatedValue.Val` as its struct tag
declares it. -/
def RepeatedValue.isElement (f : RawField) : Prop :=
  f.number = RepeatedValue.tag.number ∧ f.data.kind = RepeatedValue.tag.wire

instance (f : RawField) : Decidable (RepeatedValue.isElement f) := by
  unfold RepeatedValue.isElement
  infer_instance

/-- Modelled from the spec: account for one field while decoding a
`RepeatedValue`: an element is decoded as a `Value` and added at the end (decode
accumulates in encounter order); any other field is kept as unknown-field data. -/
def RepeatedValue.applyField (r : RepeatedValue) (f : RawField) :
    Except DecodeError RepeatedValue :=
  if RepeatedValue.isElement f then
    match f.data with
    | .bytes b =>
      match Decode b with
      | .ok v => .ok { r with Val := r.Val ++ [some v] }
      | .error e => .error e
    | _ => .error .MalformedWire
  else .ok { r with unknownFields := r.unknownFields ++ f.raw }

/-- Modelled from the spec: decoding of a `RepeatedValue` (section 4.2). -/
def DecodeRepeatedValue (bs : List Byte) : Except DecodeError RepeatedValue :=
  match scanFields bs with
  | .error e => .error e
  | .ok fs => foldFields RepeatedValue.applyField { unknownFields := [], Val := [] } fs

/-- What decoding returns for an encoded `*Value`: the same alternative and
payload (`GoType.canon`) and the same unknown-field data; a nil pointer and a
nil wrapper pointer are read back as a `Value` with nothing populated. -/
def Value.canon (v : Option Value) : Value :=
  match v with
  | none => Value.unset
  | some v =>
    { unknownFields := v.unknownFields,
      Val :=
        match v.Val with
        | none => none
        | some i =>
          match i.payload with
          | none => none
          | some p => some (i.variant.wrap (i.variant.wrapper.goType.canon p)) }

/-- A `*Value` whose unknown-field data, and that of the container it may hold,
is well-formed wire data of fields the message does not declare. -/
def Value.wellFormed (v : Option Value) : Prop :=
  match v with
  | none => True
  | some v =>
    (match v.Val with
      | none => True
      | some i =>
        match i.payload with
        | none => True
        | some p => i.variant.wrapper.goType.wellFormed p) ∧
    UnknownData (fun f => recognize f ≠ none) v.unknownFields

/-- Whether a `*Value` has no alternative populated. -/
def Value.unpopulated (v : Option Value) : Bool :=
  match Value.GetVal v with
  | none => true
  | some i => i.payload.isNone

/-- Whether `v` holds alternative `X` with the same payload as `p`, bit pattern
for bit pattern (`GoType.same`). -/
def Value.sameConstruct (v : Value) (X : Variant) (p : X.Payload) : Bool :=
  match v.Val with
  | none => false
  | some i =>
    if h : i.variant = X then
      match i.payload with
      | none => false
      | some q => X.wrapper.goType.same (h ▸ q) p
    else false

/-- Whether two `*Value`s hold the same content: both have nothing populated, or
both hold the same alternative with the same payload, bit pattern for bit
pattern (`GoType.same`; a NaN is the same as itself). -/
def Value.sameValue (a b : Option Value) : Bool :=
  match Value.GetVal b with
  | none => Value.unpopulated a
  | some j =>
    match j.payload with
    | none => Value.unpopulated a
    | some q =>
      match a with
      | none => false
      | some a => a.sameConstruct j.variant q

/-! ## Registration tables and enum methods -/

/-- Source: `protoreflect.EnumNumber`, which is declared as `int32`. -/
abbrev EnumNumber := int32

/-- Source: `func (x Null) Number() protoreflect.EnumNumber`, the conversion
`protoreflect.EnumNumber(x)` between two types whose underlying type is `int32`. -/
def Null.Number (x : Null) : EnumNumber := x

/-- The constants of the `const ( Null_NULL Null = 0 )` block. -/
def Null_consts : List (String × Null) := [("Null_NULL", Null_NULL)]

/-- The container structs of the package: the seven list containers and
`RepeatedValue`. -/
inductive Container where
  | list (m : Message)
  | RepeatedValue
  deriving DecidableEq, Repr

/-- All container structs, in source order. -/
def Container.all : List Container :=
  [ .list .BytesList, .list .StringList, .list .Int32List, .list .Int64List,
    .list .DoubleList, .list .FloatList, .list .BoolList, .RepeatedValue ]

/-- The fields a container struct declares besides the three fields of the
runtime (`state`, `sizeCache`, `unknownFields`): Go field name and struct tag. -/
def Container.dataFields : Container → List (String × StructTag)
  | .list m => [("Val", m.tag)]
  | .RepeatedValue => [("Val", RepeatedValue.tag)]

/-- The container declaration the specification describes (sections 3 and 4.2):
for each container, the proto name, label, number, wire type and packing of its
fields. -/
def specContainerFields : List (List (String × String × Nat × WireKind × Bool)) :=
  [ [("val", "rep", 1, .bytes, false)], [("val", "rep", 1, .bytes, false)],
    [("val", "rep", 1, .varint, true)], [("val", "rep", 1, .varint, true)],
    [("val", "rep", 1, .fixed64, true)], [("val", "rep", 1, .fixed32, true)],
    [("val", "rep", 1, .varint, true)], [("val", "rep", 1, .bytes, false)] ]

/-- The name of the `ValueType.Enum` member that corresponds to an alternative:
the proto field name without its `_val` suffix, in upper case. -/
def Variant.enumName (X : Variant) : String :=
  String.mk ((X.wrapper.tag.name.data.take (X.wrapper.tag.name.data.length - 4)).map
    Char.toUpper)

/-- The Go types registered for the file. -/
inductive GoTypeName where
  | Null
  | ValueType_Enum
  | ValueType
  | Value
  | BytesList
  | StringList
  | Int32List
  | Int64List
  | DoubleList
  | FloatList
  | BoolList
  | RepeatedValue
  deriving DecidableEq, Repr

/-- Source: `file_feast_types_Value_proto_goTypes`. -/
def file_feast_types_Value_proto_goTypes : List GoTypeName :=
  [ .Null, .ValueType_Enum, .ValueType, .Value, .BytesList, .StringList, .Int32List,
    .Int64List, .DoubleList, .FloatList, .BoolList, .RepeatedValue ]

/-- Source: `file_feast_types_Value_proto_depIdxs`. -/
def file_feast_types_Value_proto_depIdxs : List Nat :=
  [4, 5, 6, 7, 8, 9, 10, 7, 0, 3, 10, 10, 10, 10, 0]

/-- Source: `NumEnums: 2` in `file_feast_types_Value_proto_init`. -/
def NumEnums : Nat := 2

/-- Source: `NumMessages: 10` in `file_feast_types_Value_proto_init`. -/
def NumMessages : Nat := 10

/-- The registered Go type a wrapper field's type refers to, if it is a message or
an enum: the message behind a pointer, or `Null`. -/
def GoType.typeName : GoType → Option GoTypeName
  | .ptr .BytesList => some .BytesList
  | .ptr .StringList => some .StringList
  | .ptr .Int32List => some .Int32List
  | .ptr .Int64List => some .Int64List
  | .ptr .DoubleList => some .DoubleList
  | .ptr .FloatList => some .FloatList
  | .ptr .BoolList => some .BoolList
  | .scalar .Null => some .Null
  | .scalar _ => none

/-- The message- or enum-typed fields of the file, in declaration order, with the
Go type each refers to: those among the oneof wrappers of `Value`, then
`RepeatedValue.Val`, whose elements are `*Value`. -/
def typedFields : List (String × GoTypeName) :=
  (OneofWrappers.filterMap fun X =>
    X.wrapper.goType.typeName.map fun t => (X.wrapper.tag.name, t)) ++
  [("RepeatedValue.val", .Value)]

/-- The eight list alternatives of the oneof. -/
inductive ListVariant where
  | bytes_list_val
  | string_list_val
  | int32_list_val
  | int64_list_val
  | double_list_val
  | float_list_val
  | bool_list_val
  | unix_timestamp_list_val
  deriving DecidableEq, Repr

/-- A list alternative as an alternative of the oneof. -/
def ListVariant.variant : ListVariant → Variant
  | .bytes_list_val => .bytes_list_val
  | .string_list_val => .string_list_val
  | .int32_list_val => .int32_list_val
  | .int64_list_val => .int64_list_val
  | .double_list_val => .double_list_val
  | .float_list_val => .float_list_val
  | .bool_list_val => .bool_list_val
  | .unix_timestamp_list_val => .unix_timestamp_list_val

/-- The container a list alternative carries. -/
def ListVariant.message : ListVariant → Message
  | .bytes_list_val => .BytesList
  | .string_list_val => .StringList
  | .int32_list_val => .Int32List
  | .int64_list_val => .Int64List
  | .double_list_val => .DoubleList
  | .float_list_val => .FloatList
  | .bool_list_val => .BoolList
  | .unix_timestamp_list_val => .Int64List

/-- The chained call `v.GetXListVal().GetVal()` for each list alternative. -/
def ListVariant.chain : (L : ListVariant) → Option Value →
    Except Panic (List L.message.elem.denote)
  | .bytes_list_val, v => (Value.GetBytesListVal v).map BytesList.GetVal
  | .string_list_val, v => (Value.GetStringListVal v).map StringList.GetVal
  | .int32_list_val, v => (Value.GetInt32ListVal v).map Int32List.GetVal
  | .int64_list_val, v => (Value.GetInt64ListVal v).map Int64List.GetVal
  | .double_list_val, v => (Value.GetDoubleListVal v).map DoubleList.GetVal
  | .float_list_val, v => (Value.GetFloatListVal v).map FloatList.GetVal
  | .bool_list_val, v => (Value.GetBoolListVal v).map BoolList.GetVal
  | .unix_timestamp_list_val, v => (Value.GetUnixTimestampListVal v).map Int64List.GetVal

/-! ## Tables of the specification -/

/-- The tag table of the specification (section 3): proto field name, field number
and payload type.  A payload that the table names by its message (`BytesList`,
...) is held in Go through a pointer to that message. -/
def specTagTable : List (String × Nat × GoType) :=
  [ ("bytes_val", 1, .scalar .sliceOfByte), ("string_val", 2, .scalar .string), ("int32_val", 3, .scalar .int32),
    ("int64_val", 4, .scalar .int64), ("double_val", 5, .scalar .float64), ("float_val", 6, .scalar .float32),
    ("bool_val", 7, .scalar .bool), ("unix_timestamp_val", 8, .scalar .int64),
    ("bytes_list_val", 11, .ptr .BytesList), ("string_list_val", 12, .ptr .StringList),
    ("int32_list_val", 13, .ptr .Int32List), ("int64_list_val", 14, .ptr .Int64List),
    ("double_list_val", 15, .ptr .DoubleList), ("float_list_val", 16, .ptr .FloatList),
    ("bool_list_val", 17, .ptr .BoolList), ("unix_timestamp_list_val", 18, .ptr .Int64List),
    ("null_val", 19, .scalar .Null) ]

/-- The wire type the specification (section 4.2) assigns to each alternative, in
the vocabulary of the struct tags: `varint`, `fixed64`, `fixed32`, and `bytes`
for length-delimited. -/
def specWireType : Variant → WireKind
  | .int32_val | .int64_val | .bool_val | .unix_timestamp_val | .null_val => .varint
  | .double_val => .fixed64
  | .float_val => .fixed32
  | .bytes_val | .string_val => .bytes
  | .bytes_list_val | .string_list_val | .int32_list_val | .int64_list_val
  | .double_list_val | .float_list_val | .bool_list_val | .unix_timestamp_list_val => .bytes

/-! # Theorems -/

/-! ## The tag table -/

theorem mem_OneofWrappers (X : Variant) : X ∈ OneofWrappers := by
  cases X <;> decide

/-- C1: the seventeen registered wrappers carry, in their struct tags and field
types, exactly the field numbers and payload types of the tag table:
bytes_val=1 ([]byte), ..., null_val=19 (Null); every alternative is registered. -/
theorem wrappers_match_spec_table :
    OneofWrappers.length = 17 ∧
    (∀ X : Variant, X ∈ OneofWrappers) ∧
    OneofWrappers.map (fun X => (X.wrapper.tag.name, X.wrapper.tag.number, X.wrapper.goType))
      = specTagTable := by
  refine ⟨by decide, mem_OneofWrappers, by decide⟩

/-- C4: the wire type declared in the struct tag of every alternative is the one
the specification assigns: varint for int32, int64, bool, unix_timestamp and the
enum null; fixed64 for double; fixed32 for float; length-delimited (`bytes`) for
bytes, string and the eight list alternatives. -/
theorem wire_types_match_spec (X : Variant) : X.wrapper.tag.wire = specWireType X := by
  cases X <;> decide

/-- C6: no alternative has field number 9 or 10; the seventeen field numbers are
pairwise distinct and are exactly 1..8 and 11..19; and no constant of
`ValueType_Enum`, nor key of its name table, is 9 or 10. -/
theorem tags_nine_ten_unassigned :
    (∀ X : Variant, X.number ≠ 9 ∧ X.number ≠ 10) ∧
    (OneofWrappers.map Variant.number).Nodup ∧
    (∀ n : Nat, (∃ X : Variant, X.number = n) ↔ (1 ≤ n ∧ n ≤ 8) ∨ (11 ≤ n ∧ n ≤ 19)) ∧
    (∀ c ∈ ValueType_Enum_consts, c.2.val ≠ 9 ∧ c.2.val ≠ 10) ∧
    (∀ e ∈ ValueType_Enum_name, e.1 ≠ 9 ∧ e.1 ≠ 10) ∧
    (∀ e ∈ ValueType_Enum_value, e.2 ≠ 9 ∧ e.2 ≠ 10) := by
  refine ⟨fun X => by cases X <;> decide, by decide, ?_, by decide, by decide, by decide⟩
  intro n
  constructor
  · rintro ⟨X, rfl⟩
    cases X <;> decide
  · intro h
    have hn : n = 1 ∨ n = 2 ∨ n = 3 ∨ n = 4 ∨ n = 5 ∨ n = 6 ∨ n = 7 ∨ n = 8 ∨ n = 11 ∨
        n = 12 ∨ n = 13 ∨ n = 14 ∨ n = 15 ∨ n = 16 ∨ n = 17 ∨ n = 18 ∨ n = 19 := by omega
    rcases hn with h | h | h | h | h | h | h | h | h | h | h | h | h | h | h | h | h <;> subst h
    exacts [⟨.bytes_val, rfl⟩, ⟨.string_val, rfl⟩, ⟨.int32_val, rfl⟩, ⟨.int64_val, rfl⟩,
      ⟨.double_val, rfl⟩, ⟨.float_val, rfl⟩, ⟨.bool_val, rfl⟩, ⟨.unix_timestamp_val, rfl⟩,
      ⟨.bytes_list_val, rfl⟩, ⟨.string_list_val, rfl⟩, ⟨.int32_list_val, rfl⟩,
      ⟨.int64_list_val, rfl⟩, ⟨.double_list_val, rfl⟩, ⟨.float_list_val, rfl⟩,
      ⟨.bool_list_val, rfl⟩, ⟨.unix_timestamp_list_val, rfl⟩, ⟨.null_val, rfl⟩]

/-! ## Accessors -/

/-- C3: on a `Value` whose `Val` holds the wrapper of alternative `X` with payload
`p`, the accessor generated for `X` returns exactly `p`; in particular
`GetInt32Val` of a `Value` holding int32 42 is 42. -/
theorem accessor_returns_payload :
    (∀ (X : Variant) (p : X.Payload) (u : List Byte),
      Value.Get X (some { unknownFields := u, Val := some (X.wrap p) }) = .ok p) ∧
    Value.GetInt32Val (some (Construct .int32_val ⟨42, by decide⟩)) = .ok ⟨42, by decide⟩ := by
  refine ⟨fun X p u => ?_, rfl⟩
  cases X <;> rfl

theorem get_other_variant (v : Option Value) (i : isValue_Val) (Y : Variant)
    (h : Value.GetVal v = some i) (hY : Y ≠ i.variant) : Value.Get Y v = .ok Y.zero := by
  cases Y <;> cases i <;>
    first
      | exact absurd rfl hY
      | (simp only [Value.Get, Value.GetBytesVal, Value.GetStringVal, Value.GetInt32Val,
          Value.GetInt64Val, Value.GetDoubleVal, Value.GetFloatVal, Value.GetBoolVal,
          Value.GetUnixTimestampVal, Value.GetBytesListVal, Value.GetStringListVal,
          Value.GetInt32ListVal, Value.GetInt64ListVal, Value.GetDoubleListVal,
          Value.GetFloatListVal, Value.GetBoolListVal, Value.GetUnixTimestampListVal,
          Value.GetNullVal, h]
         rfl)

theorem get_unset (v : Option Value) (Y : Variant) (h : Value.GetVal v = none) :
    Value.Get Y v = .ok Y.zero := by
  cases Y <;>
    simp only [Value.Get, Value.GetBytesVal, Value.GetStringVal, Value.GetInt32Val,
      Value.GetInt64Val, Value.GetDoubleVal, Value.GetFloatVal, Value.GetBoolVal,
      Value.GetUnixTimestampVal, Value.GetBytesListVal, Value.GetStringListVal,
      Value.GetInt32ListVal, Value.GetInt64ListVal, Value.GetDoubleListVal,
      Value.GetFloatListVal, Value.GetBoolListVal, Value.GetUnixTimestampListVal,
      Value.GetNullVal, h] <;> rfl

theorem get_wrap (v : Option Value) (X : Variant) (p : X.Payload)
    (h : Value.GetVal v = some (X.wrap p)) : Value.Get X v = .ok p := by
  cases X <;>
    simp only [Value.Get, Value.GetBytesVal, Value.GetStringVal, Value.GetInt32Val,
      Value.GetInt64Val, Value.GetDoubleVal, Value.GetFloatVal, Value.GetBoolVal,
      Value.GetUnixTimestampVal, Value.GetBytesListVal, Value.GetStringListVal,
      Value.GetInt32ListVal, Value.GetInt64ListVal, Value.GetDoubleListVal,
      Value.GetFloatListVal, Value.GetBoolListVal, Value.GetUnixTimestampListVal,
      Value.GetNullVal, h, Variant.wrap]

theorem get_nilWrapper (v : Option Value) (X : Variant)
    (h : Value.GetVal v = some X.nilWrapper) : Value.Get X v = .error .nilDereference := by
  cases X <;>
    simp only [Value.Get, Value.GetBytesVal, Value.GetStringVal, Value.GetInt32Val,
      Value.GetInt64Val, Value.GetDoubleVal, Value.GetFloatVal, Value.GetBoolVal,
      Value.GetUnixTimestampVal, Value.GetBytesListVal, Value.GetStringListVal,
      Value.GetInt32ListVal, Value.GetInt64ListVal, Value.GetDoubleListVal,
      Value.GetFloatListVal, Value.GetBoolListVal, Value.GetUnixTimestampListVal,
      Value.GetNullVal, h, Variant.nilWrapper]

theorem variant_wrap (X : Variant) (p : X.Payload) : (X.wrap p).variant = X := by
  cases X <;> rfl

theorem variant_nilWrapper (X : Variant) : X.nilWrapper.variant = X := by
  cases X <;> rfl

/-- Every interface value is either the nil wrapper pointer of its alternative or
a wrapper of that alternative around some payload. -/
theorem isValue_Val_cases (i : isValue_Val) :
    i = i.variant.nilWrapper ∨ ∃ p : i.variant.Payload, i = i.variant.wrap p := by
  cases i with
  | Value_BytesVal q => cases q with | none => exact .inl rfl | some w => exact .inr ⟨w.1, rfl⟩
  | Value_StringVal q => cases q with | none => exact .inl rfl | some w => exact .inr ⟨w.1, rfl⟩
  | Value_Int32Val q => cases q with | none => exact .inl rfl | some w => exact .inr ⟨w.1, rfl⟩
  | Value_Int64Val q => cases q with | none => exact .inl rfl | some w => exact .inr ⟨w.1, rfl⟩
  | Value_DoubleVal q => cases q with | none => exact .inl rfl | some w => exact .inr ⟨w.1, rfl⟩
  | Value_FloatVal q => cases q with | none => exact .inl rfl | some w => exact .inr ⟨w.1, rfl⟩
  | Value_BoolVal q => cases q with | none => exact .inl rfl | some w => exact .inr ⟨w.1, rfl⟩
  | Value_UnixTimestampVal q =>
    cases q with | none => exact .inl rfl | some w => exact .inr ⟨w.1, rfl⟩
  | Value_BytesListVal q => cases q with | none => exact .inl rfl | some w => exact .inr ⟨w.1, rfl⟩
  | Value_StringListVal q =>
    cases q with | none => exact .inl rfl | some w => exact .inr ⟨w.1, rfl⟩
  | Value_Int32ListVal q => cases q with | none => exact .inl rfl | some w => exact .inr ⟨w.1, rfl⟩
  | Value_Int64ListVal q => cases q with | none => exact .inl rfl | some w => exact .inr ⟨w.1, rfl⟩
  | Value_DoubleListVal q =>
    cases q with | none => exact .inl rfl | some w => exact .inr ⟨w.1, rfl⟩
  | Value_FloatListVal q => cases q with | none => exact .inl rfl | some w => exact .inr ⟨w.1, rfl⟩
  | Value_BoolListVal q => cases q with | none => exact .inl rfl | some w => exact .inr ⟨w.1, rfl⟩
  | Value_UnixTimestampListVal q =>
    cases q with | none => exact .inl rfl | some w => exact .inr ⟨w.1, rfl⟩
  | Value_NullVal q => cases q with | none => exact .inl rfl | some w => exact .inr ⟨w.1, rfl⟩

/-- C5: the oneof invariant.  If `GetVal` of a `Value` is an interface value of
alternative `X`, the accessor of every other alternative returns its
not-populated result (the zero value); if `GetVal` is nil, all seventeen
accessors do; and no `Value` holds two distinct alternatives at once. -/
theorem oneof_at_most_one :
    (∀ (v : Option Value) (i : isValue_Val) (Y : Variant),
        Value.GetVal v = some i → Y ≠ i.variant → Value.Get Y v = .ok Y.zero) ∧
    (∀ (v : Option Value) (Y : Variant),
        Value.GetVal v = none → Value.Get Y v = .ok Y.zero) ∧
    (∀ (v : Option Value) (X Y : Variant) (p : X.Payload) (q : Y.Payload),
        Value.GetVal v = some (X.wrap p) → Value.GetVal v = some (Y.wrap q) → X = Y) := by
  refine ⟨get_other_variant, get_unset, ?_⟩
  intro v X Y p q hX hY
  have h : X.wrap p = Y.wrap q := Option.some.inj (hX.symm.trans hY)
  have := congrArg isValue_Val.variant h
  rwa [variant_wrap, variant_wrap] at this

theorem oneof_at_most_one_witness :
    Value.Get .string_val (some (Construct .int32_val ⟨42, by decide⟩)) = .ok [] ∧
    Value.Get .null_val (some Value.unset) = .ok Null_NULL ∧
    Variant.int32_val = Variant.int32_val :=
  ⟨oneof_at_most_one.1 (some (Construct .int32_val ⟨42, by decide⟩))
      (Variant.int32_val.wrap ⟨42, by decide⟩) .string_val rfl (by decide),
   oneof_at_most_one.2.1 (some Value.unset) .null_val rfl,
   oneof_at_most_one.2.2 (some (Construct .int32_val ⟨42, by decide⟩)) .int32_val .int32_val
      ⟨42, by decide⟩ ⟨42, by decide⟩ rfl rfl⟩

/-- C7, as stated, fails: the int32 accessor gives the same result on an unset
`Value` and on a `Value` holding int32 0, and the null accessor gives the same
result on an unset `Value` and on a `Value` holding NULL. -/
theorem absent_not_distinguishable :
    Value.Get .int32_val (some Value.unset)
      = Value.Get .int32_val (some (Construct .int32_val int32.zero)) ∧
    Value.Get .null_val (some Value.unset)
      = Value.Get .null_val (some (Construct .null_val Null_NULL)) :=
  ⟨rfl, rfl⟩

/-- C7, amended: on a `Value` that is nil, unset or holds an alternative other
than `X`, the accessor for `X` returns the zero value of `X`'s payload type, and
that result differs from the accessor's result on a `Value` holding `X` with
payload `p` exactly when `p` is not that zero value; the discriminant `GetVal`
always tells the two apart. -/
theorem absent_is_zero_value (X : Variant) (v w : Option Value) (p : X.Payload)
    (hv : Value.GetVal v = none ∨ ∃ i, Value.GetVal v = some i ∧ i.variant ≠ X)
    (hw : Value.GetVal w = some (X.wrap p)) :
    Value.Get X v = .ok X.zero ∧
    (Value.Get X v ≠ Value.Get X w ↔ p ≠ X.zero) ∧
    Value.GetVal v ≠ Value.GetVal w := by
  have h0 : Value.Get X v = .ok X.zero := by
    rcases hv with hv | ⟨i, hv, hi⟩
    · exact get_unset v X hv
    · exact get_other_variant v i X hv (Ne.symm hi)
  refine ⟨h0, ?_, ?_⟩
  · rw [h0, get_wrap w X p hw]
    constructor
    · intro h hp
      exact h (by rw [hp])
    · intro h hp
      exact h (Except.ok.inj hp).symm
  · rw [hw]
    rcases hv with hv | ⟨i, hv, hi⟩
    · rw [hv]
      exact fun h => Option.noConfusion h
    · rw [hv]
      intro h
      have := congrArg isValue_Val.variant (Option.some.inj h)
      rw [variant_wrap] at this
      exact hi this

theorem absent_is_zero_value_witness :
    Value.Get .int32_val (some (Construct .string_val [])) = .ok int32.zero ∧
    (Value.Get .int32_val (some (Construct .string_val []))
        ≠ Value.Get .int32_val (some (Construct .int32_val ⟨42, by decide⟩))
      ↔ (⟨42, by decide⟩ : int32) ≠ int32.zero) ∧
    Value.GetVal (some (Construct .string_val []))
      ≠ Value.GetVal (some (Construct .int32_val ⟨42, by decide⟩)) :=
  absent_is_zero_value .int32_val (some (Construct .string_val []))
    (some (Construct .int32_val ⟨42, by decide⟩)) ⟨42, by decide⟩
    (.inr ⟨Variant.string_val.wrap [], rfl, by decide⟩) rfl

/-- C8, as stated, fails: on a `Value` whose `Val` is the nil pointer of type
`*Value_Int32Val`, `GetInt32Val` passes the type assertion and dereferences the
nil pointer. -/
theorem accessor_panics_on_nil_wrapper :
    Value.GetInt32Val (some { unknownFields := [], Val := some (.Value_Int32Val none) })
      = .error .nilDereference :=
  rfl

/-- C8, amended: `GetVal` returns on every receiver, nil on the nil receiver and
the field `Val` otherwise; the accessor for `X` returns a result on every
receiver (nil, unset, or holding any wrapper) except one whose `Val` is the nil
pointer of `X`'s own wrapper type, where it dereferences nil. -/
theorem accessor_total_except_nil_wrapper :
    Value.GetVal none = none ∧
    (∀ v : Value, Value.GetVal (some v) = v.Val) ∧
    (∀ (X : Variant) (v : Option Value),
      (∃ p, Value.Get X v = .ok p) ↔ Value.GetVal v ≠ some X.nilWrapper) ∧
    (∀ (X : Variant) (v : Option Value),
      Value.GetVal v = some X.nilWrapper → Value.Get X v = .error .nilDereference) := by
  refine ⟨rfl, fun _ => rfl, fun X v => ?_, fun X v h => get_nilWrapper v X h⟩
  constructor
  · rintro ⟨p, hp⟩ h
    rw [get_nilWrapper v X h] at hp
    exact Except.noConfusion hp
  · intro h
    cases hv : Value.GetVal v with
    | none => exact ⟨_, get_unset v X hv⟩
    | some i =>
      by_cases hi : X = i.variant
      · subst hi
        rcases isValue_Val_cases i with hn | ⟨p, hp⟩
        · exact absurd (hv.trans (congrArg some hn)) h
        · exact ⟨p, get_wrap v _ p (hv.trans (congrArg some hp))⟩
      · exact ⟨_, get_other_variant v i X hv hi⟩

/-! ## Varints and fixed-width values -/

theorem getVarint_putVarint (fuel n : Nat) (rest : List Byte) (h : n < 128 ^ (fuel + 1)) :
    getVarint (fuel + 1) (putVarint (fuel + 1) n ++ rest) = some (n, rest) := by
  induction fuel generalizing n with
  | zero =>
    have hn : n < 128 := by simpa using h
    simp [putVarint, hn, getVarint]
  | succ fuel ih =>
    unfold putVarint
    by_cases hn : n < 128
    · simp [hn, getVarint]
    · have hlt : n / 128 < 128 ^ (fuel + 1) := by
        rw [Nat.div_lt_iff_lt_mul (by decide)]
        rw [pow_succ] at h
        exact h
      have hb : ¬ (n % 128 + 128 < 128) := by omega
      have hv : n % 128 + 128 - 128 + 128 * (n / 128) = n := by omega
      simp only [hn, ↓reduceDIte, List.cons_append]
      unfold getVarint
      simp only [hb, ↓reduceIte, ih _ hlt, hv]

theorem consumeVarint_appendVarint (v : Nat) (rest : List Byte)
    (h : v < 18446744073709551616) :
    consumeVarint (appendVarint v ++ rest) = some (v, rest) := by
  unfold consumeVarint appendVarint
  rw [Nat.mod_eq_of_lt h, getVarint_putVarint 9 v rest (by omega)]
  simp [Nat.mod_eq_of_lt h]

theorem getFixed_putFixed (w n : Nat) (rest : List Byte) (h : n < 256 ^ w) :
    getFixed w (putFixed w n ++ rest) = some (n, rest) := by
  induction w generalizing n with
  | zero =>
    have hn : n = 0 := by simpa using h
    subst hn; rfl
  | succ w ih =>
    have hlt : n / 256 < 256 ^ w := by
      rw [Nat.div_lt_iff_lt_mul (by decide)]
      rw [pow_succ] at h
      exact h
    have hv : n % 256 + 256 * (n / 256) = n := by omega
    rw [putFixed, List.cons_append, getFixed, ih _ hlt]
    simp only [hv]

theorem getVarint_length (fuel : Nat) (bs : List Byte) (v : Nat) (rest : List Byte)
    (h : getVarint fuel bs = some (v, rest)) : rest.length < bs.length := by
  induction fuel generalizing bs v rest with
  | zero => simp [getVarint] at h
  | succ fuel ih =>
    cases bs with
    | nil => simp [getVarint] at h
    | cons b bs =>
      unfold getVarint at h
      split at h
      · simp only [Option.some.injEq, Prod.mk.injEq] at h
        rw [← h.2]; simp
      · split at h
        · rename_i v1 r1 h1
          simp only [Option.some.injEq, Prod.mk.injEq] at h
          have := ih bs v1 r1 h1
          rw [← h.2]
          simp only [List.length_cons]
          omega
        · exact Option.noConfusion h

theorem getVarint_append (fuel : Nat) (bs : List Byte) (v : Nat) (rest s : List Byte)
    (h : getVarint fuel bs = some (v, rest)) :
    getVarint fuel (bs ++ s) = some (v, rest ++ s) := by
  induction fuel generalizing bs v rest with
  | zero => simp [getVarint] at h
  | succ fuel ih =>
    cases bs with
    | nil => simp [getVarint] at h
    | cons b bs =>
      unfold getVarint at h
      rw [List.cons_append]
      unfold getVarint
      split at h
      · rename_i hb
        simp only [Option.some.injEq, Prod.mk.injEq] at h
        obtain ⟨h1, h2⟩ := h
        subst h1 h2
        simp only [hb, ↓reduceIte]
      · rename_i hb
        split at h
        · rename_i v1 r1 h1
          simp only [Option.some.injEq, Prod.mk.injEq] at h
          simp only [hb, ↓reduceIte, ih bs v1 r1 h1, h.1, ← h.2]
        · exact Option.noConfusion h

theorem getFixed_length (w : Nat) (bs : List Byte) (v : Nat) (rest : List Byte)
    (h : getFixed w bs = some (v, rest)) : rest.length + w = bs.length := by
  induction w generalizing bs v rest with
  | zero =>
    simp only [getFixed, Option.some.injEq, Prod.mk.injEq] at h
    rw [h.2]; rfl
  | succ w ih =>
    cases bs with
    | nil => simp [getFixed] at h
    | cons b bs =>
      unfold getFixed at h
      split at h
      · rename_i v1 r1 h1
        simp only [Option.some.injEq, Prod.mk.injEq] at h
        have := ih bs v1 r1 h1
        rw [← h.2]
        simp only [List.length_cons]
        omega
      · exact Option.noConfusion h

theorem getFixed_append (w : Nat) (bs : List Byte) (v : Nat) (rest s : List Byte)
    (h : getFixed w bs = some (v, rest)) :
    getFixed w (bs ++ s) = some (v, rest ++ s) := by
  induction w generalizing bs v rest with
  | zero =>
    simp only [getFixed, Option.some.injEq, Prod.mk.injEq] at h
    simp [getFixed, h.1, h.2]
  | succ w ih =>
    cases bs with
    | nil => simp [getFixed] at h
    | cons b bs =>
      unfold getFixed at h
      rw [List.cons_append]
      unfold getFixed
      split at h
      · rename_i v1 r1 h1
        simp only [Option.some.injEq, Prod.mk.injEq] at h
        simp only [ih bs v1 r1 h1, h.1, ← h.2]
      · exact Option.noConfusion h

theorem consumeVarint_length (bs : List Byte) (v : Nat) (rest : List Byte)
    (h : consumeVarint bs = some (v, rest)) : rest.length < bs.length := by
  unfold consumeVarint at h
  split at h
  · rename_i v1 r1 h1
    simp only [Option.some.injEq, Prod.mk.injEq] at h
    rw [← h.2]
    exact getVarint_length 10 bs v1 r1 h1
  · exact Option.noConfusion h

theorem consumeVarint_append (bs : List Byte) (v : Nat) (rest s : List Byte)
    (h : consumeVarint bs = some (v, rest)) :
    consumeVarint (bs ++ s) = some (v, rest ++ s) := by
  unfold consumeVarint at h ⊢
  split at h
  · rename_i v1 r1 h1
    simp only [Option.some.injEq, Prod.mk.injEq] at h
    rw [getVarint_append 10 bs v1 r1 s h1]
    simp [h.1, h.2]
  · exact Option.noConfusion h


/-! ## Fields -/

theorem consumeData_encode (d : WireData) (rest : List Byte) (h : d.fits) :
    consumeData d.kind (d.encode ++ rest) = some (d, rest) := by
  cases d with
  | varint v =>
    simp only [WireData.fits] at h
    simp only [WireData.kind, WireData.encode, consumeData, consumeVarint_appendVarint v rest h]
  | fixed64 v =>
    simp only [WireData.fits] at h
    simp only [WireData.kind, WireData.encode, consumeData, Nat.mod_eq_of_lt h,
      getFixed_putFixed 8 v rest (by omega)]
  | bytes b =>
    simp only [WireData.fits] at h
    simp only [WireData.kind, WireData.encode, consumeData, List.append_assoc,
      consumeVarint_appendVarint b.length (b ++ rest) h]
    simp
  | fixed32 v =>
    simp only [WireData.fits] at h
    simp only [WireData.kind, WireData.encode, consumeData, Nat.mod_eq_of_lt h,
      getFixed_putFixed 4 v rest (by omega)]

theorem consumeData_length (k : WireKind) (bs : List Byte) (d : WireData) (rest : List Byte)
    (h : consumeData k bs = some (d, rest)) : rest.length < bs.length := by
  cases k with
  | varint =>
    simp only [consumeData] at h
    split at h
    · rename_i v r hv
      simp only [Option.some.injEq, Prod.mk.injEq] at h
      rw [← h.2]; exact consumeVarint_length bs v r hv
    · exact Option.noConfusion h
  | fixed64 =>
    simp only [consumeData] at h
    split at h
    · rename_i v r hv
      simp only [Option.some.injEq, Prod.mk.injEq] at h
      have := getFixed_length 8 bs v r hv
      rw [← h.2]; omega
    · exact Option.noConfusion h
  | bytes =>
    simp only [consumeData] at h
    split at h
    · rename_i n r hv
      have := consumeVarint_length bs n r hv
      split at h
      · simp only [Option.some.injEq, Prod.mk.injEq] at h
        rw [← h.2, List.length_drop]; omega
      · exact Option.noConfusion h
    · exact Option.noConfusion h
  | fixed32 =>
    simp only [consumeData] at h
    split at h
    · rename_i v r hv
      simp only [Option.some.injEq, Prod.mk.injEq] at h
      have := getFixed_length 4 bs v r hv
      rw [← h.2]; omega
    · exact Option.noConfusion h

theorem consumeData_kind (k : WireKind) (bs : List Byte) (d : WireData) (rest : List Byte)
    (h : consumeData k bs = some (d, rest)) : d.kind = k := by
  cases k <;> simp only [consumeData] at h <;> split at h <;>
    first
      | exact Option.noConfusion h
      | (split at h <;>
          first
            | exact Option.noConfusion h
            | (simp only [Option.some.injEq, Prod.mk.injEq] at h; rw [← h.1]; rfl))
      | (simp only [Option.some.injEq, Prod.mk.injEq] at h; rw [← h.1]; rfl)

theorem consumeData_append (k : WireKind) (bs : List Byte) (d : WireData) (rest s : List Byte)
    (h : consumeData k bs = some (d, rest)) :
    consumeData k (bs ++ s) = some (d, rest ++ s) := by
  cases k with
  | varint =>
    simp only [consumeData] at h ⊢
    split at h
    · rename_i v r hv
      simp only [Option.some.injEq, Prod.mk.injEq] at h
      simp only [consumeVarint_append bs v r s hv, h.1, h.2]
    · exact Option.noConfusion h
  | fixed64 =>
    simp only [consumeData] at h ⊢
    split at h
    · rename_i v r hv
      simp only [Option.some.injEq, Prod.mk.injEq] at h
      simp only [getFixed_append 8 bs v r s hv, h.1, h.2]
    · exact Option.noConfusion h
  | bytes =>
    simp only [consumeData] at h ⊢
    split at h
    · rename_i n r hv
      split at h
      · rename_i hn
        simp only [Option.some.injEq, Prod.mk.injEq] at h
        have hn2 : n ≤ (r ++ s).length := by rw [List.length_append]; omega
        simp only [consumeVarint_append bs n r s hv, hn2, ↓reduceIte, Option.some.injEq,
          Prod.mk.injEq]
        rw [List.take_append_of_le_length hn, List.drop_append_of_le_length hn]
        exact ⟨h.1, by rw [h.2]⟩
      · exact Option.noConfusion h
    · exact Option.noConfusion h
  | fixed32 =>
    simp only [consumeData] at h ⊢
    split at h
    · rename_i v r hv
      simp only [Option.some.injEq, Prod.mk.injEq] at h
      simp only [getFixed_append 4 bs v r s hv, h.1, h.2]
    · exact Option.noConfusion h

theorem ofNumber_number (k : WireKind) : WireKind.ofNumber k.number = some k := by
  cases k <;> rfl

theorem number_lt (k : WireKind) : k.number < 8 := by
  cases k <;> decide

theorem consumeField_length (bs : List Byte) (f : RawField) (rest : List Byte)
    (h : consumeField bs = .ok (f, rest)) : rest.length < bs.length := by
  unfold consumeField at h
  split at h
  · exact Except.noConfusion h
  · rename_i key r hk
    split at h
    · exact Except.noConfusion h
    · rename_i k _
      split at h
      · exact Except.noConfusion h
      · rename_i d r2 hd
        simp only [Except.ok.injEq, Prod.mk.injEq] at h
        have h1 := consumeVarint_length bs key r hk
        have h2 := consumeData_length k r d r2 hd
        rw [← h.2]; omega

theorem consumeField_append (bs : List Byte) (f : RawField) (rest s : List Byte)
    (h : consumeField bs = .ok (f, rest)) :
    consumeField (bs ++ s) = .ok (f, rest ++ s) := by
  have hlen := consumeField_length bs f rest h
  unfold consumeField at h ⊢
  split at h
  · exact Except.noConfusion h
  · rename_i key r hk
    rw [consumeVarint_append bs key r s hk]
    simp only
    split at h
    · exact Except.noConfusion h
    · rename_i k hkk
      split at h
      · exact Except.noConfusion h
      · rename_i d r2 hd
        rw [consumeData_append k r d r2 s hd]
        simp only [Except.ok.injEq, Prod.mk.injEq] at h ⊢
        refine ⟨?_, by rw [h.2]⟩
        rw [← h.1]
        have e : (bs ++ s).length - (r2 ++ s).length = bs.length - r2.length := by
          simp only [List.length_append]; omega
        rw [e, List.take_append_of_le_length (by omega)]

theorem consumeField_encode (n : Nat) (d : WireData) (rest : List Byte)
    (hd : d.fits) (hn : n * 8 + d.kind.number < 18446744073709551616) :
    consumeField (appendTag n d.kind ++ d.encode ++ rest)
      = .ok ({ number := n, data := d, raw := appendTag n d.kind ++ d.encode }, rest) := by
  have hk := number_lt d.kind
  unfold consumeField appendTag
  rw [List.append_assoc, consumeVarint_appendVarint _ _ hn]
  have h8 : (n * 8 + d.kind.number) % 8 = d.kind.number := by omega
  have h9 : (n * 8 + d.kind.number) / 8 = n := by omega
  simp only [h8, h9, ofNumber_number, consumeData_encode d rest hd]
  have e : (appendVarint (n * 8 + d.kind.number) ++ (d.encode ++ rest)).length - rest.length
      = (appendVarint (n * 8 + d.kind.number) ++ d.encode).length := by
    simp only [List.length_append]; omega
  rw [e, ← List.append_assoc, List.take_left']
  rfl

theorem parseFields_fuel (fuel₁ fuel₂ : Nat) (bs : List Byte)
    (h₁ : bs.length ≤ fuel₁) (h₂ : bs.length ≤ fuel₂) :
    parseFields fuel₁ bs = parseFields fuel₂ bs := by
  induction fuel₁ generalizing fuel₂ bs with
  | zero =>
    cases bs with
    | nil => cases fuel₂ <;> rfl
    | cons b bs => simp at h₁
  | succ fuel₁ ih =>
    cases bs with
    | nil => cases fuel₂ <;> rfl
    | cons b bs =>
      cases fuel₂ with
      | zero => simp at h₂
      | succ fuel₂ =>
        simp only [parseFields]
        cases hc : consumeField (b :: bs) with
        | error e => rfl
        | ok fr =>
          obtain ⟨f, rest⟩ := fr
          have hl := consumeField_length _ f rest hc
          simp only [List.length_cons] at hl h₁ h₂
          simp only
          rw [ih fuel₂ rest (by omega) (by omega)]

theorem scanFields_nil : scanFields [] = .ok [] := rfl

theorem consumeField_nil : consumeField [] = .error .MalformedWire := rfl

theorem scanFields_of_consume (bs : List Byte) (f : RawField) (rest : List Byte)
    (h : consumeField bs = .ok (f, rest)) :
    scanFields bs =
      match scanFields rest with
      | .error e => .error e
      | .ok fs => .ok (f :: fs) := by
  cases bs with
  | nil => rw [consumeField_nil] at h; exact Except.noConfusion h
  | cons b bs =>
    have hl := consumeField_length _ f rest h
    simp only [List.length_cons] at hl
    have e := parseFields_fuel bs.length rest.length rest (by omega) (le_refl _)
    unfold scanFields
    simp only [List.length_cons, parseFields, h, e]

theorem scanFields_of_consume_error (b : Byte) (bs : List Byte) (e : DecodeError)
    (h : consumeField (b :: bs) = .error e) : scanFields (b :: bs) = .error e := by
  unfold scanFields
  simp only [List.length_cons, parseFields, h]

theorem consumeField_ne_outOfFuel (bs : List Byte) : consumeField bs ≠ .error .outOfFuel := by
  unfold consumeField
  split
  · exact fun h => by cases h
  · split
    · exact fun h => by cases h
    · split
      · exact fun h => by cases h
      · exact fun h => by cases h

theorem scanFields_ne_outOfFuel (bs : List Byte) : scanFields bs ≠ .error .outOfFuel := by
  generalize hn : bs.length = n
  induction n using Nat.strong_induction_on generalizing bs with
  | _ n ih =>
    cases bs with
    | nil => exact fun h => by cases h
    | cons b bs =>
      cases hc : consumeField (b :: bs) with
      | error e =>
        rw [scanFields_of_consume_error b bs e hc]
        intro h
        injection h with h
        subst h
        exact consumeField_ne_outOfFuel _ hc
      | ok fr =>
        obtain ⟨f, rest⟩ := fr
        rw [scanFields_of_consume _ f rest hc]
        have hl := consumeField_length _ f rest hc
        have := ih rest.length (by omega) rest rfl
        cases hs : scanFields rest with
        | error e =>
          simp only
          intro h
          rw [hs] at this
          exact this h
        | ok fs => exact fun h => by cases h


theorem scanFields_ofData (n : Nat) (d : WireData) (rest : List Byte)
    (hd : d.fits) (hn : n * 8 + d.kind.number < 18446744073709551616) :
    scanFields ((RawField.ofData n d).raw ++ rest) =
      match scanFields rest with
      | .error e => .error e
      | .ok fs => .ok (RawField.ofData n d :: fs) :=
  scanFields_of_consume _ _ rest (consumeField_encode n d rest hd hn)

/-! ## Scalars -/

theorem int32_ofUint64_toUint64 (x : int32) : int32.ofUint64 (int32.toUint64 x) = x := by
  obtain ⟨i, h1, h2⟩ := x
  unfold int32.ofUint64 int32.toUint64
  apply Subtype.ext
  simp only
  split <;> simp only <;> omega

theorem int64_ofUint64_toUint64 (x : int64) : int64.ofUint64 (int64.toUint64 x) = x := by
  obtain ⟨i, h1, h2⟩ := x
  unfold int64.ofUint64 int64.toUint64
  apply Subtype.ext
  simp only
  split <;> simp only <;> omega

theorem int32_toUint64_lt (x : int32) : int32.toUint64 x < 18446744073709551616 := by
  unfold int32.toUint64; omega

theorem int64_toUint64_lt (x : int64) : int64.toUint64 x < 18446744073709551616 := by
  unfold int64.toUint64; omega

theorem scalar_ofWire_toWire (s : Scalar) (x : s.denote) : s.ofWire (s.toWire x) = some x := by
  cases s with
  | sliceOfByte => rfl
  | string => rfl
  | int32 => simp only [Scalar.toWire, Scalar.ofWire, int32_ofUint64_toUint64]
  | int64 => simp only [Scalar.toWire, Scalar.ofWire, int64_ofUint64_toUint64]
  | float64 =>
    obtain ⟨n, h⟩ := x
    simp only [Scalar.toWire, Scalar.ofWire, Nat.mod_eq_of_lt h]
  | float32 =>
    obtain ⟨n, h⟩ := x
    simp only [Scalar.toWire, Scalar.ofWire, Nat.mod_eq_of_lt h]
  | bool => cases x <;> rfl
  | Null => simp only [Scalar.toWire, Scalar.ofWire, int32_ofUint64_toUint64]

theorem scalar_ofWireList_toWire (s : Scalar) (xs : List s.denote) :
    s.ofWireList (xs.map s.toWire) = some xs := by
  induction xs with
  | nil => rfl
  | cons x xs ih => simp only [List.map_cons, Scalar.ofWireList, scalar_ofWire_toWire, ih]

/-- The size of a scalar payload as far as the wire format limits it: the length
of a string or byte sequence. -/
theorem Scalar.toWire_fits (s : Scalar) (x : s.denote)
    (h : ∀ b, s.toWire x = .bytes b → b.length < 18446744073709551616) :
    (s.toWire x).fits := by
  cases s with
  | sliceOfByte => exact h x rfl
  | string => exact h x rfl
  | int32 => exact int32_toUint64_lt x
  | int64 => exact int64_toUint64_lt x
  | float64 => exact x.2
  | float32 => exact x.2
  | bool => cases x <;> simp [Scalar.toWire, WireData.fits]
  | Null => exact int32_toUint64_lt x

theorem message_toWire_kind (m : Message) (x : m.elem.denote) :
    (m.elem.toWire x).kind = m.tag.wire := by
  cases m <;> rfl

/-! ## Packed runs -/

theorem encode_ne_nil (d : WireData) (h : d.fits) : d.encode ≠ [] := by
  intro he
  have h1 := consumeData_encode d [] h
  have h2 := consumeData_length _ _ _ _ h1
  rw [he] at h2
  simp at h2

theorem unpack_encode (k : WireKind) (ds : List WireData) (fuel : Nat)
    (hk : ∀ d ∈ ds, d.kind = k) (hf : ∀ d ∈ ds, d.fits)
    (hfuel : (ds.map WireData.encode).flatten.length ≤ fuel) :
    unpack k fuel (ds.map WireData.encode).flatten = .ok ds := by
  induction ds generalizing fuel with
  | nil => cases fuel <;> rfl
  | cons d ds ih =>
    have hd := hf d (List.mem_cons_self _ _)
    have hc := consumeData_encode d (ds.map WireData.encode).flatten hd
    rw [hk d (List.mem_cons_self _ _)] at hc
    simp only [List.map_cons, List.flatten_cons] at hfuel ⊢
    have hne := encode_ne_nil d hd
    cases hde : d.encode with
    | nil => exact absurd hde hne
    | cons b bs =>
      rw [hde] at hc hfuel
      simp only [List.cons_append, List.length_cons, List.length_append] at hfuel hc ⊢
      cases fuel with
      | zero => omega
      | succ fuel =>
        simp only [unpack, hc]
        rw [ih fuel (fun d h => hk d (List.mem_cons_of_mem _ h))
          (fun d h => hf d (List.mem_cons_of_mem _ h)) (by omega)]


/-! ## Containers -/

theorem scanFields_ofData_list (n : Nat) (ds : List WireData) (rest : List Byte)
    (hf : ∀ d ∈ ds, d.fits) (hn : n * 8 + 7 < 18446744073709551616) :
    scanFields ((ds.map fun d => (RawField.ofData n d).raw).flatten ++ rest) =
      match scanFields rest with
      | .error e => .error e
      | .ok fs => .ok (ds.map (RawField.ofData n) ++ fs) := by
  induction ds with
  | nil =>
    simp only [List.map_nil, List.flatten_nil, List.nil_append]
    cases scanFields rest <;> rfl
  | cons d ds ih =>
    have hk := number_lt d.kind
    simp only [List.map_cons, List.flatten_cons, List.append_assoc]
    rw [scanFields_ofData n d _ (hf d (List.mem_cons_self _ _)) (by omega),
      ih (fun d h => hf d (List.mem_cons_of_mem _ h))]
    cases scanFields rest <;> rfl

theorem getVarint_suffix (fuel : Nat) (bs : List Byte) (v : Nat) (rest : List Byte)
    (h : getVarint fuel bs = some (v, rest)) : ∃ pre, bs = pre ++ rest := by
  induction fuel generalizing bs v rest with
  | zero => simp [getVarint] at h
  | succ fuel ih =>
    cases bs with
    | nil => simp [getVarint] at h
    | cons b bs =>
      unfold getVarint at h
      split at h
      · simp only [Option.some.injEq, Prod.mk.injEq] at h
        exact ⟨[b], by rw [← h.2]; rfl⟩
      · split at h
        · rename_i v1 r1 h1
          simp only [Option.some.injEq, Prod.mk.injEq] at h
          obtain ⟨pre, hpre⟩ := ih bs v1 r1 h1
          exact ⟨b :: pre, by rw [← h.2, hpre]; rfl⟩
        · exact Option.noConfusion h

theorem getFixed_suffix (w : Nat) (bs : List Byte) (v : Nat) (rest : List Byte)
    (h : getFixed w bs = some (v, rest)) : ∃ pre, bs = pre ++ rest := by
  induction w generalizing bs v rest with
  | zero =>
    simp only [getFixed, Option.some.injEq, Prod.mk.injEq] at h
    exact ⟨[], by rw [h.2]; rfl⟩
  | succ w ih =>
    cases bs with
    | nil => simp [getFixed] at h
    | cons b bs =>
      unfold getFixed at h
      split at h
      · rename_i v1 r1 h1
        simp only [Option.some.injEq, Prod.mk.injEq] at h
        obtain ⟨pre, hpre⟩ := ih bs v1 r1 h1
        exact ⟨b :: pre, by rw [← h.2, hpre]; rfl⟩
      · exact Option.noConfusion h

theorem consumeVarint_suffix (bs : List Byte) (v : Nat) (rest : List Byte)
    (h : consumeVarint bs = some (v, rest)) : ∃ pre, bs = pre ++ rest := by
  unfold consumeVarint at h
  split at h
  · rename_i v1 r1 h1
    simp only [Option.some.injEq, Prod.mk.injEq] at h
    rw [← h.2]
    exact getVarint_suffix 10 bs v1 r1 h1
  · exact Option.noConfusion h

theorem consumeData_suffix (k : WireKind) (bs : List Byte) (d : WireData) (rest : List Byte)
    (h : consumeData k bs = some (d, rest)) : ∃ pre, bs = pre ++ rest := by
  cases k with
  | varint =>
    simp only [consumeData] at h
    split at h
    · rename_i v r hv
      simp only [Option.some.injEq, Prod.mk.injEq] at h
      rw [← h.2]; exact consumeVarint_suffix bs v r hv
    · exact Option.noConfusion h
  | fixed64 =>
    simp only [consumeData] at h
    split at h
    · rename_i v r hv
      simp only [Option.some.injEq, Prod.mk.injEq] at h
      rw [← h.2]; exact getFixed_suffix 8 bs v r hv
    · exact Option.noConfusion h
  | bytes =>
    simp only [consumeData] at h
    split at h
    · rename_i n r hv
      obtain ⟨pre, hpre⟩ := consumeVarint_suffix bs n r hv
      split at h
      · simp only [Option.some.injEq, Prod.mk.injEq] at h
        refine ⟨pre ++ r.take n, ?_⟩
        rw [← h.2, List.append_assoc, List.take_append_drop, hpre]
      · exact Option.noConfusion h
    · exact Option.noConfusion h
  | fixed32 =>
    simp only [consumeData] at h
    split at h
    · rename_i v r hv
      simp only [Option.some.injEq, Prod.mk.injEq] at h
      rw [← h.2]; exact getFixed_suffix 4 bs v r hv
    · exact Option.noConfusion h

/-- The bytes recorded for a field are exactly the bytes the scan consumed. -/
theorem consumeField_raw (bs : List Byte) (f : RawField) (rest : List Byte)
    (h : consumeField bs = .ok (f, rest)) : f.raw ++ rest = bs := by
  unfold consumeField at h
  split at h
  · exact Except.noConfusion h
  · rename_i key r hk
    split at h
    · exact Except.noConfusion h
    · rename_i k _
      split at h
      · exact Except.noConfusion h
      · rename_i d r2 hd
        simp only [Except.ok.injEq, Prod.mk.injEq] at h
        obtain ⟨pre1, h1⟩ := consumeVarint_suffix bs key r hk
        obtain ⟨pre2, h2⟩ := consumeData_suffix k r d r2 hd
        obtain ⟨hf, hr⟩ := h
        subst hr
        rw [← hf]
        simp only
        have e : bs = (pre1 ++ pre2) ++ r2 := by rw [h1, h2, List.append_assoc]
        rw [e]
        have e2 : ((pre1 ++ pre2) ++ r2).length - r2.length = (pre1 ++ pre2).length := by
          simp only [List.length_append]; omega
        rw [e2, List.take_left']
        rfl

/-- The fields of a scanned buffer, laid end to end, are the buffer. -/
theorem scanFields_raw (bs : List Byte) (fs : List RawField) (h : scanFields bs = .ok fs) :
    (fs.map fun f => f.raw).flatten = bs := by
  generalize hn : bs.length = n
  induction n using Nat.strong_induction_on generalizing bs fs with
  | _ n ih =>
    cases bs with
    | nil =>
      rw [scanFields_nil] at h
      injection h with h
      subst h
      rfl
    | cons b bs =>
      cases hc : consumeField (b :: bs) with
      | error e =>
        rw [scanFields_of_consume_error b bs e hc] at h
        exact Except.noConfusion h
      | ok fr =>
        obtain ⟨f, rest⟩ := fr
        rw [scanFields_of_consume _ f rest hc] at h
        have hl := consumeField_length _ f rest hc
        cases hs : scanFields rest with
        | error e =>
          rw [hs] at h
          exact Except.noConfusion h
        | ok gs =>
          rw [hs] at h
          simp only [Except.ok.injEq] at h
          subst h
          have := ih rest.length (by omega) rest gs hs rfl
          simp only [List.map_cons, List.flatten_cons, this]
          exact consumeField_raw _ f rest hc

theorem foldFields_append {σ : Type} (step : σ → RawField → Except DecodeError σ)
    (acc : σ) (fs gs : List RawField) :
    foldFields step acc (fs ++ gs) =
      match foldFields step acc fs with
      | .error e => .error e
      | .ok a => foldFields step a gs := by
  induction fs generalizing acc with
  | nil => rfl
  | cons f fs ih =>
    simp only [List.cons_append, foldFields]
    cases step acc f with
    | error e => rfl
    | ok a => exact ih a

theorem applyRepeated_unknown (tag : StructTag) (s : Scalar)
    (acc : List s.denote × List Byte) (f : RawField) (h : ¬ tag.matchesRepeated f) :
    applyRepeated tag s acc f = .ok (acc.1, acc.2 ++ f.raw) := by
  unfold StructTag.matchesRepeated at h
  simp only [not_or] at h
  unfold applyRepeated
  rw [if_neg h.1, if_neg h.2]

theorem foldFields_unknown (tag : StructTag) (s : Scalar)
    (acc : List s.denote × List Byte) (fs : List RawField)
    (h : ∀ f ∈ fs, ¬ tag.matchesRepeated f) :
    foldFields (applyRepeated tag s) acc fs
      = .ok (acc.1, acc.2 ++ (fs.map fun f => f.raw).flatten) := by
  induction fs generalizing acc with
  | nil => simp [foldFields]
  | cons f fs ih =>
    simp only [foldFields, applyRepeated_unknown tag s acc f (h f (List.mem_cons_self _ _))]
    rw [ih _ (fun g hg => h g (List.mem_cons_of_mem _ hg))]
    simp

theorem foldFields_nonpacked (tag : StructTag) (s : Scalar) (hp : tag.packed = false)
    (hk : ∀ x : s.denote, (s.toWire x).kind = tag.wire)
    (acc : List s.denote × List Byte) (xs : List s.denote) :
    foldFields (applyRepeated tag s) acc
        (xs.map fun x => RawField.ofData tag.number (s.toWire x))
      = .ok (acc.1 ++ xs, acc.2) := by
  induction xs generalizing acc with
  | nil => simp [foldFields]
  | cons x xs ih =>
    have hx : applyRepeated tag s acc (RawField.ofData tag.number (s.toWire x))
        = .ok (acc.1 ++ [x], acc.2) := by
      simp only [applyRepeated, RawField.ofData, hp, hk x, scalar_ofWire_toWire,
        Bool.false_eq_true, and_false, false_and, ↓reduceIte, and_self]
    simp only [List.map_cons, foldFields, hx]
    rw [ih]
    simp

theorem decodeRepeated_nonpacked (tag : StructTag) (s : Scalar) (hp : tag.packed = false)
    (hk : ∀ x : s.denote, (s.toWire x).kind = tag.wire) (xs : List s.denote)
    (u : List Byte) (hu : UnknownData tag.matchesRepeated u)
    (hf : ∀ x ∈ xs, (s.toWire x).fits) (hn : tag.number * 8 + 7 < 18446744073709551616) :
    decodeRepeated tag s (encodeRepeated tag s xs ++ u) = .ok (xs, u) := by
  obtain ⟨fs, hfs, hun⟩ := hu
  have e : encodeRepeated tag s xs
      = ((xs.map s.toWire).map fun d => (RawField.ofData tag.number d).raw).flatten := by
    simp only [encodeRepeated, hp, Bool.false_eq_true, ↓reduceIte, List.map_map]
    congr 1
    apply List.map_congr_left
    intro x _
    simp only [Function.comp, RawField.ofData, hk x]
  unfold decodeRepeated
  rw [e, scanFields_ofData_list tag.number _ u (by
    intro d hd
    obtain ⟨x, hx, rfl⟩ := List.mem_map.1 hd
    exact hf x hx) hn, hfs]
  simp only [List.map_map]
  have h1 := foldFields_nonpacked tag s hp hk ([], []) xs
  rw [foldFields_append]
  have h2 : foldFields (applyRepeated tag s) ([], [])
      (List.map (RawField.ofData tag.number ∘ s.toWire) xs) = .ok (xs, []) := by
    simpa [Function.comp] using h1
  rw [h2]
  simp only
  rw [foldFields_unknown tag s _ fs hun, scanFields_raw u fs hfs]
  simp

theorem decodeRepeated_packed (tag : StructTag) (s : Scalar) (hp : tag.packed = true)
    (hk : ∀ x : s.denote, (s.toWire x).kind = tag.wire) (xs : List s.denote)
    (u : List Byte) (hu : UnknownData tag.matchesRepeated u)
    (hf : ∀ x ∈ xs, (s.toWire x).fits) (hn : tag.number * 8 + 7 < 18446744073709551616)
    (hl : (xs.map fun x => (s.toWire x).encode).flatten.length < 18446744073709551616) :
    decodeRepeated tag s (encodeRepeated tag s xs ++ u) = .ok (xs, u) := by
  obtain ⟨fs, hfs, hun⟩ := hu
  have hraw := scanFields_raw u fs hfs
  cases xs with
  | nil =>
    simp only [encodeRepeated, hp, ↓reduceIte, List.nil_append, decodeRepeated, hfs]
    rw [foldFields_unknown tag s _ fs hun, hraw]
    simp
  | cons x xs =>
    generalize hys : x :: xs = ys at hf hl
    have e : encodeRepeated tag s ys
        = (RawField.ofData tag.number
            (.bytes (ys.map fun x => (s.toWire x).encode).flatten)).raw := by
      subst hys
      simp only [encodeRepeated, hp, ↓reduceIte, RawField.ofData, WireData.kind]
    unfold decodeRepeated
    rw [e, scanFields_ofData tag.number
      (.bytes (ys.map fun x => (s.toWire x).encode).flatten) u hl
      (by simp only [WireData.kind, WireKind.number]; omega), hfs]
    have hun' : unpack tag.wire (ys.map fun x => (s.toWire x).encode).flatten.length
        (ys.map fun x => (s.toWire x).encode).flatten = .ok (ys.map s.toWire) := by
      have := unpack_encode tag.wire (ys.map s.toWire)
        ((ys.map s.toWire).map WireData.encode).flatten.length
        (by
          intro d hd
          obtain ⟨x, _, rfl⟩ := List.mem_map.1 hd
          exact hk x)
        (by
          intro d hd
          obtain ⟨x, hx, rfl⟩ := List.mem_map.1 hd
          exact hf x hx) (le_refl _)
      simpa [List.map_map, Function.comp] using this
    have h1 : applyRepeated tag s ([], []) (RawField.ofData tag.number
        (.bytes (ys.map fun x => (s.toWire x).encode).flatten)) = .ok (ys, []) := by
      simp only [applyRepeated, RawField.ofData, hp, WireData.kind, and_self, ↓reduceIte,
        hun', scalar_ofWireList_toWire, List.nil_append]
    simp only [foldFields, h1]
    rw [foldFields_unknown tag s _ fs hun, hraw]
    simp

theorem Message.build_eta (m : Message) (x : m.denote) :
    m.build (m.unknown x) (m.Val x) = x := by
  cases m <;> rfl

theorem Message.tag_number (m : Message) : m.tag.number = 1 := by
  cases m <;> rfl

theorem decodeMessage_encodeMessage (m : Message) (x : m.denote)
    (hu : UnknownData m.tag.matchesRepeated (m.unknown x))
    (hf : ∀ e ∈ m.Val x, (m.elem.toWire e).fits)
    (hl : (encodeMessage m (some x)).length < 18446744073709551616) :
    decodeMessage m (encodeMessage m (some x)) = .ok x := by
  have hb := m.build_eta x
  have hn : m.tag.number * 8 + 7 < 18446744073709551616 := by rw [m.tag_number]; decide
  simp only [encodeMessage] at hl ⊢
  unfold decodeMessage
  by_cases hp : m.tag.packed = true
  · have hl' : ((m.Val x).map fun e => (m.elem.toWire e).encode).flatten.length
        < 18446744073709551616 := by
      cases hv : m.Val x with
      | nil => simp
      | cons e es =>
        rw [hv] at hl
        have hr : ∀ run : List Byte,
            (WireData.bytes run).encode = appendVarint run.length ++ run := fun _ => rfl
        simp only [encodeRepeated, hp, ↓reduceIte, hr, List.length_append] at hl
        omega
    rw [decodeRepeated_packed m.tag m.elem hp (message_toWire_kind m) _ _ hu hf hn hl']
    simp only [hb]
  · rw [decodeRepeated_nonpacked m.tag m.elem (by simpa using hp) (message_toWire_kind m)
      _ _ hu hf hn]
    simp only [hb]

theorem decodeMessage_nil (m : Message) : decodeMessage m [] = .ok (m.build [] []) := rfl


/-! ## Values -/

theorem recognize_of (f : RawField) (X : Variant) (hn : f.number = X.number)
    (hk : f.data.kind = X.wrapper.tag.wire) : recognize f = some X := by
  unfold recognize
  rw [hn, hk]
  cases X <;> decide

theorem recognize_sound (f : RawField) (X : Variant) (h : recognize f = some X) :
    f.number = X.number ∧ f.data.kind = X.wrapper.tag.wire := by
  have := List.find?_some h
  simp only [decide_eq_true_eq] at this
  exact ⟨this.1.symm, this.2.symm⟩

theorem variant_toWire_kind (X : Variant) (p : X.Payload) :
    (X.wrapper.goType.toWire p).kind = X.wrapper.tag.wire := by
  cases X <;> rfl

theorem Variant.number_le (X : Variant) : X.number ≤ 19 := by
  cases X <;> decide

theorem length_le_flatten_map {α : Type} (f : α → List Byte) (xs : List α) (x : α)
    (h : x ∈ xs) : (f x).length ≤ (xs.map f).flatten.length := by
  induction xs with
  | nil => cases h
  | cons y ys ih =>
    simp only [List.map_cons, List.flatten_cons, List.length_append]
    rcases List.mem_cons.1 h with rfl | h
    · omega
    · have := ih h
      omega

theorem Scalar.toWire_fits_of_length (s : Scalar) (x : s.denote)
    (h : (s.toWire x).encode.length < 18446744073709551616) : (s.toWire x).fits := by
  apply Scalar.toWire_fits
  intro b hb
  rw [hb] at h
  have hr : (WireData.bytes b).encode = appendVarint b.length ++ b := rfl
  rw [hr, List.length_append] at h
  omega

theorem elem_encode_le (tag : StructTag) (s : Scalar) (xs : List s.denote) (x : s.denote)
    (h : x ∈ xs) : (s.toWire x).encode.length ≤ (encodeRepeated tag s xs).length := by
  unfold encodeRepeated
  by_cases hp : tag.packed = true
  · cases xs with
    | nil => cases h
    | cons y ys =>
      have h2 : (s.toWire x).encode.length
          ≤ ((y :: ys).map fun x => (s.toWire x).encode).flatten.length :=
        length_le_flatten_map (fun x => (s.toWire x).encode) (y :: ys) x h
      have hr : ∀ run : List Byte,
          (WireData.bytes run).encode = appendVarint run.length ++ run := fun _ => rfl
      simp only [hp, ↓reduceIte, hr, List.length_append]
      omega
  · have h2 : (appendTag tag.number tag.wire ++ (s.toWire x).encode).length
        ≤ (xs.map fun x => appendTag tag.number tag.wire ++ (s.toWire x).encode).flatten.length :=
      length_le_flatten_map
        (fun x => appendTag tag.number tag.wire ++ (s.toWire x).encode) xs x h
    simp only [List.length_append] at h2
    simp only [hp, Bool.false_eq_true, ↓reduceIte]
    omega

theorem goType_ofWire_toWire (t : GoType) (p : t.denote) (hu : t.wellFormed p)
    (hl : (t.toWire p).encode.length < 18446744073709551616) :
    (t.toWire p).fits ∧ t.ofWire (t.toWire p) = .ok (t.canon p) := by
  cases t with
  | scalar s =>
    exact ⟨Scalar.toWire_fits_of_length s p hl, by
      simp only [GoType.ofWire, GoType.toWire, scalar_ofWire_toWire, GoType.canon]⟩
  | ptr m =>
    have hr : ∀ run : List Byte,
        (WireData.bytes run).encode = appendVarint run.length ++ run := fun _ => rfl
    simp only [GoType.toWire, hr, List.length_append] at hl
    refine ⟨show (encodeMessage m p).length < 18446744073709551616 by omega, ?_⟩
    cases p with
    | none => rfl
    | some x =>
      have hx : (encodeMessage m (some x)).length < 18446744073709551616 := by omega
      have hf : ∀ e ∈ m.Val x, (m.elem.toWire e).fits := by
        intro e he
        apply Scalar.toWire_fits_of_length
        have h1 := elem_encode_le m.tag m.elem (m.Val x) e he
        simp only [encodeMessage, List.length_append] at hx
        omega
      simp only [GoType.toWire, GoType.ofWire, decodeMessage_encodeMessage m x hu hf hx,
        GoType.canon]

theorem encodeField_eq (X : Variant) (p : X.Payload) :
    encodeField X p = (RawField.ofData X.number (X.wrapper.goType.toWire p)).raw := by
  simp only [encodeField, RawField.ofData, variant_toWire_kind X]

theorem payload_wrap (X : Variant) (p : X.Payload) :
    HEq (X.wrap p).payload (some p) := by
  cases X <;> rfl

theorem Encode_Construct (X : Variant) (p : X.Payload) :
    Encode (Construct X p) = encodeField X p := by
  cases X <;> simp [Encode, Construct, Variant.wrap, isValue_Val.payload, isValue_Val.variant]

/-- An encoded alternative is exactly one well-formed oneof field. -/
theorem isOneofField_encodeField (X : Variant) (p : X.Payload)
    (hu : X.wrapper.goType.wellFormed p)
    (hl : (encodeField X p).length < 18446744073709551616) :
    IsOneofField (encodeField X p) X (X.wrapper.goType.canon p) := by
  have hle : (X.wrapper.goType.toWire p).encode.length < 18446744073709551616 := by
    simp only [encodeField, List.length_append] at hl
    omega
  obtain ⟨hfit, hof⟩ := goType_ofWire_toWire _ p hu hle
  have hn : X.number * 8 + (X.wrapper.goType.toWire p).kind.number
      < 18446744073709551616 := by
    have := X.number_le
    have := number_lt (X.wrapper.goType.toWire p).kind
    omega
  refine ⟨RawField.ofData X.number (X.wrapper.goType.toWire p), ?_, ?_, hof⟩
  · rw [encodeField_eq]
    have := consumeField_encode X.number (X.wrapper.goType.toWire p) [] hfit hn
    simpa [RawField.ofData] using this
  · exact recognize_of _ X rfl (variant_toWire_kind X p)

theorem consumeField_ne_nil (bs : List Byte) (f : RawField) (rest : List Byte)
    (h : consumeField bs = .ok (f, rest)) : bs ≠ [] := by
  intro hb
  rw [hb, consumeField_nil] at h
  exact Except.noConfusion h

/-- Decoding a buffer that is one oneof field followed by `rest` is decoding `rest`
into a `Value` already holding that field. -/
theorem decodeInto_field_append (b : List Byte) (X : Variant) (p : X.Payload)
    (rest : List Byte) (h : IsOneofField b X p) (v : Value) :
    decodeInto v (b ++ rest) = decodeInto { v with Val := some (X.wrap p) } rest := by
  obtain ⟨f, hc, hr, ho⟩ := h
  have := consumeField_append b f [] rest hc
  rw [List.nil_append] at this
  unfold decodeInto
  rw [scanFields_of_consume _ f rest this]
  cases scanFields rest with
  | error e => rfl
  | ok fs => simp only [foldFields, Value.applyField, hr, ho]

theorem decodeInto_nil (v : Value) : decodeInto v [] = .ok v := rfl

theorem Decode_oneofField (b : List Byte) (X : Variant) (p : X.Payload)
    (h : IsOneofField b X p) : Decode b = .ok (Construct X p) := by
  have := decodeInto_field_append b X p [] h Value.unset
  rw [List.append_nil] at this
  unfold Decode
  rw [this, decodeInto_nil]
  rfl


/-! ## The bounded recursion never runs out -/

theorem unpack_ne_outOfFuel (k : WireKind) (fuel : Nat) (bs : List Byte)
    (h : bs.length ≤ fuel) : unpack k fuel bs ≠ .error .outOfFuel := by
  induction fuel generalizing bs with
  | zero =>
    cases bs with
    | nil => exact fun h => by cases h
    | cons b bs => simp at h
  | succ fuel ih =>
    cases bs with
    | nil => exact fun h => by cases h
    | cons b bs =>
      simp only [unpack]
      cases hc : consumeData k (b :: bs) with
      | none => exact fun h => by cases h
      | some dr =>
        obtain ⟨d, rest⟩ := dr
        have hl := consumeData_length k _ d rest hc
        simp only [List.length_cons] at hl h
        have := ih rest (by omega)
        simp only
        cases hu : unpack k fuel rest with
        | error e =>
          simp only
          intro he
          injection he with he
          subst he
          exact this hu
        | ok ds => exact fun h => by cases h

theorem foldFields_ne_outOfFuel {σ : Type} (step : σ → RawField → Except DecodeError σ)
    (hs : ∀ acc f, step acc f ≠ .error .outOfFuel) (acc : σ) (fs : List RawField) :
    foldFields step acc fs ≠ .error .outOfFuel := by
  induction fs generalizing acc with
  | nil => exact fun h => by cases h
  | cons f fs ih =>
    simp only [foldFields]
    cases hf : step acc f with
    | error e =>
      simp only
      intro he
      injection he with he
      subst he
      exact hs acc f hf
    | ok a => exact ih a

theorem applyRepeated_ne_outOfFuel (tag : StructTag) (s : Scalar)
    (acc : List s.denote × List Byte) (f : RawField) :
    applyRepeated tag s acc f ≠ .error .outOfFuel := by
  unfold applyRepeated
  split
  · split
    · rename_i run _
      have := unpack_ne_outOfFuel tag.wire run.length run (le_refl _)
      cases hu : unpack tag.wire run.length run with
      | error e =>
        simp only
        intro he
        injection he with he
        subst he
        exact this hu
      | ok ds =>
        simp only
        split <;> exact fun h => by cases h
    · exact fun h => by cases h
  · split
    · split <;> exact fun h => by cases h
    · exact fun h => by cases h

theorem decodeRepeated_ne_outOfFuel (tag : StructTag) (s : Scalar) (bs : List Byte) :
    decodeRepeated tag s bs ≠ .error .outOfFuel := by
  unfold decodeRepeated
  have := scanFields_ne_outOfFuel bs
  cases hs : scanFields bs with
  | error e =>
    simp only
    intro he
    injection he with he
    subst he
    exact this hs
  | ok fs => exact foldFields_ne_outOfFuel _ (applyRepeated_ne_outOfFuel tag s) _ fs

theorem decodeMessage_ne_outOfFuel (m : Message) (bs : List Byte) :
    decodeMessage m bs ≠ .error .outOfFuel := by
  unfold decodeMessage
  have := decodeRepeated_ne_outOfFuel m.tag m.elem bs
  cases hs : decodeRepeated m.tag m.elem bs with
  | error e =>
    simp only
    intro he
    injection he with he
    subst he
    exact this hs
  | ok r => exact fun h => by cases h

theorem GoType.ofWire_ne_outOfFuel (t : GoType) (d : WireData) :
    t.ofWire d ≠ .error .outOfFuel := by
  cases t with
  | scalar s =>
    simp only [GoType.ofWire]
    split <;> exact fun h => by cases h
  | ptr m =>
    cases d with
    | bytes b =>
      simp only [GoType.ofWire]
      have := decodeMessage_ne_outOfFuel m b
      cases hs : decodeMessage m b with
      | error e =>
        simp only
        intro he
        injection he with he
        subst he
        exact this hs
      | ok r => exact fun h => by cases h
    | varint v => exact fun h => by cases h
    | fixed64 v => exact fun h => by cases h
    | fixed32 v => exact fun h => by cases h

theorem applyField_ne_outOfFuel (v : Value) (f : RawField) :
    Value.applyField v f ≠ .error .outOfFuel := by
  unfold Value.applyField
  split
  · exact fun h => by cases h
  · rename_i X _
    have := GoType.ofWire_ne_outOfFuel X.wrapper.goType f.data
    cases hs : X.wrapper.goType.ofWire f.data with
    | error e =>
      simp only
      intro he
      injection he with he
      subst he
      exact this hs
    | ok r => exact fun h => by cases h

/-- `Decode` returns on every buffer, with a `Value` or with `MalformedWire`: the
recursion bound of the scan is never what stops it. -/
theorem Decode_ne_outOfFuel (bs : List Byte) : Decode bs ≠ .error .outOfFuel := by
  unfold Decode decodeInto
  have := scanFields_ne_outOfFuel bs
  cases hs : scanFields bs with
  | error e =>
    simp only
    intro he
    injection he with he
    subst he
    exact this hs
  | ok fs => exact foldFields_ne_outOfFuel _ applyField_ne_outOfFuel _ fs

/-! ## Equality rule -/

theorem float64_ieeeEq_self (x : float64) : float64.ieeeEq x x = !float64.isNaN x := by
  unfold float64.ieeeEq
  cases float64.isNaN x <;> simp

theorem float32_ieeeEq_self (x : float32) : float32.ieeeEq x x = !float32.isNaN x := by
  unfold float32.ieeeEq
  cases float32.isNaN x <;> simp

theorem listEq_self {α : Type} (eq : α → α → Bool) (xs : List α) :
    listEq eq xs xs = xs.all fun x => eq x x := by
  induction xs with
  | nil => rfl
  | cons x xs ih => simp only [listEq, ih, List.all_cons]

theorem Message.GetVal_canon (m : Message) (p : Option m.denote) :
    m.GetVal (GoType.canon (.ptr m) p) = m.GetVal p := by
  cases p with
  | none => cases m <;> rfl
  | some x => rfl

theorem scalar_same_iff (s : Scalar) (x y : s.denote) : s.same x y = true ↔ x = y := by
  cases s <;> simp [Scalar.same]

/-- Comparing two sequences element by element, bit pattern for bit pattern, is
asking whether they are the same sequence. -/
theorem listEq_same_iff (s : Scalar) (xs ys : List s.denote) :
    listEq s.same xs ys = true ↔ xs = ys := by
  induction xs generalizing ys with
  | nil => cases ys <;> simp [listEq]
  | cons x xs ih =>
    cases ys with
    | nil => simp [listEq]
    | cons y ys => simp [listEq, ih, scalar_same_iff]

theorem goType_same_canon (t : GoType) (p : t.denote) : t.same (t.canon p) p = true := by
  cases t with
  | scalar s => exact (scalar_same_iff s _ _).2 rfl
  | ptr m =>
    simp only [GoType.same, Message.GetVal_canon]
    exact (listEq_same_iff _ _ _).2 rfl

theorem GoType.payloadEq_canon (t : GoType) (p : t.denote) :
    t.payloadEq (t.canon p) p = !t.hasNaN p := by
  cases t with
  | scalar s =>
    cases s <;>
      simp [GoType.payloadEq, GoType.canon, Scalar.payloadEq, GoType.hasNaN,
        float64_ieeeEq_self, float32_ieeeEq_self]
  | ptr m =>
    simp only [GoType.payloadEq, Message.GetVal_canon, GoType.hasNaN, Bool.not_false]
    exact (listEq_same_iff _ _ _).2 rfl

theorem specEqConstruct_Construct (X : Variant) (q p : X.Payload) :
    (Construct X q).specEqConstruct X p = X.wrapper.goType.payloadEq q p := by
  cases X <;> rfl


/-! ## Round trips -/

/-- C2, as stated, fails, in two ways.  A double or float payload that is a NaN
decodes to the same pattern, which the equality rule of section 4.1 (NaN is not
equal to NaN) does not count as equal to what was encoded.  And a list
container whose unknown-field data holds a field the container declares (an
int32 list [1] carrying the bytes 10, 1, 5: field 1, length-delimited, one
packed element 5) decodes to a longer list, [1, 5], which is not the list that
was encoded. -/
theorem roundtrip_not_equal :
    (¬ ∃ v, Decode (Encode (Construct .double_val ⟨0x7ff8000000000000, by decide⟩)) = .ok v ∧
        v.specEqConstruct .double_val ⟨0x7ff8000000000000, by decide⟩ = true) ∧
    (¬ ∃ v, Decode (Encode (Construct .float_val ⟨0x7fc00000, by decide⟩)) = .ok v ∧
        v.specEqConstruct .float_val ⟨0x7fc00000, by decide⟩ = true) ∧
    Decode (Encode (Construct .int32_list_val
        (some { unknownFields := [10, 1, 5], Val := [⟨1, by decide⟩] })))
      = .ok (Construct .int32_list_val
        (some { unknownFields := [], Val := [⟨1, by decide⟩, ⟨5, by decide⟩] })) ∧
    (¬ ∃ v, Decode (Encode (Construct .int32_list_val
          (some { unknownFields := [10, 1, 5], Val := [⟨1, by decide⟩] }))) = .ok v ∧
        v.specEqConstruct .int32_list_val
          (some { unknownFields := [10, 1, 5], Val := [⟨1, by decide⟩] }) = true) := by
  have hd : Decode (Encode (Construct .double_val ⟨0x7ff8000000000000, by decide⟩))
      = .ok (Construct .double_val ⟨0x7ff8000000000000, by decide⟩) := by decide
  have hf : Decode (Encode (Construct .float_val ⟨0x7fc00000, by decide⟩))
      = .ok (Construct .float_val ⟨0x7fc00000, by decide⟩) := by decide
  have hi : Decode (Encode (Construct .int32_list_val
        (some { unknownFields := [10, 1, 5], Val := [⟨1, by decide⟩] })))
      = .ok (Construct .int32_list_val
        (some { unknownFields := [], Val := [⟨1, by decide⟩, ⟨5, by decide⟩] })) := by decide
  refine ⟨?_, ?_, hi, ?_⟩
  · rintro ⟨v, hv, he⟩
    rw [hd] at hv
    injection hv with hv
    subst hv
    revert he
    decide
  · rintro ⟨v, hv, he⟩
    rw [hf] at hv
    injection hv with hv
    subst hv
    revert he
    decide
  · rintro ⟨v, hv, he⟩
    rw [hi] at hv
    injection hv with hv
    subst hv
    revert he
    decide

/-- C2, amended: for every alternative `X` and payload `p` such that, when `p` is
a list container carrying unknown-field data, that data is well-formed wire
data made only of fields the container does not declare (`GoType.wellFormed`),
and such that the encoding is shorter than 2^64 bytes,
`Decode (Encode (Construct X p))` succeeds and is `Construct X p` itself,
pattern for pattern, a nil container being read back as the empty container;
it equals `Construct X p` under the equality rule of section 4.1 (lists byte
for byte) exactly when `p` is not a float or double scalar that is a NaN. -/
theorem roundtrip (X : Variant) (p : X.Payload) (hu : X.wrapper.goType.wellFormed p)
    (hl : (Encode (Construct X p)).length < 18446744073709551616) :
    Decode (Encode (Construct X p)) = .ok (Construct X (X.wrapper.goType.canon p)) ∧
    ∀ v, Decode (Encode (Construct X p)) = .ok v →
      (v.specEqConstruct X p = true ↔ X.wrapper.goType.hasNaN p = false) := by
  rw [Encode_Construct] at hl ⊢
  have hd := Decode_oneofField _ X _ (isOneofField_encodeField X p hu hl)
  refine ⟨hd, ?_⟩
  intro v hv
  rw [hd] at hv
  injection hv with hv
  subst hv
  rw [specEqConstruct_Construct, GoType.payloadEq_canon]
  cases X.wrapper.goType.hasNaN p <;> simp

theorem roundtrip_witness :
    Decode (Encode (Construct .string_list_val
        (some { unknownFields := [72, 43], Val := [[97], [98, 98], [99, 99, 99]] })))
      = .ok (Construct .string_list_val
        (some { unknownFields := [72, 43], Val := [[97], [98, 98], [99, 99, 99]] })) ∧
    ∀ v, Decode (Encode (Construct .string_list_val
        (some { unknownFields := [72, 43], Val := [[97], [98, 98], [99, 99, 99]] }))) = .ok v →
      (v.specEqConstruct .string_list_val
          (some { unknownFields := [72, 43], Val := [[97], [98, 98], [99, 99, 99]] }) = true ↔
        (GoType.ptr .StringList).hasNaN
          (some { unknownFields := [72, 43], Val := [[97], [98, 98], [99, 99, 99]] }) = false) :=
  roundtrip .string_list_val
    (some { unknownFields := [72, 43], Val := [[97], [98, 98], [99, 99, 99]] })
    ⟨[{ number := 9, data := .varint 43, raw := [72, 43] }], by decide, by decide⟩
    (by decide)

/-- C9: an unset `Value` (no alternative populated, no unknown-field data) encodes
to the empty buffer, and decoding the empty buffer succeeds with the unset
`Value`. -/
theorem unset_roundtrip :
    Encode Value.unset = [] ∧
    (∀ v : Value, v.Val = none → v.unknownFields = [] → Encode v = []) ∧
    Decode [] = .ok Value.unset ∧
    Decode (Encode Value.unset) = .ok Value.unset := by
  refine ⟨rfl, ?_, rfl, rfl⟩
  intro v h1 h2
  simp only [Encode, h1, h2, List.append_nil]

theorem unset_roundtrip_witness : Encode { unknownFields := [], Val := none } = [] :=
  unset_roundtrip.2.1 { unknownFields := [], Val := none } rfl rfl

/-- C10: a buffer that is one well-formed oneof field followed by another (the same
tag with a different payload, or a different oneof tag) decodes successfully,
to the `Value` holding only the alternative and payload of the last one, which
is what decoding the last field alone gives. -/
theorem duplicate_tag_last_wins (b₁ b₂ : List Byte) (X₁ X₂ : Variant)
    (p₁ : X₁.Payload) (p₂ : X₂.Payload)
    (h₁ : IsOneofField b₁ X₁ p₁) (h₂ : IsOneofField b₂ X₂ p₂) :
    Decode (b₁ ++ b₂) = .ok (Construct X₂ p₂) ∧ Decode (b₁ ++ b₂) = Decode b₂ := by
  have h : Decode (b₁ ++ b₂) = .ok (Construct X₂ p₂) := by
    unfold Decode
    rw [decodeInto_field_append b₁ X₁ p₁ b₂ h₁ Value.unset]
    have := decodeInto_field_append b₂ X₂ p₂ [] h₂
      { Value.unset with Val := some (X₁.wrap p₁) }
    rw [List.append_nil] at this
    rw [this, decodeInto_nil]
    rfl
  exact ⟨h, by rw [h, Decode_oneofField b₂ X₂ p₂ h₂]⟩

theorem duplicate_tag_last_wins_witness :
    (Decode ([24, 42] ++ [24, 43]) = .ok (Construct .int32_val ⟨43, by decide⟩) ∧
      Decode ([24, 42] ++ [24, 43]) = Decode [24, 43]) ∧
    (Decode ([24, 42] ++ [18, 1, 97]) = .ok (Construct .string_val [97]) ∧
      Decode ([24, 42] ++ [18, 1, 97]) = Decode [18, 1, 97]) :=
  ⟨duplicate_tag_last_wins [24, 42] [24, 43] .int32_val .int32_val ⟨42, by decide⟩
      ⟨43, by decide⟩
      ⟨{ number := 3, data := .varint 42, raw := [24, 42] }, by decide, by decide, rfl⟩
      ⟨{ number := 3, data := .varint 43, raw := [24, 43] }, by decide, by decide, rfl⟩,
   duplicate_tag_last_wins [24, 42] [18, 1, 97] .int32_val .string_val ⟨42, by decide⟩ [97]
      ⟨{ number := 3, data := .varint 42, raw := [24, 42] }, by decide, by decide, rfl⟩
      ⟨{ number := 2, data := .bytes [97], raw := [18, 1, 97] }, by decide, by decide, rfl⟩⟩

theorem accessor_total_except_nil_wrapper_witness :
    (∃ p, Value.Get .int32_val (some Value.unset) = .ok p) ∧
    Value.Get .int32_val (some { unknownFields := [], Val := some (.Value_Int32Val none) })
      = .error .nilDereference :=
  ⟨(accessor_total_except_nil_wrapper.2.2.1 .int32_val (some Value.unset)).2 (by decide),
   accessor_total_except_nil_wrapper.2.2.2 .int32_val
     (some { unknownFields := [], Val := some (.Value_Int32Val none) }) rfl⟩


/-! ## Containers, enums and registration tables -/

/-- C14: every container struct (the seven list containers and `RepeatedValue`)
declares exactly one data field, `Val`, with proto name `val`, label `rep` and
field number 1; it is packed exactly for Int32List, Int64List and BoolList
(varint), DoubleList (fixed64) and FloatList (fixed32), and a non-packed
length-delimited field for BytesList, StringList and RepeatedValue. -/
theorem containers_one_repeated_field :
    Container.all.length = 8 ∧
    (∀ c : Container, c ∈ Container.all) ∧
    (∀ c : Container, ∃ t : StructTag, c.dataFields = [("Val", t)]) ∧
    Container.all.map (fun c => c.dataFields.map fun f =>
        (f.2.name, f.2.label, f.2.number, f.2.wire, f.2.packed))
      = specContainerFields := by
  refine ⟨by decide, ?_, ?_, by decide⟩
  · intro c
    cases c with
    | list m => cases m <;> decide
    | RepeatedValue => decide
  · intro c
    cases c with
    | list m => exact ⟨m.tag, rfl⟩
    | RepeatedValue => exact ⟨RepeatedValue.tag, rfl⟩

/-- C15: for each of the seventeen alternatives, the `ValueType.Enum` member named
after it (BYTES for bytes_val, ..., NULL for null_val) has the alternative's
field number, in the constants and in both enum tables; the one remaining
member, INVALID = 0, has the number of no field. -/
theorem valueType_matches_field_ids :
    (∀ X : Variant,
      ValueType_Enum_value.lookup X.enumName = some (X.number : Int) ∧
      ValueType_Enum_name.lookup (X.number : Int) = some X.enumName ∧
      (ValueType_Enum_consts.lookup ("ValueType_" ++ X.enumName)).map (·.val)
        = some (X.number : Int)) ∧
    ValueType_Enum_consts.length = 17 + 1 ∧
    (ValueType_Enum_consts.filter fun c =>
        decide (∀ X ∈ OneofWrappers, "ValueType_" ++ X.enumName ≠ c.1))
      = [("ValueType_INVALID", ValueType_INVALID)] ∧
    ValueType_INVALID.val = 0 ∧
    (∀ X : Variant, X.number ≠ 0) := by
  refine ⟨fun X => by cases X <;> decide, by decide, by decide, rfl,
    fun X => by cases X <;> decide⟩

/-- C16: `Null` has exactly one declared member, `Null_NULL = 0`; `Null_name` is the
single entry 0 to "NULL" and `Null_value` the single entry "NULL" to 0; `Null` is
an `int32`, and `Number` returns every `int32` unchanged. -/
theorem null_single_member :
    Null_consts = [("Null_NULL", Null_NULL)] ∧
    Null_NULL.val = 0 ∧
    Null_name = [(0, "NULL")] ∧
    Null_value = [("NULL", 0)] ∧
    (∀ x : Null, Null.Number x = x) ∧
    (∀ i : Int, -2147483648 ≤ i → i < 2147483648 →
      ∃ x : Null, x.val = i ∧ (Null.Number x).val = i) :=
  ⟨rfl, rfl, rfl, rfl, fun _ => rfl, fun i h1 h2 => ⟨⟨i, h1, h2⟩, rfl, rfl⟩⟩

theorem null_single_member_witness :
    ∃ x : Null, x.val = 7 ∧ (Null.Number x).val = 7 :=
  null_single_member.2.2.2.2.2 7 (by decide) (by decide)

/-- C17: on a `Value` that is nil, unset or holds an alternative other than `X`,
the accessor for `X` returns the zero value of `X`'s payload type: nil for
`GetBytesVal` and the eight list accessors, "" for `GetStringVal`, 0 for the
numeric ones, false for `GetBoolVal`, `Null_NULL` for `GetNullVal`.  Alternatives
with the same payload type are not coerced: `GetInt64Val` of a `Value` holding
unix_timestamp `n` is 0, and `GetInt64ListVal` of one holding a
unix_timestamp_list is nil. -/
theorem safe_default_accessors :
    (∀ (X : Variant) (v : Option Value),
      (Value.GetVal v = none ∨ ∃ i, Value.GetVal v = some i ∧ i.variant ≠ X) →
      Value.Get X v = .ok X.zero) ∧
    (Variant.bytes_val.zero = ([] : GoBytes) ∧ Variant.string_val.zero = ([] : GoString) ∧
      Variant.int32_val.zero = int32.zero ∧ Variant.int64_val.zero = int64.zero ∧
      Variant.double_val.zero = float64.zero ∧ Variant.float_val.zero = float32.zero ∧
      Variant.bool_val.zero = false ∧ Variant.unix_timestamp_val.zero = int64.zero ∧
      Variant.bytes_list_val.zero = none ∧ Variant.string_list_val.zero = none ∧
      Variant.int32_list_val.zero = none ∧ Variant.int64_list_val.zero = none ∧
      Variant.double_list_val.zero = none ∧ Variant.float_list_val.zero = none ∧
      Variant.bool_list_val.zero = none ∧ Variant.unix_timestamp_list_val.zero = none ∧
      Variant.null_val.zero = Null_NULL) ∧
    (∀ n : int64, Value.GetInt64Val (some (Construct .unix_timestamp_val n)) = .ok int64.zero) ∧
    (∀ l : Option Int64List,
      Value.GetInt64ListVal (some (Construct .unix_timestamp_list_val l)) = .ok none) := by
  refine ⟨?_, ⟨rfl, rfl, rfl, rfl, rfl, rfl, rfl, rfl, rfl, rfl, rfl, rfl, rfl, rfl, rfl, rfl,
    rfl⟩, fun _ => rfl, fun _ => rfl⟩
  intro X v hv
  rcases hv with hv | ⟨i, hv, hi⟩
  · exact get_unset v X hv
  · exact get_other_variant v i X hv (Ne.symm hi)

theorem safe_default_accessors_witness :
    Value.Get .int64_val (some (Construct .unix_timestamp_val ⟨5, by decide⟩))
      = .ok Variant.int64_val.zero :=
  safe_default_accessors.1 .int64_val (some (Construct .unix_timestamp_val ⟨5, by decide⟩))
    (.inr ⟨Variant.unix_timestamp_val.wrap ⟨5, by decide⟩, rfl, by decide⟩)

theorem lookup_eq_some_iff_mem {α β : Type} [DecidableEq α] (l : List (α × β))
    (hl : (l.map Prod.fst).Nodup) (k : α) (v : β) :
    l.lookup k = some v ↔ (k, v) ∈ l := by
  induction l with
  | nil => simp [List.lookup]
  | cons e l ih =>
    obtain ⟨a, b⟩ := e
    simp only [List.map_cons, List.nodup_cons, List.mem_map, Prod.exists, exists_and_right,
      exists_eq_right, not_exists] at hl
    simp only [List.lookup, List.mem_cons, Prod.mk.injEq]
    by_cases hk : k = a
    · subst hk
      simp only [beq_self_eq_true, Option.some.injEq, true_and]
      constructor
      · intro h; exact .inl h.symm
      · rintro (h | h)
        · exact h.symm
        · exact absurd h (hl.1 v)
    · have : (k == a) = false := by simpa using hk
      simp only [this, hk, false_and, false_or]
      exact ih hl.2

/-- C18: `ValueType_Enum_name` and `ValueType_Enum_value` are mutually inverse: `n`
is mapped to `s` by the one exactly when `s` is mapped to `n` by the other; both
have 18 entries; the numbers are exactly 0..8 and 11..19; and each declared
constant `ValueType_X` is mapped to its own name `X`. -/
theorem valueType_tables_inverse :
    (∀ (n : Int) (s : String),
      ValueType_Enum_name.lookup n = some s ↔ ValueType_Enum_value.lookup s = some n) ∧
    ValueType_Enum_name.length = 18 ∧ ValueType_Enum_value.length = 18 ∧
    (∀ n : Int, (∃ s, ValueType_Enum_name.lookup n = some s) ↔
      (0 ≤ n ∧ n ≤ 8) ∨ (11 ≤ n ∧ n ≤ 19)) ∧
    (∀ c ∈ ValueType_Enum_consts,
      (ValueType_Enum_name.lookup c.2.val).map ("ValueType_" ++ ·) = some c.1) := by
  have hname : (ValueType_Enum_name.map Prod.fst).Nodup := by decide
  have hvalue : (ValueType_Enum_value.map Prod.fst).Nodup := by decide
  have hswap : ValueType_Enum_value = ValueType_Enum_name.map Prod.swap := by decide
  refine ⟨?_, rfl, rfl, ?_, by decide⟩
  · intro n s
    rw [lookup_eq_some_iff_mem _ hname, lookup_eq_some_iff_mem _ hvalue, hswap]
    simp only [List.mem_map, Prod.exists, Prod.swap_prod_mk, Prod.mk.injEq]
    constructor
    · intro h; exact ⟨n, s, h, rfl, rfl⟩
    · rintro ⟨a, b, h, rfl, rfl⟩; exact h
  · intro n
    constructor
    · rintro ⟨s, hs⟩
      rw [lookup_eq_some_iff_mem _ hname] at hs
      simp only [ValueType_Enum_name, List.mem_cons, Prod.mk.injEq, List.mem_singleton,
        List.mem_nil_iff, or_false] at hs
      omega
    · intro h
      have hn : n = 0 ∨ n = 1 ∨ n = 2 ∨ n = 3 ∨ n = 4 ∨ n = 5 ∨ n = 6 ∨ n = 7 ∨ n = 8 ∨
          n = 11 ∨ n = 12 ∨ n = 13 ∨ n = 14 ∨ n = 15 ∨ n = 16 ∨ n = 17 ∨ n = 18 ∨
          n = 19 := by omega
      rcases hn with h | h | h | h | h | h | h | h | h | h | h | h | h | h | h | h | h | h <;>
        subst h <;> exact ⟨_, rfl⟩

/-- C20: the registration tables agree: `goTypes` has NumEnums + NumMessages =
2 + 10 = 12 entries; each of `depIdxs[0..9]` is a valid index into `goTypes`, and
`goTypes[depIdxs[i]]` is the Go type of the i-th message- or enum-typed field as
the wrapper structs declare it (bytes_list_val to BytesList, ...,
unix_timestamp_list_val to Int64List, null_val to Null, RepeatedValue.val to
Value); the four sub-list markers that follow are 10 and the last entry is 0. -/
theorem registration_tables_consistent :
    file_feast_types_Value_proto_goTypes.length = NumEnums + NumMessages ∧
    NumEnums + NumMessages = 12 ∧
    (∀ i ∈ file_feast_types_Value_proto_depIdxs.take 10,
      i < file_feast_types_Value_proto_goTypes.length) ∧
    (file_feast_types_Value_proto_depIdxs.take 10).map
        (fun i => file_feast_types_Value_proto_goTypes[i]?)
      = typedFields.map (fun f => some f.2) ∧
    typedFields =
      [ ("bytes_list_val", .BytesList), ("string_list_val", .StringList),
        ("int32_list_val", .Int32List), ("int64_list_val", .Int64List),
        ("double_list_val", .DoubleList), ("float_list_val", .FloatList),
        ("bool_list_val", .BoolList), ("unix_timestamp_list_val", .Int64List),
        ("null_val", .Null), ("RepeatedValue.val", .Value) ] ∧
    file_feast_types_Value_proto_depIdxs.drop 10 = [10, 10, 10, 10, 0] := by
  refine ⟨by decide, by decide, by decide, by decide, by decide, by decide⟩

theorem get_ok_iff (X : Variant) (v : Option Value) :
    (∃ p, Value.Get X v = .ok p) ↔ Value.GetVal v ≠ some X.nilWrapper := by
  constructor
  · rintro ⟨p, hp⟩ h
    rw [get_nilWrapper v X h] at hp
    exact Except.noConfusion hp
  · intro h
    cases hv : Value.GetVal v with
    | none => exact ⟨_, get_unset v X hv⟩
    | some i =>
      by_cases hi : X = i.variant
      · subst hi
        rcases isValue_Val_cases i with hn | ⟨p, hp⟩
        · exact absurd (hv.trans (congrArg some hn)) h
        · exact ⟨p, get_wrap v _ p (hv.trans (congrArg some hp))⟩
      · exact ⟨_, get_other_variant v i X hv hi⟩

theorem except_map_ok_iff {ε α β : Type} (f : α → β) (e : Except ε α) :
    (∃ b, e.map f = .ok b) ↔ ∃ a, e = .ok a := by
  cases e with
  | error x =>
    constructor
    · rintro ⟨b, hb⟩; exact Except.noConfusion hb
    · rintro ⟨a, ha⟩; exact Except.noConfusion ha
  | ok a => exact ⟨fun _ => ⟨a, rfl⟩, fun _ => ⟨f a, rfl⟩⟩

theorem chain_ok_iff (L : ListVariant) (v : Option Value) :
    (∃ l, L.chain v = .ok l) ↔ Value.GetVal v ≠ some L.variant.nilWrapper := by
  rw [← get_ok_iff]
  cases L <;> exact except_map_ok_iff _ _

theorem chain_of_get_zero (L : ListVariant) (v : Option Value)
    (h : Value.Get L.variant v = .ok L.variant.zero) : L.chain v = .ok [] := by
  cases L
  all_goals
    simp only [ListVariant.variant, Value.Get] at h
    simp only [ListVariant.chain, h]
    rfl

/-- C19, as stated, fails: on a `Value` whose `Val` is the nil pointer of type
`*Value_BytesListVal`, the chained call `GetBytesListVal().GetVal()` dereferences
nil in `GetBytesListVal`. -/
theorem chained_call_panics_on_nil_wrapper :
    ListVariant.chain .bytes_list_val
        (some { unknownFields := [], Val := some (.Value_BytesListVal none) })
      = .error .nilDereference :=
  rfl

/-- C19, amended: `GetVal` of each container returns the empty sequence on a nil
container and the field `Val` unchanged otherwise.  The chained call
`v.GetXListVal().GetVal()` returns on every receiver (nil, unset, or holding
any wrapper) except one whose `Val` is the nil pointer of the wrapper type of
`X` itself, and is the empty sequence whenever `v` is nil, unset or holds
another alternative. -/
theorem container_accessors_nil_safe :
    (BytesList.GetVal none = [] ∧ ∀ x : BytesList, BytesList.GetVal (some x) = x.Val) ∧
    (StringList.GetVal none = [] ∧ ∀ x : StringList, StringList.GetVal (some x) = x.Val) ∧
    (Int32List.GetVal none = [] ∧ ∀ x : Int32List, Int32List.GetVal (some x) = x.Val) ∧
    (Int64List.GetVal none = [] ∧ ∀ x : Int64List, Int64List.GetVal (some x) = x.Val) ∧
    (DoubleList.GetVal none = [] ∧ ∀ x : DoubleList, DoubleList.GetVal (some x) = x.Val) ∧
    (FloatList.GetVal none = [] ∧ ∀ x : FloatList, FloatList.GetVal (some x) = x.Val) ∧
    (BoolList.GetVal none = [] ∧ ∀ x : BoolList, BoolList.GetVal (some x) = x.Val) ∧
    (RepeatedValue.GetVal none = [] ∧
      ∀ x : RepeatedValue, RepeatedValue.GetVal (some x) = x.Val) ∧
    (∀ (L : ListVariant) (v : Option Value),
      (∃ l, L.chain v = .ok l) ↔ Value.GetVal v ≠ some L.variant.nilWrapper) ∧
    (∀ (L : ListVariant) (v : Option Value),
      (Value.GetVal v = none ∨ ∃ i, Value.GetVal v = some i ∧ i.variant ≠ L.variant) →
      L.chain v = .ok []) := by
  refine ⟨⟨rfl, fun _ => rfl⟩, ⟨rfl, fun _ => rfl⟩, ⟨rfl, fun _ => rfl⟩, ⟨rfl, fun _ => rfl⟩,
    ⟨rfl, fun _ => rfl⟩, ⟨rfl, fun _ => rfl⟩, ⟨rfl, fun _ => rfl⟩, ⟨rfl, fun _ => rfl⟩,
    chain_ok_iff, ?_⟩
  intro L v hv
  apply chain_of_get_zero
  rcases hv with hv | ⟨i, hv, hi⟩
  · exact get_unset v _ hv
  · exact get_other_variant v i _ hv (Ne.symm hi)

theorem container_accessors_nil_safe_witness :
    (∃ l, ListVariant.chain .int64_list_val
        (some (Construct .unix_timestamp_list_val none)) = .ok l) ∧
    ListVariant.chain .int64_list_val (some (Construct .unix_timestamp_list_val none))
      = .ok [] :=
  ⟨(container_accessors_nil_safe.2.2.2.2.2.2.2.2.1 .int64_list_val
      (some (Construct .unix_timestamp_list_val none))).2 (by decide),
   container_accessors_nil_safe.2.2.2.2.2.2.2.2.2 .int64_list_val
      (some (Construct .unix_timestamp_list_val none))
      (.inr ⟨Variant.unix_timestamp_list_val.wrap none, rfl, by decide⟩)⟩

/-! ## Truncation -/

theorem getVarint_prefix (fuel : Nat) (bs : List Byte) (v : Nat) (rest : List Byte)
    (h : getVarint fuel bs = some (v, rest)) :
    ∃ pre, bs = pre ++ rest ∧ pre ≠ [] ∧ ∀ s, getVarint fuel (pre ++ s) = some (v, s) := by
  induction fuel generalizing bs v rest with
  | zero => simp [getVarint] at h
  | succ fuel ih =>
    cases bs with
    | nil => simp [getVarint] at h
    | cons b bs =>
      unfold getVarint at h
      split at h
      · rename_i hb
        simp only [Option.some.injEq, Prod.mk.injEq] at h
        obtain ⟨h1, h2⟩ := h
        subst h1 h2
        refine ⟨[b], rfl, by simp, fun s => ?_⟩
        show getVarint (fuel + 1) (b :: s) = _
        rw [getVarint]
        simp only [hb, ↓reduceIte]
      · rename_i hb
        split at h
        · rename_i v1 r1 h1
          simp only [Option.some.injEq, Prod.mk.injEq] at h
          obtain ⟨pre, hpre, _, hs⟩ := ih bs v1 r1 h1
          obtain ⟨h2, h3⟩ := h
          subst h2 h3
          refine ⟨b :: pre, by rw [hpre]; rfl, by simp, fun s => ?_⟩
          show getVarint (fuel + 1) (b :: (pre ++ s)) = _
          rw [getVarint]
          simp only [hb, ↓reduceIte, hs s]
        · exact Option.noConfusion h

theorem consumeVarint_prefix (bs : List Byte) (v : Nat) (rest : List Byte)
    (h : consumeVarint bs = some (v, rest)) :
    ∃ pre, bs = pre ++ rest ∧ pre ≠ [] ∧ ∀ s, consumeVarint (pre ++ s) = some (v, s) := by
  unfold consumeVarint at h
  split at h
  · rename_i v1 r1 h1
    simp only [Option.some.injEq, Prod.mk.injEq] at h
    obtain ⟨pre, hpre, hne, hs⟩ := getVarint_prefix 10 bs v1 r1 h1
    obtain ⟨h2, h3⟩ := h
    subst h2 h3
    exact ⟨pre, hpre, hne, fun s => by simp only [consumeVarint, hs s]⟩
  · exact Option.noConfusion h

theorem getVarint_dropLast (fuel : Nat) (bs : List Byte) (v : Nat)
    (h : getVarint fuel bs = some (v, [])) : getVarint fuel bs.dropLast = none := by
  induction fuel generalizing bs v with
  | zero => simp [getVarint] at h
  | succ fuel ih =>
    cases bs with
    | nil => simp [getVarint] at h
    | cons b bs =>
      unfold getVarint at h
      split at h
      · simp only [Option.some.injEq, Prod.mk.injEq] at h
        rw [h.2]
        rfl
      · rename_i hb
        split at h
        · rename_i v1 r1 h1
          simp only [Option.some.injEq, Prod.mk.injEq] at h
          rw [h.2] at h1
          have hne : bs ≠ [] := by
            intro hbs
            have := getVarint_length fuel bs v1 [] h1
            rw [hbs] at this
            simp at this
          obtain ⟨c, cs, rfl⟩ := List.exists_cons_of_ne_nil hne
          have := ih (c :: cs) v1 h1
          simp only [List.dropLast_cons₂, getVarint, hb, ↓reduceIte, this]
        · exact Option.noConfusion h

theorem consumeVarint_dropLast (bs : List Byte) (v : Nat)
    (h : consumeVarint bs = some (v, [])) : consumeVarint bs.dropLast = none := by
  unfold consumeVarint at h
  split at h
  · rename_i v1 r1 h1
    simp only [Option.some.injEq, Prod.mk.injEq] at h
    rw [h.2] at h1
    simp only [consumeVarint, getVarint_dropLast 10 bs v1 h1]
  · exact Option.noConfusion h

theorem getFixed_short (w : Nat) (bs : List Byte) (h : bs.length < w) :
    getFixed w bs = none := by
  cases hg : getFixed w bs with
  | none => rfl
  | some vr =>
    obtain ⟨v, rest⟩ := vr
    have := getFixed_length w bs v rest hg
    omega

theorem dropLast_append_of_ne_nil {α : Type} (a b : List α) (h : b ≠ []) :
    (a ++ b).dropLast = a ++ b.dropLast := by
  induction a with
  | nil => rfl
  | cons x a ih =>
    cases hab : a ++ b with
    | nil =>
      have : b = [] := (List.append_eq_nil.1 hab).2
      exact absurd this h
    | cons y ys =>
      rw [List.cons_append, hab, List.dropLast_cons₂, ← hab, ih]
      rfl

/-- A field value that fills its buffer is not read from that buffer with its last
byte removed. -/
theorem consumeData_dropLast (k : WireKind) (bs : List Byte) (d : WireData)
    (h : consumeData k bs = some (d, [])) : consumeData k bs.dropLast = none := by
  cases k with
  | varint =>
    simp only [consumeData] at h ⊢
    split at h
    · rename_i v r hv
      simp only [Option.some.injEq, Prod.mk.injEq] at h
      rw [h.2] at hv
      rw [consumeVarint_dropLast bs v hv]
    · exact Option.noConfusion h
  | fixed64 =>
    simp only [consumeData] at h ⊢
    split at h
    · rename_i v r hv
      simp only [Option.some.injEq, Prod.mk.injEq] at h
      rw [h.2] at hv
      have := getFixed_length 8 bs v [] hv
      rw [getFixed_short 8 bs.dropLast (by rw [List.length_dropLast]; simp at this; omega)]
    · exact Option.noConfusion h
  | bytes =>
    simp only [consumeData] at h ⊢
    split at h
    · rename_i n r hv
      split at h
      · rename_i hn
        simp only [Option.some.injEq, Prod.mk.injEq] at h
        have hlen : r.length ≤ n := by
          have := congrArg List.length h.2
          simp only [List.length_drop, List.length_nil] at this
          omega
        by_cases hr : r = []
        · subst hr
          rw [consumeVarint_dropLast bs n hv]
        · obtain ⟨pre, hpre, _, hs⟩ := consumeVarint_prefix bs n r hv
          rw [hpre, dropLast_append_of_ne_nil pre r hr, hs r.dropLast]
          have : r.length ≠ 0 := fun h0 => hr (List.length_eq_zero.1 h0)
          have hlt : ¬ n ≤ r.dropLast.length := by
            rw [List.length_dropLast]; omega
          simp only [hlt, ↓reduceIte]
      · exact Option.noConfusion h
    · exact Option.noConfusion h
  | fixed32 =>
    simp only [consumeData] at h ⊢
    split at h
    · rename_i v r hv
      simp only [Option.some.injEq, Prod.mk.injEq] at h
      rw [h.2] at hv
      have := getFixed_length 4 bs v [] hv
      rw [getFixed_short 4 bs.dropLast (by rw [List.length_dropLast]; simp at this; omega)]
    · exact Option.noConfusion h

/-- A buffer that is exactly one field does not scan once its last byte is
removed: what is left is not empty and is malformed. -/
theorem consumeField_dropLast (bs : List Byte) (f : RawField)
    (h : consumeField bs = .ok (f, [])) :
    bs.dropLast ≠ [] ∧ consumeField bs.dropLast = .error .MalformedWire := by
  unfold consumeField at h
  split at h
  · exact Except.noConfusion h
  · rename_i key r hk
    split at h
    · exact Except.noConfusion h
    · rename_i k hkk
      split at h
      · exact Except.noConfusion h
      · rename_i d r2 hd
        simp only [Except.ok.injEq, Prod.mk.injEq] at h
        rw [h.2] at hd
        have hr : r ≠ [] := by
          intro h0
          have := consumeData_length k r d [] hd
          rw [h0] at this
          simp at this
        obtain ⟨pre, hpre, hne, hs⟩ := consumeVarint_prefix bs key r hk
        rw [hpre, dropLast_append_of_ne_nil pre r hr]
        refine ⟨fun h0 => hne (List.append_eq_nil.1 h0).1, ?_⟩
        unfold consumeField
        rw [hs r.dropLast]
        simp only [hkk, consumeData_dropLast k r d hd]

theorem Decode_dropLast_field (bs : List Byte) (f : RawField)
    (h : consumeField bs = .ok (f, [])) : Decode bs.dropLast = .error .MalformedWire := by
  obtain ⟨hne, hc⟩ := consumeField_dropLast bs f h
  obtain ⟨b, rest, hb⟩ := List.exists_cons_of_ne_nil hne
  rw [hb] at hc ⊢
  unfold Decode decodeInto
  rw [scanFields_of_consume_error b rest _ hc]

theorem goType_toWire_fits (t : GoType) (p : t.denote)
    (hl : (t.toWire p).encode.length < 18446744073709551616) : (t.toWire p).fits := by
  cases t with
  | scalar s => exact Scalar.toWire_fits_of_length s p hl
  | ptr m =>
    have hr : ∀ run : List Byte,
        (WireData.bytes run).encode = appendVarint run.length ++ run := fun _ => rfl
    simp only [GoType.toWire, hr, List.length_append] at hl
    exact show (encodeMessage m p).length < 18446744073709551616 by omega

theorem consumeField_encodeField (X : Variant) (p : X.Payload)
    (hl : (encodeField X p).length < 18446744073709551616) :
    consumeField (encodeField X p)
      = .ok (RawField.ofData X.number (X.wrapper.goType.toWire p), []) := by
  have hle : (X.wrapper.goType.toWire p).encode.length < 18446744073709551616 := by
    simp only [encodeField, List.length_append] at hl
    omega
  have hfit := goType_toWire_fits _ p hle
  have hn : X.number * 8 + (X.wrapper.goType.toWire p).kind.number
      < 18446744073709551616 := by
    have := X.number_le
    have := number_lt (X.wrapper.goType.toWire p).kind
    omega
  rw [encodeField_eq]
  have := consumeField_encode X.number (X.wrapper.goType.toWire p) [] hfit hn
  simpa [RawField.ofData] using this

/-- C11: for every alternative and payload (encoding to fewer than 2^64 bytes),
the encoding of `Construct X p` is not empty, and `Decode` of it with its last
byte removed fails with `MalformedWire`; this includes empty strings, empty
byte sequences and empty or nil containers.  Only the unset `Value`, whose
encoding is empty, is excepted. -/
theorem truncation_rejected (X : Variant) (p : X.Payload)
    (hl : (Encode (Construct X p)).length < 18446744073709551616) :
    Encode (Construct X p) ≠ [] ∧
    Decode (Encode (Construct X p)).dropLast = .error .MalformedWire ∧
    Decode (Encode Value.unset).dropLast = .ok Value.unset := by
  rw [Encode_Construct] at hl ⊢
  have hc := consumeField_encodeField X p hl
  exact ⟨consumeField_ne_nil _ _ _ hc, Decode_dropLast_field _ _ hc, rfl⟩

theorem truncation_rejected_witness :
    Encode (Construct .string_val []) ≠ [] ∧
    Decode (Encode (Construct .string_val [])).dropLast = .error .MalformedWire ∧
    Decode (Encode Value.unset).dropLast = .ok Value.unset :=
  truncation_rejected .string_val [] (by decide)

/-! ## Unknown fields -/

theorem recognize_none_of_unassigned (f : RawField)
    (h : ∀ Y : Variant, Y.number ≠ f.number) : recognize f = none := by
  cases hr : recognize f with
  | none => rfl
  | some X => exact absurd (recognize_sound f X hr).1.symm (h X)

/-- Decoding a buffer that is one unrecognized field followed by `rest` is decoding
`rest` into a `Value` that already keeps the bytes of that field. -/
theorem decodeInto_unknown_append (u : List Byte) (f : RawField) (rest : List Byte)
    (hc : consumeField u = .ok (f, [])) (hr : recognize f = none) (v : Value) :
    decodeInto v (u ++ rest)
      = decodeInto { v with unknownFields := v.unknownFields ++ u } rest := by
  have hraw : f.raw = u := by
    have := consumeField_raw u f [] hc
    rwa [List.append_nil] at this
  have := consumeField_append u f [] rest hc
  rw [List.nil_append] at this
  unfold decodeInto
  rw [scanFields_of_consume _ f rest this]
  cases scanFields rest with
  | error e => rfl
  | ok fs => simp only [foldFields, Value.applyField, hr, hraw]

/-- C12: a buffer made of one well-formed oneof field and one well-formed field
whose number is assigned to no alternative, in either order, decodes
successfully; the resulting `Value` holds the alternative and payload of the
recognized field, which its accessor returns, and keeps the bytes of the other
field as its unknown-field data. -/
theorem unknown_tag_tolerated (b u : List Byte) (X : Variant) (p : X.Payload)
    (f : RawField) (hb : IsOneofField b X p) (hu : consumeField u = .ok (f, []))
    (hf : ∀ Y : Variant, Y.number ≠ f.number) :
    Decode (b ++ u) = .ok { unknownFields := u, Val := some (X.wrap p) } ∧
    Decode (u ++ b) = .ok { unknownFields := u, Val := some (X.wrap p) } ∧
    Value.Get X (some { unknownFields := u, Val := some (X.wrap p) }) = .ok p := by
  have hr := recognize_none_of_unassigned f hf
  refine ⟨?_, ?_, get_wrap _ X p rfl⟩
  · unfold Decode
    rw [decodeInto_field_append b X p u hb Value.unset]
    have := decodeInto_unknown_append u f [] hu hr { Value.unset with Val := some (X.wrap p) }
    rw [List.append_nil] at this
    rw [this, decodeInto_nil]
    rfl
  · unfold Decode
    rw [decodeInto_unknown_append u f b hu hr Value.unset]
    have := decodeInto_field_append b X p [] hb
      { Value.unset with unknownFields := Value.unset.unknownFields ++ u }
    rw [List.append_nil] at this
    rw [this, decodeInto_nil]
    rfl

theorem unknown_tag_tolerated_witness :
    (Decode ([24, 42] ++ [72, 43])
        = .ok { unknownFields := [72, 43], Val := some (Variant.int32_val.wrap ⟨42, by decide⟩) } ∧
      Decode ([72, 43] ++ [24, 42])
        = .ok { unknownFields := [72, 43], Val := some (Variant.int32_val.wrap ⟨42, by decide⟩) } ∧
      Value.Get .int32_val
          (some { unknownFields := [72, 43], Val := some (Variant.int32_val.wrap ⟨42, by decide⟩) })
        = .ok ⟨42, by decide⟩) ∧
    (Decode ([24, 42] ++ [162, 1, 1, 97])
        = .ok { unknownFields := [162, 1, 1, 97],
                Val := some (Variant.int32_val.wrap ⟨42, by decide⟩) } ∧
      Decode ([162, 1, 1, 97] ++ [24, 42])
        = .ok { unknownFields := [162, 1, 1, 97],
                Val := some (Variant.int32_val.wrap ⟨42, by decide⟩) } ∧
      Value.Get .int32_val
          (some { unknownFields := [162, 1, 1, 97],
                  Val := some (Variant.int32_val.wrap ⟨42, by decide⟩) })
        = .ok ⟨42, by decide⟩) :=
  ⟨unknown_tag_tolerated [24, 42] [72, 43] .int32_val ⟨42, by decide⟩
      { number := 9, data := .varint 43, raw := [72, 43] }
      ⟨{ number := 3, data := .varint 42, raw := [24, 42] }, by decide, by decide, rfl⟩
      (by decide) (fun Y => by cases Y <;> decide),
   unknown_tag_tolerated [24, 42] [162, 1, 1, 97] .int32_val ⟨42, by decide⟩
      { number := 20, data := .bytes [97], raw := [162, 1, 1, 97] }
      ⟨{ number := 3, data := .varint 42, raw := [24, 42] }, by decide, by decide, rfl⟩
      (by decide) (fun Y => by cases Y <;> decide)⟩

/-! ## Whole values and RepeatedValue -/

theorem applyField_unknown (v : Value) (f : RawField) (h : ¬ recognize f ≠ none) :
    Value.applyField v f = .ok { v with unknownFields := v.unknownFields ++ f.raw } := by
  have hr : recognize f = none := not_not.1 h
  simp only [Value.applyField, hr]

theorem foldFields_value_unknown (v : Value) (fs : List RawField)
    (h : ∀ f ∈ fs, ¬ recognize f ≠ none) :
    foldFields Value.applyField v fs
      = .ok { v with unknownFields := v.unknownFields ++ (fs.map fun f => f.raw).flatten } := by
  induction fs generalizing v with
  | nil => simp [foldFields]
  | cons f fs ih =>
    simp only [foldFields, applyField_unknown v f (h f (List.mem_cons_self _ _))]
    rw [ih _ (fun g hg => h g (List.mem_cons_of_mem _ hg))]
    simp

theorem decodeInto_unknownData (v : Value) (u : List Byte)
    (hu : UnknownData (fun f => recognize f ≠ none) u) :
    decodeInto v u = .ok { v with unknownFields := v.unknownFields ++ u } := by
  obtain ⟨fs, hfs, hun⟩ := hu
  unfold decodeInto
  rw [hfs]
  simp only
  rw [foldFields_value_unknown v fs hun, scanFields_raw u fs hfs]

theorem payload_eq_some (i : isValue_Val) (p : i.variant.Payload)
    (h : i.payload = some p) : i = i.variant.wrap p := by
  cases i <;> rename_i q <;> cases q <;>
    first
      | exact Option.noConfusion h
      | (simp only [isValue_Val.payload, Option.map_some', Option.some.injEq] at h
         subst h
         rfl)

/-- Decoding the encoding of a well-formed `Value` returns it, in the form
`Value.canon` describes. -/
theorem Decode_Encode (v : Value) (hw : Value.wellFormed (some v))
    (hl : (Encode v).length < 18446744073709551616) :
    Decode (Encode v) = .ok (Value.canon (some v)) := by
  obtain ⟨u, val⟩ := v
  obtain ⟨hp, hu⟩ := hw
  simp only at hp hu
  cases val with
  | none =>
    simp only [Encode, List.nil_append, Decode, Value.canon]
    rw [decodeInto_unknownData _ u hu]
    rfl
  | some i =>
    cases hpay : i.payload with
    | none =>
      simp only [Encode, hpay, List.nil_append, Decode, Value.canon]
      rw [decodeInto_unknownData _ u hu]
      rfl
    | some p =>
      simp only [hpay] at hp
      simp only [Encode, hpay, List.length_append] at hl
      have hf := isOneofField_encodeField i.variant p hp (by omega)
      simp only [Encode, hpay, Decode, Value.canon]
      rw [decodeInto_field_append _ _ _ u hf, decodeInto_unknownData _ u hu]
      rfl

theorem Decode_encodeValuePtr (v : Option Value) (hw : Value.wellFormed v)
    (hl : (encodeValuePtr v).length < 18446744073709551616) :
    Decode (encodeValuePtr v) = .ok (Value.canon v) := by
  cases v with
  | none => rfl
  | some v => exact Decode_Encode v hw hl

theorem specEqConstruct_wrap (u : List Byte) (X : Variant) (q p : X.Payload) :
    Value.specEqConstruct { unknownFields := u, Val := some (X.wrap q) } X p
      = X.wrapper.goType.payloadEq q p := by
  cases X <;> rfl

theorem unpopulated_canon (v : Option Value) (h : Value.unpopulated v = true) :
    Value.unpopulated (some (Value.canon v)) = true := by
  cases v with
  | none => rfl
  | some v =>
    obtain ⟨u, val⟩ := v
    cases val with
    | none => rfl
    | some i =>
      simp only [Value.unpopulated, Value.GetVal, Option.isNone_iff_eq_none] at h
      simp only [Value.unpopulated, Value.GetVal, Value.canon, h]

theorem sameConstruct_wrap (u : List Byte) (X : Variant) (q p : X.Payload) :
    Value.sameConstruct { unknownFields := u, Val := some (X.wrap q) } X p
      = X.wrapper.goType.same q p := by
  cases X <;> rfl

/-- A `Value` read back holds the same content as the one encoded. -/
theorem sameValue_canon (v : Option Value) :
    Value.sameValue (some (Value.canon v)) v = true := by
  cases v with
  | none => rfl
  | some v =>
    obtain ⟨u, val⟩ := v
    cases val with
    | none => rfl
    | some i =>
      cases hpay : i.payload with
      | none =>
        simp only [Value.sameValue, Value.GetVal, hpay]
        exact unpopulated_canon _ (by simp [Value.unpopulated, Value.GetVal, hpay])
      | some p =>
        simp only [Value.sameValue, Value.GetVal, hpay, Value.canon,
          sameConstruct_wrap, goType_same_canon]

theorem foldFields_elements (acc : RepeatedValue) (vs : List (Option Value))
    (hw : ∀ v ∈ vs, Value.wellFormed v)
    (hl : ∀ v ∈ vs, (encodeValuePtr v).length < 18446744073709551616) :
    foldFields RepeatedValue.applyField acc
        (vs.map fun v => RawField.ofData RepeatedValue.tag.number (.bytes (encodeValuePtr v)))
      = .ok { acc with Val := acc.Val ++ vs.map fun v => some (Value.canon v) } := by
  induction vs generalizing acc with
  | nil => simp [foldFields]
  | cons v vs ih =>
    have hv : RepeatedValue.applyField acc
        (RawField.ofData RepeatedValue.tag.number (.bytes (encodeValuePtr v)))
        = .ok { acc with Val := acc.Val ++ [some (Value.canon v)] } := by
      have hd := Decode_encodeValuePtr v (hw v (List.mem_cons_self _ _))
        (hl v (List.mem_cons_self _ _))
      have he : RepeatedValue.isElement
          (RawField.ofData RepeatedValue.tag.number (.bytes (encodeValuePtr v))) := ⟨rfl, rfl⟩
      rw [RepeatedValue.applyField, if_pos he]
      simp only [RawField.ofData, hd]
    simp only [List.map_cons, foldFields, hv]
    rw [ih _ (fun w hw' => hw w (List.mem_cons_of_mem _ hw'))
      (fun w hw' => hl w (List.mem_cons_of_mem _ hw'))]
    simp

theorem foldFields_repeated_unknown (acc : RepeatedValue) (fs : List RawField)
    (h : ∀ f ∈ fs, ¬ RepeatedValue.isElement f) :
    foldFields RepeatedValue.applyField acc fs
      = .ok { acc with
              unknownFields := acc.unknownFields ++ (fs.map fun f => f.raw).flatten } := by
  induction fs generalizing acc with
  | nil => simp [foldFields]
  | cons f fs ih =>
    have hf : RepeatedValue.applyField acc f
        = .ok { acc with unknownFields := acc.unknownFields ++ f.raw } := by
      simp only [RepeatedValue.applyField, h f (List.mem_cons_self _ _), ↓reduceIte]
    simp only [foldFields, hf]
    rw [ih _ (fun g hg => h g (List.mem_cons_of_mem _ hg))]
    simp

theorem DecodeRepeatedValue_Encode (r : RepeatedValue)
    (hw : ∀ v ∈ r.Val, Value.wellFormed v)
    (hu : UnknownData RepeatedValue.isElement r.unknownFields)
    (hl : (EncodeRepeatedValue r).length < 18446744073709551616) :
    DecodeRepeatedValue (EncodeRepeatedValue r)
      = .ok { unknownFields := r.unknownFields,
              Val := r.Val.map fun v => some (Value.canon v) } := by
  obtain ⟨fs, hfs, hun⟩ := hu
  have hlen : ∀ v ∈ r.Val, (encodeValuePtr v).length < 18446744073709551616 := by
    intro v hv
    have h1 := length_le_flatten_map (fun v =>
      appendTag RepeatedValue.tag.number RepeatedValue.tag.wire ++
        (WireData.bytes (encodeValuePtr v)).encode) r.Val v hv
    have hr : ∀ run : List Byte,
        (WireData.bytes run).encode = appendVarint run.length ++ run := fun _ => rfl
    simp only [hr, List.length_append] at h1
    simp only [EncodeRepeatedValue, hr, List.length_append] at hl
    omega
  have e : EncodeRepeatedValue r
      = ((r.Val.map fun v => WireData.bytes (encodeValuePtr v)).map fun d =>
          (RawField.ofData RepeatedValue.tag.number d).raw).flatten ++ r.unknownFields := by
    simp only [EncodeRepeatedValue, List.map_map]
    rfl
  unfold DecodeRepeatedValue
  rw [e, scanFields_ofData_list RepeatedValue.tag.number _ r.unknownFields (by
    intro d hd
    obtain ⟨v, hv, rfl⟩ := List.mem_map.1 hd
    exact hlen v hv) (by decide), hfs]
  simp only [List.map_map]
  rw [foldFields_append]
  have h2 := foldFields_elements { unknownFields := [], Val := [] } r.Val hw hlen
  have h3 : foldFields RepeatedValue.applyField { unknownFields := [], Val := [] }
      (List.map (RawField.ofData RepeatedValue.tag.number ∘
        fun v => WireData.bytes (encodeValuePtr v)) r.Val)
      = .ok { unknownFields := [], Val := r.Val.map fun v => some (Value.canon v) } := by
    simpa [Function.comp] using h2
  rw [h3]
  simp only
  rw [foldFields_repeated_unknown _ fs hun, scanFields_raw r.unknownFields fs hfs]
  simp

theorem listEq_map_left {α : Type} (eq : α → α → Bool) (f : α → α) (xs : List α) :
    listEq eq (xs.map f) xs = xs.all fun x => eq (f x) x := by
  induction xs with
  | nil => rfl
  | cons x xs ih => simp only [List.map_cons, listEq, ih, List.all_cons]

/-- C13, as stated, fails when unknown-field data holds a field the message
declares, since that data is written after the elements and read back as
fields.  A `RepeatedValue` with no element whose unknown-field data is the
bytes 10, 0 (field 1, length-delimited, empty) decodes to a sequence of length
one.  A `RepeatedValue` whose one element is an unset `Value` carrying the bytes
24, 5 (field 3, varint 5) decodes to an element holding int32 5.  A
`RepeatedValue` whose one element holds the int32 list [1] carrying the bytes
10, 1, 5 decodes to an element holding the list [1, 5]. -/
theorem repeated_not_preserved :
    (DecodeRepeatedValue (EncodeRepeatedValue { unknownFields := [10, 0], Val := [] })
        = .ok { unknownFields := [], Val := [some Value.unset] } ∧
      ¬ ∃ r', DecodeRepeatedValue (EncodeRepeatedValue { unknownFields := [10, 0], Val := [] })
          = .ok r' ∧
        (RepeatedValue.GetVal (some r')).length
          = (RepeatedValue.GetVal (some { unknownFields := [10, 0], Val := [] })).length) ∧
    (¬ ∃ r', DecodeRepeatedValue (EncodeRepeatedValue
          { unknownFields := [], Val := [some { unknownFields := [24, 5], Val := none }] })
          = .ok r' ∧
        listEq Value.sameValue (RepeatedValue.GetVal (some r'))
          [some { unknownFields := [24, 5], Val := none }] = true) ∧
    (¬ ∃ r', DecodeRepeatedValue (EncodeRepeatedValue
          { unknownFields := [],
            Val := [some (Construct .int32_list_val
              (some { unknownFields := [10, 1, 5], Val := [⟨1, by decide⟩] }))] })
          = .ok r' ∧
        listEq Value.sameValue (RepeatedValue.GetVal (some r'))
          [some (Construct .int32_list_val
            (some { unknownFields := [10, 1, 5], Val := [⟨1, by decide⟩] }))] = true) := by
  have h1 : DecodeRepeatedValue (EncodeRepeatedValue { unknownFields := [10, 0], Val := [] })
      = .ok { unknownFields := [], Val := [some Value.unset] } := by decide
  have h2 : DecodeRepeatedValue (EncodeRepeatedValue
        { unknownFields := [], Val := [some { unknownFields := [24, 5], Val := none }] })
      = .ok { unknownFields := [],
              Val := [some (Construct .int32_val ⟨5, by decide⟩)] } := by decide
  have h3 : DecodeRepeatedValue (EncodeRepeatedValue
        { unknownFields := [],
          Val := [some (Construct .int32_list_val
            (some { unknownFields := [10, 1, 5], Val := [⟨1, by decide⟩] }))] })
      = .ok { unknownFields := [],
              Val := [some (Construct .int32_list_val
                (some { unknownFields := [], Val := [⟨1, by decide⟩, ⟨5, by decide⟩] }))] } := by
    decide
  refine ⟨⟨h1, ?_⟩, ?_, ?_⟩
  · rintro ⟨r', hr, he⟩
    rw [h1] at hr
    injection hr with hr
    subst hr
    revert he
    decide
  · rintro ⟨r', hr, he⟩
    rw [h2] at hr
    injection hr with hr
    subst hr
    revert he
    decide
  · rintro ⟨r', hr, he⟩
    rw [h3] at hr
    injection hr with hr
    subst hr
    revert he
    decide

/-- C13, amended: for every `RepeatedValue` `r` with elements `[v1, ..., vn]` (any
`n`) such that the unknown-field data of `r`, of every element, and of the list
container an element holds, is well-formed wire data made only of fields the
message carrying it does not declare, and such that the encoding is shorter
than 2^64 bytes, decoding the encoding of `r` succeeds and `GetVal` of the
result has the same length `n` and, at every index `i`, the element `vi` read
back (`Value.canon`): the same alternative and the same payload, pattern for
pattern (`Value.sameValue`), a nil element or nil wrapper being an unset
`Value` and a nil container the empty container; an element that is its own
reading back comes back as itself.  A string_list `Value` with payload
["a","bb","ccc"] decodes to exactly that sequence. -/
theorem repeated_order_preserved (r : RepeatedValue)
    (hw : ∀ v ∈ r.Val, Value.wellFormed v)
    (hu : UnknownData RepeatedValue.isElement r.unknownFields)
    (hl : (EncodeRepeatedValue r).length < 18446744073709551616) :
    (∃ r', DecodeRepeatedValue (EncodeRepeatedValue r) = .ok r') ∧
    (∀ r', DecodeRepeatedValue (EncodeRepeatedValue r) = .ok r' →
      RepeatedValue.GetVal (some r') = r.Val.map (fun v => some (Value.canon v)) ∧
      (RepeatedValue.GetVal (some r')).length = (RepeatedValue.GetVal (some r)).length ∧
      (∀ (i : Nat) (v : Option Value), (RepeatedValue.GetVal (some r))[i]? = some v →
        (RepeatedValue.GetVal (some r'))[i]? = some (some (Value.canon v)) ∧
        Value.sameValue (some (Value.canon v)) v = true ∧
        (some (Value.canon v) = v → (RepeatedValue.GetVal (some r'))[i]? = some v)) ∧
      listEq Value.sameValue (RepeatedValue.GetVal (some r'))
        (RepeatedValue.GetVal (some r)) = true) ∧
    (Decode (Encode (Construct .string_list_val
        (some { unknownFields := [], Val := [[97], [98, 98], [99, 99, 99]] })))).map
        (fun v => (Value.GetStringListVal (some v)).map StringList.GetVal)
      = .ok (.ok [[97], [98, 98], [99, 99, 99]]) := by
  have hd := DecodeRepeatedValue_Encode r hw hu hl
  refine ⟨⟨_, hd⟩, ?_, by decide⟩
  intro r' hr'
  rw [hd] at hr'
  injection hr' with hr'
  subst hr'
  have hg : RepeatedValue.GetVal (some r) = r.Val := rfl
  rw [hg]
  refine ⟨rfl, by simp [RepeatedValue.GetVal], ?_, ?_⟩
  · intro i v hv
    have h1 : (r.Val.map fun v => some (Value.canon v))[i]? = some (some (Value.canon v)) := by
      simp only [List.getElem?_map, hv, Option.map_some']
    refine ⟨h1, sameValue_canon v, ?_⟩
    intro hc
    exact h1.trans (congrArg some hc)
  · show listEq Value.sameValue (r.Val.map fun v => some (Value.canon v)) r.Val = true
    rw [listEq_map_left, List.all_eq_true]
    intro v _
    exact sameValue_canon v

theorem repeated_order_preserved_witness :
    (∃ r', DecodeRepeatedValue (EncodeRepeatedValue
        { unknownFields := [72, 43],
          Val := [some (Construct .int32_val ⟨1, by decide⟩), none,
                  some (Construct .string_val [97])] }) = .ok r') ∧
    (∀ r', DecodeRepeatedValue (EncodeRepeatedValue
        { unknownFields := [72, 43],
          Val := [some (Construct .int32_val ⟨1, by decide⟩), none,
                  some (Construct .string_val [97])] }) = .ok r' →
      RepeatedValue.GetVal (some r')
        = [some (Construct .int32_val ⟨1, by decide⟩), none,
            some (Construct .string_val [97])].map (fun v => some (Value.canon v)) ∧
      (RepeatedValue.GetVal (some r')).length
        = (RepeatedValue.GetVal (some
            { unknownFields := [72, 43],
              Val := [some (Construct .int32_val ⟨1, by decide⟩), none,
                      some (Construct .string_val [97])] })).length ∧
      (∀ (i : Nat) (v : Option Value),
        (RepeatedValue.GetVal (some
            { unknownFields := [72, 43],
              Val := [some (Construct .int32_val ⟨1, by decide⟩), none,
                      some (Construct .string_val [97])] }))[i]? = some v →
        (RepeatedValue.GetVal (some r'))[i]? = some (some (Value.canon v)) ∧
        Value.sameValue (some (Value.canon v)) v = true ∧
        (some (Value.canon v) = v → (RepeatedValue.GetVal (some r'))[i]? = some v)) ∧
      listEq Value.sameValue (RepeatedValue.GetVal (some r'))
        (RepeatedValue.GetVal (some
          { unknownFields := [72, 43],
            Val := [some (Construct .int32_val ⟨1, by decide⟩), none,
                    some (Construct .string_val [97])] })) = true) ∧
    (Decode (Encode (Construct .string_list_val
        (some { unknownFields := [], Val := [[97], [98, 98], [99, 99, 99]] })))).map
        (fun v => (Value.GetStringListVal (some v)).map StringList.GetVal)
      = .ok (.ok [[97], [98, 98], [99, 99, 99]]) :=
  repeated_order_preserved
    { unknownFields := [72, 43],
      Val := [some (Construct .int32_val ⟨1, by decide⟩), none,
              some (Construct .string_val [97])] }
    (by
      intro v hv
      simp only [List.mem_cons, List.mem_singleton, List.mem_nil_iff, or_false] at hv
      rcases hv with rfl | rfl | rfl
      · exact ⟨trivial, [], rfl, fun _ h => by cases h⟩
      · exact trivial
      · exact ⟨trivial, [], rfl, fun _ h => by cases h⟩)
    ⟨[{ number := 9, data := .varint 43, raw := [72, 43] }], by decide, by decide⟩
    (by decide)

end Feast
